import Mathlib

/-!
# The lazy-evaluation core of Nix: value model, thunk forcing, call-depth guard

A shallow embedding of `src/libexpr/value.hh` (tags, normal types, list
accessors, mutators), of `src/libexpr/include/nix/expr/eval-inline.hh`
(allocation, `forceValue`, `forceAttrs`, `forceList`, `addCallDepth`), of
`src/libstore/posix-fs-canonicalise.cc` (canonical permissions, timestamp and
ownership of store paths) and of the class `AutoCloseFD` of
`src/libutil/file-descriptor.cc`.

Conventions of the embedding
* A `Value &` / `Value *` is an address (`Ptr`); the value graph is the map
  `EvalState.values` from addresses to nodes, so that aliasing and in-place
  overwriting are visible.  The null pointer is `0`.
* A `Value` is its tag plus the two machine words of the payload union.
* A C++ call either returns, throws (the state reached so far survives the
  throw) or aborts the process: `Outcome`, and `Run` for calls that return a
  value.
* `Expr::eval` and `EvalState::callFunction` are collaborators whose code is
  outside these sources; they are parameters (`Collab`).
* eval-inline.hh is written against members of `Value` and `EvalState` that
  value.hh does not declare (`isThunk`, `isApp`, `isBlackhole`, `mkBlackhole`,
  `mkThunk`, `tryFixupBlackHolePos`, the class `CallDepth`); each is modelled
  from the specification and says so.
* The operating system is a state with the calls it can refuse (`Fs`, `FdSys`,
  `MemSource`); recursion into directories is bounded by a depth argument.
-/

namespace Nix

/-! ## value.hh: tags and normal types -/

/-- The enumeration `ValueType` of value.hh (lines 12-30). -/
inductive ValueType
  | tInt | tBool | tString | tPath | tNull | tAttrs
  | tList1 | tList2 | tListN
  | tThunk | tApp | tLambda | tBlackhole
  | tPrimOp | tPrimOpApp | tExternal | tFloat
  deriving DecidableEq, Repr

/-- The enumeration `NormalType` of value.hh (lines 35-47). -/
inductive NormalType
  | nThunk | nInt | nFloat | nBool | nString | nPath | nNull
  | nAttrs | nList | nFunction | nExternal
  deriving DecidableEq, Repr

/-- The enumerator values: `tInt = 1`, every later enumerator one more than
its predecessor. -/
def ValueType.toNat : ValueType → Nat
  | .tInt => 1
  | .tBool => 2
  | .tString => 3
  | .tPath => 4
  | .tNull => 5
  | .tAttrs => 6
  | .tList1 => 7
  | .tList2 => 8
  | .tListN => 9
  | .tThunk => 10
  | .tApp => 11
  | .tLambda => 12
  | .tBlackhole => 13
  | .tPrimOp => 14
  | .tPrimOpApp => 15
  | .tExternal => 16
  | .tFloat => 17

/-- Which enumerator, if any, a stored tag word denotes (the `case` labels a
`switch (type)` can select). -/
def ValueType.ofNat? : Nat → Option ValueType
  | 1 => some .tInt
  | 2 => some .tBool
  | 3 => some .tString
  | 4 => some .tPath
  | 5 => some .tNull
  | 6 => some .tAttrs
  | 7 => some .tList1
  | 8 => some .tList2
  | 9 => some .tListN
  | 10 => some .tThunk
  | 11 => some .tApp
  | 12 => some .tLambda
  | 13 => some .tBlackhole
  | 14 => some .tPrimOp
  | 15 => some .tPrimOpApp
  | 16 => some .tExternal
  | 17 => some .tFloat
  | _ => none

/-- A pointer; `0` is the null pointer. -/
abbrev Ptr := Nat

/-- A position index (`PosIdx`). -/
abbrev PosIdx := Nat

/-- The node `struct Value` of value.hh: the tag field `type` as stored (an
enumerator value; zeroed memory holds `0`, which is no enumerator) and the
anonymous payload union.  Every member of the union starts at offset 0;
the members made of two pointer-sized fields (`string`, `bigList`,
`smallList`, `thunk`, `app`, `lambda`, `primOpApp`) cover `word0` and
`word1`, the others (`integer`, `boolean`, `path`, `attrs`, `primOp`,
`external`, `fpoint`) cover `word0`. -/
structure Value where
  type : Nat
  word0 : Nat
  word1 : Nat
  deriving DecidableEq, Repr

namespace Value

/-- The comparison `type == t` against an enumerator. -/
def hasType (v : Value) (t : ValueType) : Bool := v.type == t.toNat

/-- Union member `thunk.env`. -/
def thunk_env (v : Value) : Ptr := v.word0
/-- Union member `thunk.expr`. -/
def thunk_expr (v : Value) : Ptr := v.word1
/-- Union member `app.left`. -/
def app_left (v : Value) : Ptr := v.word0
/-- Union member `app.right`. -/
def app_right (v : Value) : Ptr := v.word1
/-- Union member `bigList.size`. -/
def bigList_size (v : Value) : Nat := v.word0
/-- Union member `bigList.elems`. -/
def bigList_elems (v : Value) : Ptr := v.word1

/-- Union member `smallList`, an array of two pointers inside the node;
an index past the array has no defined entry. -/
def smallList (v : Value) (i : Nat) : Option Ptr :=
  match i with
  | 0 => some v.word0
  | 1 => some v.word1
  | _ => none

/-- The method `Value::normalType` (value.hh lines 187-203): a `switch` over the
tag whose fall-through is `abort()`, rendered as `none`. -/
def normalType (v : Value) : Option NormalType :=
  match ValueType.ofNat? v.type with
  | some .tInt => some .nInt
  | some .tBool => some .nBool
  | some .tString => some .nString
  | some .tPath => some .nPath
  | some .tNull => some .nNull
  | some .tAttrs => some .nAttrs
  | some .tList1 => some .nList
  | some .tList2 => some .nList
  | some .tListN => some .nList
  | some .tLambda => some .nFunction
  | some .tPrimOp => some .nFunction
  | some .tPrimOpApp => some .nFunction
  | some .tExternal => some .nExternal
  | some .tFloat => some .nFloat
  | some .tThunk => some .nThunk
  | some .tApp => some .nThunk
  | some .tBlackhole => some .nThunk
  | none => none

/-- The method `Value::isList` (value.hh lines 205-208). -/
def isList (v : Value) : Bool :=
  v.hasType .tList1 || v.hasType .tList2 || v.hasType .tListN

/-- The method `Value::listElems` (value.hh lines 210-218): the array the returned
pointer designates, as the function from index to entry.  The inline array
lives in the node; the external one is read from the element storage `mem`
at `bigList.elems + i` (addresses count pointer-sized cells). -/
def listElems (v : Value) (mem : Ptr → Ptr) (i : Nat) : Option Ptr :=
  if v.hasType .tList1 || v.hasType .tList2 then v.smallList i
  else some (mem (v.bigList_elems + i))

/-- The method `Value::listSize` (value.hh lines 220-223). -/
def listSize (v : Value) : Nat :=
  if v.hasType .tList1 then 1 else if v.hasType .tList2 then 2 else v.bigList_size

end Value

/-! ## Errors, outcomes, evaluator state -/

/-- The exception classes a call can throw: the ones the sources name
(`TypeError`, `EvalBaseError`, `InfiniteRecursionError`, `std::bad_alloc`)
and `EvalError n`, any other error raised by expression evaluation (§7),
told apart by `n`. -/
inductive ErrorKind
  | TypeError
  | EvalBaseError
  | InfiniteRecursionError
  | bad_alloc
  | EvalError (n : Nat)
  deriving DecidableEq, Repr

/-- An exception object: its class, the format string of its message, the
node handed to `showType` / `ValuePrinter` for the message's arguments, the
position set by `atPos`, and the traces added by `withTrace`. -/
structure Error where
  kind : ErrorKind
  msg : String
  subject : Option Value
  pos : Option PosIdx
  traces : List (PosIdx × String)
  deriving DecidableEq, Repr

/-- How a C++ call ends: it returns in state `s`; it throws `e`, the state
reached when the exception leaves the call being `s`; or the process is
aborted (a failed `assert`, `abort()`). -/
inductive Outcome (S : Type)
  | ok (s : S)
  | throw (e : Error) (s : S)
  | abort

/-- The settings object read by the evaluator (only `maxCallDepth` is used). -/
structure EvalSettings where
  maxCallDepth : Nat
  deriving DecidableEq, Repr

/-- The evaluator together with the memory it works on: the value graph
(which node is stored at which address), the member `callDepth`, the
member `settings`, and `ext`, everything else the collaborators keep (for
instance a counter of observable side effects). -/
structure EvalState (σ : Type) where
  values : Ptr → Value
  callDepth : Nat
  settings : EvalSettings
  ext : σ

namespace EvalState

/-- Overwrite the node stored at address `a`. -/
def setValue {σ : Type} (s : EvalState σ) (a : Ptr) (v : Value) : EvalState σ :=
  { s with values := fun b => if b = a then v else s.values b }

end EvalState

/-- The collaborators whose code is outside the sources: `Expr::eval`, called as
`expr->eval(*this, *env, v)` (arguments: expression, environment, output
node), and `EvalState::callFunction`, called as
`callFunction(fun, arg, vRes, pos)`. -/
structure Collab (σ : Type) where
  eval : Ptr → Ptr → Ptr → EvalState σ → Outcome (EvalState σ)
  callFunction : Ptr → Ptr → Ptr → PosIdx → EvalState σ → Outcome (EvalState σ)

/-! ## Node predicates and mutators that eval-inline.hh uses -/

/-- Modelled from the spec: the sentinel expression that marks a Blackhole, an
object of the class `ExprBlackHole` that eval-inline.hh names, is declared
outside the sources.  This is its address, one fixed non-null address. -/
def eBlackHole : Ptr := 1

namespace Value

/-- Modelled from the spec: `Value::isThunk` is not declared in value.hh.
§4.4 step 3: the branch taken by a node that captures an environment and an
expression, which is the thunk tag. -/
def isThunk (v : Value) : Bool := v.hasType .tThunk

/-- Modelled from the spec: `Value::isApp` is not declared in value.hh.
§4.4 step 2: the node is an Application. -/
def isApp (v : Value) : Bool := v.hasType .tApp

/-- Modelled from the spec: `Value::mkThunk` is not declared in value.hh.
§4.4 step 3d: the node becomes a Thunk with the given environment and
expression. -/
def mkThunk (_v : Value) (env expr : Ptr) : Value :=
  { type := ValueType.tThunk.toNat, word0 := env, word1 := expr }

/-- Modelled from the spec: `Value::isBlackhole` is not declared in value.hh.
§3 and §4.4 step 3a-3b: a Blackhole is a sentinel that `forceValue` meets in
its thunk branch with an absent environment, and `forceValue` asserts
`env || v.isBlackhole()`, so being a Blackhole is more than lacking an
environment; the catch block rebuilds the node it read with
`mkThunk(env, expr)`, so it is decided by the captured pair.  The sentinel is
the expression `eBlackHole` of the class `ExprBlackHole` the source names. -/
def isBlackhole (v : Value) : Bool := v.hasType .tThunk && v.thunk_expr == eBlackHole

/-- Modelled from the spec: `Value::mkBlackhole` is not declared in value.hh.
§4.4 step 3b: the node is overwritten to Blackhole, its environment becoming
absent (zero) and its expression the sentinel. -/
def mkBlackhole (v : Value) : Value := v.mkThunk 0 eBlackHole

end Value

/-- Modelled from the spec: `ExprBlackHole::throwInfiniteRecursionError` is
declared outside the sources.  §4.4 step 3a and §7: it raises
`InfiniteRecursionError`; it always throws. -/
def throwInfiniteRecursionError {σ : Type} (_v : Ptr) (s : EvalState σ) :
    Outcome (EvalState σ) :=
  .throw { kind := .InfiniteRecursionError, msg := "infinite recursion encountered",
           subject := none, pos := none, traces := [] } s

/-- Modelled from the spec: `EvalState::tryFixupBlackHolePos` is declared
outside the sources.  §4.4 step 3d: the error in flight is "annotated with
position if not already annotated"; nothing else of the error changes. -/
def tryFixupBlackHolePos (_v : Value) (pos : PosIdx) (e : Error) : Error :=
  match e.pos with
  | some _ => e
  | none => { e with pos := some pos }

/-! ## eval-inline.hh -/

/-- The method `EvalState::forceValue` (eval-inline.hh lines 48-70).  `v` is the
address of the node.  The `try` block is the blackholing followed by the
evaluation; `catch (...)` catches every exception, rebuilds the thunk in
the node as it then is, lets `tryFixupBlackHolePos` look at the exception
in flight and rethrows it.  An abort is not an exception and is not
caught. -/
def forceValue {σ : Type} (C : Collab σ) (v : Ptr) (pos : PosIdx)
    (s : EvalState σ) : Outcome (EvalState σ) :=
  if (s.values v).isThunk then
    let env := (s.values v).thunk_env
    if !(env != 0 || (s.values v).isBlackhole) then .abort
    else
      let expr := (s.values v).thunk_expr
      let s1 := s.setValue v (s.values v).mkBlackhole
      let r := if env != 0 then C.eval expr env v s1
               else throwInfiniteRecursionError v s1
      match r with
      | .throw e s2 =>
          let s3 := s2.setValue v ((s2.values v).mkThunk env expr)
          .throw (tryFixupBlackHolePos (s3.values v) pos e) s3
      | .ok s2 => .ok s2
      | .abort => .abort
  else if (s.values v).isApp then
    C.callFunction (s.values v).app_left (s.values v).app_right v pos s
  else .ok s

/-- The template `EvalState::forceAttrs(Value &, Callable getPos, errorCtx)`
(eval-inline.hh lines 80-93).  `v.type()` is the normal type of the node
(§4.5: "asserts normalType() == Attrs"); where `normalType` aborts, so does
the call.  `debugThrow` throws the error built. -/
def forceAttrsWith {σ : Type} (C : Collab σ) (v : Ptr) (getPos : Unit → PosIdx)
    (errorCtx : String) (s : EvalState σ) : Outcome (EvalState σ) :=
  let pos := getPos ()
  match forceValue C v pos s with
  | .ok s1 =>
      match (s1.values v).normalType with
      | none => .abort
      | some t =>
          if t != .nAttrs then
            .throw { kind := .TypeError, msg := "expected a set but found %1%: %2%",
                     subject := some (s1.values v), pos := none,
                     traces := [(pos, errorCtx)] } s1
          else .ok s1
  | .throw e s1 => .throw e s1
  | .abort => .abort

/-- The method `EvalState::forceAttrs(Value &, const PosIdx, errorCtx)`
(eval-inline.hh lines 73-77): the template applied to the callable that returns
`pos`. -/
def forceAttrs {σ : Type} (C : Collab σ) (v : Ptr) (pos : PosIdx)
    (errorCtx : String) (s : EvalState σ) : Outcome (EvalState σ) :=
  forceAttrsWith C v (fun _ => pos) errorCtx s

/-- The method `EvalState::forceList` (eval-inline.hh lines 96-107). -/
def forceList {σ : Type} (C : Collab σ) (v : Ptr) (pos : PosIdx)
    (errorCtx : String) (s : EvalState σ) : Outcome (EvalState σ) :=
  match forceValue C v pos s with
  | .ok s1 =>
      if !(s1.values v).isList then
        .throw { kind := .TypeError, msg := "expected a list but found %1%: %2%",
                 subject := some (s1.values v), pos := none,
                 traces := [(pos, errorCtx)] } s1
      else .ok s1
  | .throw e s1 => .throw e s1
  | .abort => .abort

/-- Modelled from the spec: the class `CallDepth` that `addCallDepth` returns
is declared outside the sources.  §4.6: the guard object increments the
counter it refers to when the nested frame is entered; this is its
constructor `CallDepth(callDepth)`. -/
def CallDepth.enter {σ : Type} (s : EvalState σ) : EvalState σ :=
  { s with callDepth := s.callDepth + 1 }

/-- Modelled from the spec: the end of the guard object's scope (§4.6: the
counter is "decremented on leaving that frame via every exit path", the
decrement being unconditional). -/
def CallDepth.leave {σ : Type} (s : EvalState σ) : EvalState σ :=
  { s with callDepth := s.callDepth - 1 }

/-- The method `EvalState::addCallDepth` (eval-inline.hh lines 109-115): the
comparison, the `EvalBaseError` thrown at `pos`, else the construction of
the guard object. -/
def addCallDepth {σ : Type} (pos : PosIdx) (s : EvalState σ) : Outcome (EvalState σ) :=
  if s.callDepth > s.settings.maxCallDepth then
    .throw { kind := .EvalBaseError, msg := "stack overflow; max-call-depth exceeded",
             subject := none, pos := some pos, traces := [] } s
  else .ok (CallDepth.enter s)

/-- A guarded frame, the way callers use the guard
(`auto _level = addCallDepth(pos); body`): when `addCallDepth` throws, the
frame is left at once; otherwise `body` runs while the guard object is
alive and the object's scope ends when the frame returns and when an
exception unwinds it.  An abort unwinds nothing. -/
def guardedCall {σ : Type} (pos : PosIdx) (body : EvalState σ → Outcome (EvalState σ))
    (s : EvalState σ) : Outcome (EvalState σ) :=
  match addCallDepth pos s with
  | .ok s1 =>
      match body s1 with
      | .ok s2 => .ok (CallDepth.leave s2)
      | .throw e s2 => .throw e (CallDepth.leave s2)
      | .abort => .abort
  | .throw e s1 => .throw e s1
  | .abort => .abort

/-- A chain of `n` guarded frames nested in one another, `body` being what the
innermost frame runs after the `n`-th entry. -/
def nestedCalls {σ : Type} (pos : PosIdx) (body : EvalState σ → Outcome (EvalState σ)) :
    Nat → EvalState σ → Outcome (EvalState σ)
  | 0 => body
  | n + 1 => guardedCall pos (nestedCalls pos body n)

/-! ## Building lists -/

/-- Element storage `mem` after the entries `xs` have been written to the cells
`base`, `base + 1`, ... -/
def storeElems (mem : Ptr → Ptr) (base : Ptr) (xs : List Ptr) : Ptr → Ptr :=
  fun a => if base ≤ a ∧ a < base + xs.length then xs.getD (a - base) 0 else mem a

/-- Modelled from the spec: the construction of a list value is outside the
sources.  §3 List: one or two elements are stored inline in the node
(`smallList`, tags `tList1`, `tList2`), zero or three and more in externally
allocated storage (`bigList`, tag `tListN`), here the cells from `base` on.
Returns the node and the element storage. -/
def mkList (xs : List Ptr) (base : Ptr) (mem : Ptr → Ptr) : Value × (Ptr → Ptr) :=
  match xs with
  | [a] => ({ type := ValueType.tList1.toNat, word0 := a, word1 := 0 }, mem)
  | [a, b] => ({ type := ValueType.tList2.toNat, word0 := a, word1 := b }, mem)
  | _ => ({ type := ValueType.tListN.toNat, word0 := xs.length, word1 := base },
          storeElems mem base xs)

/-! ## The self-referential binding `let x = x; in x` -/

/-- Modelled from the spec: the evaluation of a variable expression is outside
the sources.  §8, `let x = x; in x`: evaluating the expression `x` forces the
node the variable is bound to, here the node at address `x`, and writes the
forced node into the output node `v`.  `force` is the evaluator's
`forceValue`, called at the variable's position `posVar`. -/
def evalVar {σ : Type} (force : Ptr → PosIdx → EvalState σ → Outcome (EvalState σ))
    (x : Ptr) (posVar : PosIdx) (v : Ptr) (s : EvalState σ) : Outcome (EvalState σ) :=
  match force x posVar s with
  | .ok s1 => .ok (s1.setValue v (s1.values x))
  | .throw e s1 => .throw e s1
  | .abort => .abort

/-- The collaborators of a program all of whose thunks hold the expression `x`,
with `x` bound to the node at address `x`: evaluation is `evalVar` over the
evaluator's own `forceValue`.  The recursion between the two is unfolded
`fuel` times; below that the collaborators are `bottom`, whatever they
are. -/
def selfRef {σ : Type} (x : Ptr) (posVar : PosIdx) (bottom : Collab σ) : Nat → Collab σ
  | 0 => bottom
  | fuel + 1 =>
      { eval := fun _ _ v s => evalVar (forceValue (selfRef x posVar bottom fuel)) x posVar v s
        callFunction := bottom.callFunction }

/-- Forcing the node at `v` again and again: `k` forces, each in the state the
previous one left (whether it returned or threw), then one more whose
outcome is the result. -/
def forceAgain {σ : Type} (C : Collab σ) (v : Ptr) (pos : PosIdx) :
    Nat → EvalState σ → Outcome (EvalState σ)
  | 0, s => forceValue C v pos s
  | k + 1, s =>
      match forceValue C v pos s with
      | .ok s1 => forceAgain C v pos k s1
      | .throw _ s1 => forceAgain C v pos k s1
      | .abort => .abort

/-- The contract of the collaborators (§4.4 step 3c, §6): when expression
evaluation or the call mechanism returns, it has written a result into the
output node, that is, the node is then neither a thunk nor an application. -/
def Collab.WritesResult {σ : Type} (C : Collab σ) : Prop :=
  (∀ expr env v s s1, C.eval expr env v s = .ok s1 →
      (s1.values v).isThunk = false ∧ (s1.values v).isApp = false) ∧
  (∀ f a v pos s s1, C.callFunction f a v pos s = .ok s1 →
      (s1.values v).isThunk = false ∧ (s1.values v).isApp = false)

/-! ## Collaborators used as concrete instances -/

/-- A state whose nodes are all the node `d`, at call depth 0. -/
def constState {σ : Type} (d : Value) (maxCallDepth : Nat) (x : σ) : EvalState σ :=
  { values := fun _ => d, callDepth := 0, settings := { maxCallDepth := maxCallDepth }, ext := x }

/-- Collaborators with an observable side effect: every evaluation adds one to
the counter `ext`; the first `failures` evaluations then raise `EvalError 7`
after scribbling over the output node, the later ones write the integer 42
into it.  The call mechanism also counts and writes 42. -/
def countingCollab (failures : Nat) : Collab Nat :=
  { eval := fun _ _ v s =>
      let s1 := { s with ext := s.ext + 1 }
      if s.ext < failures then
        .throw { kind := .EvalError 7, msg := "boom", subject := none, pos := none, traces := [] }
          (s1.setValue v { type := ValueType.tString.toNat, word0 := 99, word1 := 98 })
      else .ok (s1.setValue v { type := ValueType.tInt.toNat, word0 := 42, word1 := 0 })
    callFunction := fun _ _ v _ s =>
      .ok ({ s with ext := s.ext + 1 }.setValue v
            { type := ValueType.tInt.toNat, word0 := 42, word1 := 0 }) }

/-- Collaborators that abort whenever they are called. -/
def abortingCollab (σ : Type) : Collab σ :=
  { eval := fun _ _ _ _ => .abort, callFunction := fun _ _ _ _ _ => .abort }

/-- The counter value in which a call ends, if it does not abort. -/
def Outcome.ext? {σ : Type} : Outcome (EvalState σ) → Option σ
  | .ok s => some s.ext
  | .throw _ s => some s.ext
  | .abort => none

/-- The call depth in the state in which a call ends, if it does not abort. -/
def Outcome.callDepth? {σ : Type} : Outcome (EvalState σ) → Option Nat
  | .ok s => some s.callDepth
  | .throw _ s => some s.callDepth
  | .abort => none

/-- The exception with which a call ends, if it throws. -/
def Outcome.error? {S : Type} : Outcome S → Option Error
  | .throw e _ => some e
  | _ => none

/-- Whether a call returns. -/
def Outcome.isOk {S : Type} : Outcome S → Bool
  | .ok _ => true
  | _ => false

/-- The outcome of a call after `f` has been applied to the state in which the
call returned or threw (what the unwinding of enclosing scopes does to it). -/
def Outcome.mapState {S : Type} (f : S → S) : Outcome S → Outcome S
  | .ok s => .ok (f s)
  | .throw e s => .throw e (f s)
  | .abort => .abort

/-! ## value.hh: mutators -/

namespace Value

/-- The setter `Value::setInt` (value.hh line 111). -/
def setInt (v : Value) : Value := { v with type := ValueType.tInt.toNat }
/-- The setter `Value::setBool` (value.hh line 112). -/
def setBool (v : Value) : Value := { v with type := ValueType.tBool.toNat }
/-- The setter `Value::setPath` (value.hh line 114). -/
def setPath (v : Value) : Value := { v with type := ValueType.tPath.toNat }
/-- The setter `Value::setNull` (value.hh line 115). -/
def setNull (v : Value) : Value := { v with type := ValueType.tNull.toNat }
/-- The setter `Value::setApp` (value.hh line 121). -/
def setApp (v : Value) : Value := { v with type := ValueType.tApp.toNat }
/-- The setter `Value::setFloat` (value.hh line 127). -/
def setFloat (v : Value) : Value := { v with type := ValueType.tFloat.toNat }

/-- The assignment `v.integer = n`: `NixInt` is `int64_t`, eight bytes in two's
complement, which is the whole of `word0`. -/
def assign_integer (v : Value) (n : Int) : Value := { v with word0 := (n % 2 ^ 64).toNat }

/-- Union member `integer`, read back as the `int64_t` it is. -/
def integer (v : Value) : Int :=
  if v.word0 % 2 ^ 64 < 2 ^ 63 then (v.word0 % 2 ^ 64 : Nat) else (v.word0 % 2 ^ 64 : Nat) - 2 ^ 64

/-- The assignment `v.fpoint = n`: `NixFloat` is `double`, taken as its pattern of
64 bits, which is the whole of `word0`. -/
def assign_fpoint (v : Value) (bits : Nat) : Value := { v with word0 := bits % 2 ^ 64 }

/-- Union member `fpoint`, as its pattern of 64 bits. -/
def fpoint (v : Value) : Nat := v.word0 % 2 ^ 64

/-- The assignment `v.boolean = b`: a `bool` is one byte, the byte at offset 0,
which is the least significant byte of `word0` (little-endian); the other
bytes of the union keep what they held. -/
def assign_boolean (v : Value) (b : Bool) : Value :=
  { v with word0 := v.word0 / 256 * 256 + (if b then 1 else 0) }

/-- Union member `boolean`. -/
def boolean (v : Value) : Bool := v.word0 % 256 != 0

/-- The assignment `v.path = s`, a pointer, which is the whole of `word0`. -/
def assign_path (v : Value) (s : Ptr) : Value := { v with word0 := s }

/-- Union member `path`. -/
def path (v : Value) : Ptr := v.word0

/-- The function `clearValue` (value.hh lines 236-239): `v.app.left = v.app.right = 0`. -/
def clearValue (v : Value) : Value := { v with word0 := 0, word1 := 0 }

/-- The function `mkInt` (value.hh lines 242-247). -/
def mkInt (v : Value) (n : Int) : Value := (v.clearValue.setInt).assign_integer n

/-- The function `mkFloat` (value.hh lines 250-255). -/
def mkFloat (v : Value) (bits : Nat) : Value := (v.clearValue.setFloat).assign_fpoint bits

/-- The function `mkBool` (value.hh lines 258-263). -/
def mkBool (v : Value) (b : Bool) : Value := (v.clearValue.setBool).assign_boolean b

/-- The function `mkNull` (value.hh lines 266-270). -/
def mkNull (v : Value) : Value := v.clearValue.setNull

/-- The function `mkApp` (value.hh lines 273-278): the tag, then `app.left` and
`app.right` are set to the addresses of the two operands. -/
def mkApp (v : Value) (left right : Ptr) : Value :=
  { v.setApp with word0 := left, word1 := right }

/-- The function `mkPathNoCopy` (value.hh lines 306-311). -/
def mkPathNoCopy (v : Value) (s : Ptr) : Value := (v.clearValue.setPath).assign_path s

end Value

/-! ## Well-formed value graphs -/

/-- The invariant under which `forceValue` runs: every thunk-tagged node has a
present environment or is a Blackhole. -/
def EvalState.WellFormed {σ : Type} (s : EvalState σ) : Prop :=
  ∀ a, (s.values a).isThunk = true →
    (s.values a).thunk_env ≠ 0 ∨ (s.values a).isBlackhole = true

/-- A property of the state in which a call returns or throws (nothing is
asked of an abort, after which there is no state). -/
def Outcome.Holds {S : Type} (P : S → Prop) : Outcome S → Prop
  | .ok s => P s
  | .throw _ s => P s
  | .abort => True

/-- The collaborators keep the invariant: started in a well-formed graph,
expression evaluation and the call mechanism return or throw in a
well-formed graph. -/
def Collab.PreservesWellFormed {σ : Type} (C : Collab σ) : Prop :=
  (∀ expr env v s, s.WellFormed → (C.eval expr env v s).Holds EvalState.WellFormed) ∧
  (∀ f a v pos s, s.WellFormed → (C.callFunction f a v pos s).Holds EvalState.WellFormed)

/-- The collaborators never abort the process. -/
def Collab.NeverAborts {σ : Type} (C : Collab σ) : Prop :=
  (∀ expr env v s, C.eval expr env v s ≠ .abort) ∧
  (∀ f a v pos s, C.callFunction f a v pos s ≠ .abort)

/-! ## Calls that return a value -/

/-- How a C++ call that returns a value ends: it returns `a` in state `s`, it
throws `e` in state `s`, or the process is aborted. -/
inductive Run (ε α S : Type)
  | ret (a : α) (s : S)
  | throw (e : ε) (s : S)
  | abort

/-- Sequencing: what follows a call runs only if the call returns. -/
def Run.bind {ε α β S : Type} (r : Run ε α S) (k : α → S → Run ε β S) : Run ε β S :=
  match r with
  | .ret a s => k a s
  | .throw e s => .throw e s
  | .abort => .abort

/-- The state in which a call returns or throws, if it does not abort. -/
def Run.state? {ε α S : Type} : Run ε α S → Option S
  | .ret _ s => some s
  | .throw _ s => some s
  | .abort => none

/-! ## posix-fs-canonicalise.cc: the file system -/

/-- The file type mask `S_IFMT` of `<sys/stat.h>`. -/
def S_IFMT : Nat := 0o170000
/-- The file type `S_IFREG`. -/
def S_IFREG : Nat := 0o100000
/-- The file type `S_IFDIR`. -/
def S_IFDIR : Nat := 0o040000
/-- The file type `S_IFLNK`. -/
def S_IFLNK : Nat := 0o120000
/-- The owner-execute bit `S_IXUSR`. -/
def S_IXUSR : Nat := 0o100

/-- The macro `S_ISREG`. -/
def S_ISREG (m : Nat) : Bool := (m &&& S_IFMT) == S_IFREG
/-- The macro `S_ISDIR`. -/
def S_ISDIR (m : Nat) : Bool := (m &&& S_IFMT) == S_IFDIR
/-- The macro `S_ISLNK`. -/
def S_ISLNK (m : Nat) : Bool := (m &&& S_IFMT) == S_IFLNK

/-- The operand `~S_IFMT` as it enters `st.st_mode & ~S_IFMT`, `mode_t` being an
unsigned integer of 32 bits: all bits but the file type bits. -/
def notS_IFMT : Nat := 0xFFFFFFFF - S_IFMT

/-- The constant `mtimeStore` (posix-fs-canonicalise.cc line 16). -/
def mtimeStore : Int := 1

/-- The fields of `struct stat` that the canonicalisation reads. -/
structure Stat where
  st_mode : Nat
  st_uid : Nat
  st_gid : Nat
  st_dev : Nat
  st_ino : Nat
  st_mtime : Int
  deriving DecidableEq, Repr

/-- The error numbers the code tells apart, and any other. -/
inductive Errno
  | ENOTSUP
  | ENODATA
  | other (n : Nat)
  deriving DecidableEq, Repr

/-- The system calls and library calls that can change a file or fail. -/
inductive SysCall
  | lchflags (path : String) (flags : Nat)
  | llistxattr (path : String) (size : Nat)
  | lremovexattr (path : String) (name : String)
  | chmod (path : String) (mode : Nat)
  | setWriteTime (path : String) (mtime : Int)
  | lchown (path : String) (uid gid : Nat)
  | chown (path : String) (uid gid : Nat)
  deriving DecidableEq, Repr

/-- The attributes of an inode that the canonicalisation reads or changes. -/
structure InodeAttr where
  st_mode : Nat
  st_uid : Nat
  st_gid : Nat
  st_mtime : Int
  deriving DecidableEq, Repr

/-- The file system and process as the canonicalisation sees them: which
(device, inode) pair each path names (`none`: no such file; the names of a
hard-linked file name one inode), the attributes and the extended attribute
names of each inode, the entries a directory iterator yields (as paths),
the effective user and group, which calls the system refuses and with which
error number, whether an interrupt is pending, and the calls issued so far,
oldest first. -/
structure Fs where
  inodeOf : String → Option (Nat × Nat)
  attrs : Nat × Nat → InodeAttr
  xattrs : Nat × Nat → List String
  entries : String → List String
  euid : Nat
  egid : Nat
  refuses : SysCall → Option Errno
  interrupted : Bool
  calls : List SysCall

/-- The build configuration and settings the code depends on: the macros
`__APPLE__`, `NIX_SUPPORT_ACL`, `HAVE_LCHOWN`, and the setting `ignoredAcls`. -/
structure StoreConfig where
  apple : Bool
  supportAcl : Bool
  haveLchown : Bool
  ignoredAcls : List String
  deriving DecidableEq, Repr

/-- The exception classes of the store and utility layers. -/
inductive StoreErrorKind
  | SysError
  | NativeSysError
  | BuildError
  | Error
  | Interrupted
  deriving DecidableEq, Repr

/-- An argument formatted into an error message. -/
inductive FmtArg
  | str (s : String)
  | num (n : Nat)
  | int (i : Int)
  deriving DecidableEq, Repr

/-- An exception of the store and utility layers: class, format string,
arguments. -/
structure StoreError where
  kind : StoreErrorKind
  msg : String
  args : List FmtArg
  deriving DecidableEq, Repr

namespace Fs

/-- What `lstat` reports of a path: the attributes of the inode it names, with
the device and inode numbers; `none` when there is no such file. -/
def stat (fs : Fs) (path : String) : Option Stat :=
  match fs.inodeOf path with
  | some i =>
      some { st_mode := (fs.attrs i).st_mode, st_uid := (fs.attrs i).st_uid,
             st_gid := (fs.attrs i).st_gid, st_dev := i.1, st_ino := i.2,
             st_mtime := (fs.attrs i).st_mtime }
  | none => none

/-- The extended attribute names of the file a path names. -/
def xattrsOf (fs : Fs) (path : String) : List String :=
  match fs.inodeOf path with
  | some i => fs.xattrs i
  | none => []

/-- Record that a call is issued. -/
def issue (fs : Fs) (c : SysCall) : Fs := { fs with calls := fs.calls ++ [c] }

/-- Give the inode that `path` names the mode, owner, group and modification
time of `st`; every name of that inode then reports them. -/
def setStat (fs : Fs) (path : String) (st : Stat) : Fs :=
  match fs.inodeOf path with
  | some i =>
      { fs with attrs := fun j =>
          if j = i then
            { st_mode := st.st_mode, st_uid := st.st_uid, st_gid := st.st_gid,
              st_mtime := st.st_mtime }
          else fs.attrs j }
  | none => fs

/-- The system call `chmod(path, mode)`: it returns -1 when the system refuses
it or the file does not exist; otherwise it returns 0 and the file has the
permission bits of `mode` and keeps its file type. -/
def chmod (fs : Fs) (path : String) (mode : Nat) : Int × Fs :=
  match fs.refuses (.chmod path mode), fs.stat path with
  | none, some st =>
      (0, (fs.issue (.chmod path mode)).setStat path
            { st with st_mode := (st.st_mode &&& S_IFMT) ||| (mode &&& 0o7777) })
  | _, _ => (-1, fs.issue (.chmod path mode))

/-- The system call `lchown(path, uid, gid)`: -1 when refused or when the file
does not exist; otherwise 0 and the file has the owner and group. -/
def lchown (fs : Fs) (path : String) (uid gid : Nat) : Int × Fs :=
  match fs.refuses (.lchown path uid gid), fs.stat path with
  | none, some st =>
      (0, (fs.issue (.lchown path uid gid)).setStat path { st with st_uid := uid, st_gid := gid })
  | _, _ => (-1, fs.issue (.lchown path uid gid))

/-- The system call `chown(path, uid, gid)`, used on files that are not
symlinks: -1 when refused or when the file does not exist; otherwise 0 and
the file has the owner and group. -/
def chown (fs : Fs) (path : String) (uid gid : Nat) : Int × Fs :=
  match fs.refuses (.chown path uid gid), fs.stat path with
  | none, some st =>
      (0, (fs.issue (.chown path uid gid)).setStat path { st with st_uid := uid, st_gid := gid })
  | _, _ => (-1, fs.issue (.chown path uid gid))

/-- The system call `lchflags(path, flags)`: 0, or non-zero with an error
number when the system refuses it.  File flags are not modelled further. -/
def lchflags (fs : Fs) (path : String) (flags : Nat) : Int × Option Errno × Fs :=
  match fs.refuses (.lchflags path flags) with
  | none => (0, none, fs.issue (.lchflags path flags))
  | some e => (-1, some e, fs.issue (.lchflags path flags))

/-- The number of bytes of a list of attribute names, each followed by a NUL. -/
def eaBytes (names : List String) : Nat := (names.map (fun n => n.utf8ByteSize + 1)).sum

/-- The system call `llistxattr(path, buf, size)`: -1 with an error number when
refused, otherwise the number of bytes of the attribute names of the file,
which are left in the buffer when there is one (`size` is not 0). -/
def llistxattr (fs : Fs) (path : String) (size : Nat) : Int × Option Errno × List String × Fs :=
  match fs.refuses (.llistxattr path size) with
  | none => (eaBytes (fs.xattrsOf path), none, if size = 0 then [] else fs.xattrsOf path,
             fs.issue (.llistxattr path size))
  | some e => (-1, some e, [], fs.issue (.llistxattr path size))

/-- The system call `lremovexattr(path, name)`: -1 when refused, otherwise 0 and
the file no longer has the attribute. -/
def lremovexattr (fs : Fs) (path : String) (name : String) : Int × Fs :=
  match fs.refuses (.lremovexattr path name) with
  | none =>
      (0, { fs.issue (.lremovexattr path name) with
              xattrs := fun j =>
                if some j = fs.inodeOf path then (fs.xattrs j).erase name else fs.xattrs j })
  | some _ => (-1, fs.issue (.lremovexattr path name))

end Fs

/-- Modelled from the spec: `checkInterrupt` (nix/util/signals.hh) is declared
outside the sources.  §5: a pending interrupt request is observed at this
point and converted into an ordinary propagated error. -/
def checkInterrupt {S : Type} (interrupted : S → Bool) (s : S) : Run StoreError Unit S :=
  if interrupted s then .throw { kind := .Interrupted, msg := "interrupted by the user", args := [] } s
  else .ret () s

/-- Modelled from the spec: the function `lstat(path)` of nix/util/file-system.hh
is declared outside the sources and the specification does not describe it;
by its use here it returns the `struct stat` of the path, without following a
symlink, and throws a `SysError` when there is no such file. -/
def lstat (path : String) (fs : Fs) : Run StoreError Stat Fs :=
  match fs.stat path with
  | some st => .ret st fs
  | none => .throw { kind := .SysError, msg := "getting status of '%1%'", args := [.str path] } fs

/-- Modelled from the spec: the function `setWriteTime(path, st)` of
nix/util/file-system.hh is declared outside the sources and the specification
does not describe it; by its name and use here it sets the modification
time of the file to `st.st_mtime`, and throws a `SysError` when the system
refuses or the file does not exist. -/
def setWriteTime (path : String) (st2 : Stat) (fs : Fs) : Run StoreError Unit Fs :=
  match fs.refuses (.setWriteTime path st2.st_mtime), fs.stat path with
  | none, some st =>
      .ret () ((fs.issue (.setWriteTime path st2.st_mtime)).setStat path
                { st with st_mtime := st2.st_mtime })
  | _, _ =>
      .throw { kind := .SysError, msg := "changing modification time of '%s'",
               args := [.str path] } (fs.issue (.setWriteTime path st2.st_mtime))

/-! ## posix-fs-canonicalise.cc: the functions -/

/-- The static function `canonicaliseTimestampAndPermissions(path, st)`
(posix-fs-canonicalise.cc lines 19-41). -/
def canonicaliseTimestampAndPermissionsSt (path : String) (st : Stat) (fs : Fs) :
    Run StoreError Unit Fs :=
  let perms : Run StoreError Unit Fs :=
    if !S_ISLNK st.st_mode then
      let mode := st.st_mode &&& notS_IFMT
      if mode != 0o444 && mode != 0o555 then
        let mode := (st.st_mode &&& S_IFMT) ||| 0o444
                      ||| (if (st.st_mode &&& S_IXUSR) != 0 then 0o111 else 0)
        if (fs.chmod path mode).1 == -1 then
          .throw { kind := .SysError, msg := "changing mode of '%1%' to %2$o",
                   args := [.str path, .num mode] } (fs.chmod path mode).2
        else .ret () (fs.chmod path mode).2
      else .ret () fs
    else .ret () fs
  perms.bind fun _ fs1 =>
    if st.st_mtime != mtimeStore then
      setWriteTime path { st with st_mtime := mtimeStore } fs1
    else .ret () fs1

/-- The function `canonicaliseTimestampAndPermissions(path)`
(posix-fs-canonicalise.cc lines 44-47). -/
def canonicaliseTimestampAndPermissions (path : String) (fs : Fs) : Run StoreError Unit Fs :=
  (lstat path fs).bind fun st fs1 => canonicaliseTimestampAndPermissionsSt path st fs1

/-- A file system holding the one file "f" with the status `st`, its owner the
effective user 0, in which no call is refused and no interrupt is pending. -/
def oneFileFs (st : Stat) : Fs :=
  { inodeOf := fun p => if p = "f" then some (st.st_dev, st.st_ino) else none
    attrs := fun _ =>
      { st_mode := st.st_mode, st_uid := st.st_uid, st_gid := st.st_gid,
        st_mtime := st.st_mtime }
    xattrs := fun _ => []
    entries := fun _ => []
    euid := 0
    egid := 0
    refuses := fun _ => none
    interrupted := false
    calls := [] }

/-- The state `canonicalisePathMetaData_` works on: the file system and the set
`inodesSeen` of (device, inode) pairs it is handed by reference. -/
structure CanonState where
  fs : Fs
  inodesSeen : Finset (Nat × Nat)

/-- Sequencing with a continuation that may run out of recursion depth
(`none`). -/
def Run.bindO {ε α β S : Type} (r : Run ε α S) (k : α → S → Option (Run ε β S)) :
    Option (Run ε β S) :=
  match r with
  | .ret a s => k a s
  | .throw e s => some (.throw e s)
  | .abort => some .abort

/-- A step on the file system, as a step on the state. -/
def CanonState.onFs {α : Type} (f : Fs → Run StoreError α Fs) (s : CanonState) :
    Run StoreError α CanonState :=
  match f s.fs with
  | .ret a fs => .ret a { s with fs := fs }
  | .throw e fs => .throw e { s with fs := fs }
  | .abort => .abort

/-- The block `#ifdef __APPLE__` of `canonicalisePathMetaData_`
(posix-fs-canonicalise.cc lines 57-65). -/
def clearFlags (cfg : StoreConfig) (path : String) (fs : Fs) : Run StoreError Unit Fs :=
  if cfg.apple then
    if (fs.lchflags path 0).1 != 0 then
      if (fs.lchflags path 0).2.1 != some Errno.ENOTSUP then
        .throw { kind := .SysError, msg := "clearing flags of path '%1%'", args := [.str path] }
          (fs.lchflags path 0).2.2
      else .ret () (fs.lchflags path 0).2.2
    else .ret () (fs.lchflags path 0).2.2
  else .ret () fs

/-- The loop over the attribute names (posix-fs-canonicalise.cc lines 86-90). -/
def removeXattrs (cfg : StoreConfig) (path : String) : List String → Fs → Run StoreError Unit Fs
  | [], fs => .ret () fs
  | eaName :: rest, fs =>
      if cfg.ignoredAcls.contains eaName then removeXattrs cfg path rest fs
      else if (fs.lremovexattr path eaName).1 == -1 then
        .throw { kind := .SysError, msg := "removing extended attribute '%s' from '%s'",
                 args := [.str eaName, .str path] } (fs.lremovexattr path eaName).2
      else removeXattrs cfg path rest (fs.lremovexattr path eaName).2

/-- The block `#if NIX_SUPPORT_ACL` of `canonicalisePathMetaData_`
(posix-fs-canonicalise.cc lines 73-92).  The buffer filled by the second
`llistxattr` is tokenised at the NUL bytes into the attribute names. -/
def removeAcls (cfg : StoreConfig) (path : String) (fs : Fs) : Run StoreError Unit Fs :=
  if cfg.supportAcl then
    let r := fs.llistxattr path 0
    if r.1 < 0 then
      if r.2.1 != some Errno.ENOTSUP && r.2.1 != some Errno.ENODATA then
        .throw { kind := .SysError, msg := "querying extended attributes of '%s'",
                 args := [.str path] } r.2.2.2
      else .ret () r.2.2.2
    else if r.1 > 0 then
      let r2 := r.2.2.2.llistxattr path r.1.toNat
      if r2.1 < 0 then
        .throw { kind := .SysError, msg := "querying extended attributes of '%s'",
                 args := [.str path] } r2.2.2.2
      else removeXattrs cfg path r2.2.2.1 r2.2.2.2
    else .ret () r.2.2.2
  else .ret () fs

/-- The first part of `canonicalisePathMetaData_` (posix-fs-canonicalise.cc lines
55-92), up to the ownership test: the interrupt check, the clearing of
flags, `lstat`, the check of the file type, the removal of extended
attributes.  It returns the `struct stat` read. -/
def canonicalisePathMetaData_upToOwnership (cfg : StoreConfig) (path : String) (fs : Fs) :
    Run StoreError Stat Fs :=
  (checkInterrupt Fs.interrupted fs).bind fun _ fs1 =>
  (clearFlags cfg path fs1).bind fun _ fs2 =>
  (lstat path fs2).bind fun st fs3 =>
    if !(S_ISREG st.st_mode || S_ISDIR st.st_mode || S_ISLNK st.st_mode) then
      .throw { kind := .Error, msg := "file '%1%' has an unsupported type", args := [.str path] }
        fs3
    else (removeAcls cfg path fs3).bind fun _ fs4 => .ret st fs4

/-- The test `uidRange && (st.st_uid < uidRange->first || st.st_uid > uidRange->second)`
(posix-fs-canonicalise.cc line 100). -/
def ownerOutsideRange (uidRange : Option (Nat × Nat)) (uid : Nat) : Bool :=
  match uidRange with
  | some r => uid < r.1 || uid > r.2
  | none => false

/-- The change of ownership (posix-fs-canonicalise.cc lines 119-128), with
`lchown` where `HAVE_LCHOWN` is set and `chown` on files other than symlinks
where it is not. -/
def changeOwner (cfg : StoreConfig) (path : String) (st : Stat) (fs : Fs) :
    Run StoreError Unit Fs :=
  if st.st_uid != fs.euid then
    if cfg.haveLchown then
      if (fs.lchown path fs.euid fs.egid).1 == -1 then
        .throw { kind := .SysError, msg := "changing owner of '%1%' to %2%",
                 args := [.str path, .num fs.euid] } (fs.lchown path fs.euid fs.egid).2
      else .ret () (fs.lchown path fs.euid fs.egid).2
    else if !S_ISLNK st.st_mode then
      if (fs.chown path fs.euid fs.egid).1 == -1 then
        .throw { kind := .SysError, msg := "changing owner of '%1%' to %2%",
                 args := [.str path, .num fs.euid] } (fs.chown path fs.euid fs.egid).2
      else .ret () (fs.chown path fs.euid fs.egid).2
    else .ret () fs
  else .ret () fs

/-- The loop over the entries of a directory (posix-fs-canonicalise.cc lines
131-137): for each entry the interrupt check, then the recursive call `rec`. -/
def forEntries (rec : String → CanonState → Option (Run StoreError Unit CanonState)) :
    List String → CanonState → Option (Run StoreError Unit CanonState)
  | [], s => some (.ret () s)
  | entry :: rest, s =>
      (checkInterrupt (fun s : CanonState => s.fs.interrupted) s).bindO fun _ s1 =>
        match rec entry s1 with
        | some (.ret _ s2) => forEntries rec rest s2
        | some (.throw e s2) => some (.throw e s2)
        | some .abort => some .abort
        | none => none

/-- The function `canonicalisePathMetaData_` (posix-fs-canonicalise.cc lines
50-139).  The first argument bounds the depth of the recursion into
directories; `none` is the answer when the bound is reached. -/
def canonicalisePathMetaData_ (cfg : StoreConfig) :
    Nat → String → Option (Nat × Nat) → CanonState → Option (Run StoreError Unit CanonState)
  | 0, _, _, _ => none
  | depth + 1, path, uidRange, s =>
      (CanonState.onFs (canonicalisePathMetaData_upToOwnership cfg path) s).bindO fun st s1 =>
        if ownerOutsideRange uidRange st.st_uid then
          if S_ISDIR st.st_mode || !decide ((st.st_dev, st.st_ino) ∈ s1.inodesSeen) then
            some (.throw { kind := .BuildError, msg := "invalid ownership on file '%1%'",
                           args := [.str path] } s1)
          else if !(S_ISLNK st.st_mode ||
                    (st.st_uid == s1.fs.euid &&
                      (st.st_mode &&& notS_IFMT == 0o444 || st.st_mode &&& notS_IFMT == 0o555) &&
                      st.st_mtime == mtimeStore)) then
            some .abort
          else some (.ret () s1)
        else
          (CanonState.onFs (canonicaliseTimestampAndPermissionsSt path st)
              { s1 with inodesSeen := insert (st.st_dev, st.st_ino) s1.inodesSeen }).bindO
            fun _ s2 =>
              (CanonState.onFs (changeOwner cfg path st) s2).bindO fun _ s3 =>
                if S_ISDIR st.st_mode then
                  forEntries (canonicalisePathMetaData_ cfg depth · uidRange)
                    (s3.fs.entries path) s3
                else some (.ret () s3)

/-- A store configuration: not Apple, no ACL support, `lchown` available, no
ignored ACLs. -/
def plainConfig : StoreConfig :=
  { apple := false, supportAcl := false, haveLchown := true, ignoredAcls := [] }

/-! ## file-descriptor.cc: AutoCloseFD -/

/-- Modelled from the spec: the constant `INVALID_DESCRIPTOR` is declared outside
the sources and the specification does not describe it; on Unix a
`Descriptor` is an `int` and the invalid one is -1, the value `startFsync`
compares with. -/
def INVALID_DESCRIPTOR : Int := -1

/-- The process as `AutoCloseFD` sees it: which descriptors are open, on which
open descriptors the system call `close` reports an error, the `close`
calls issued so far (oldest first), and the member `fd` of the `AutoCloseFD`
object at each address. -/
structure FdSys where
  isOpen : Int → Bool
  closeFails : Int → Bool
  closeCalls : List Int
  objs : Nat → Int

namespace FdSys

/-- The system call `::close(fd)`: 0 and the descriptor is no longer open, or -1
when the descriptor is not open or the system reports an error. -/
def sysClose (sys : FdSys) (fd : Int) : Int × FdSys :=
  if sys.isOpen fd && !sys.closeFails fd then
    (0, { sys with isOpen := fun d => if d = fd then false else sys.isOpen d
                   closeCalls := sys.closeCalls ++ [fd] })
  else (-1, { sys with closeCalls := sys.closeCalls ++ [fd] })

/-- Assign the member `fd` of the object at `this`. -/
def setFd (sys : FdSys) (this : Nat) (fd : Int) : FdSys :=
  { sys with objs := fun a => if a = this then fd else sys.objs a }

end FdSys

namespace AutoCloseFD

/-- The constructor `AutoCloseFD::AutoCloseFD()` (file-descriptor.cc line 29). -/
def mkDefault (this : Nat) (sys : FdSys) : FdSys := sys.setFd this INVALID_DESCRIPTOR

/-- The constructor `AutoCloseFD::AutoCloseFD(Descriptor fd)` (line 32). -/
def mkFrom (this : Nat) (fd : Int) (sys : FdSys) : FdSys := sys.setFd this fd

/-- The move constructor `AutoCloseFD::AutoCloseFD(AutoCloseFD && that)`
(file-descriptor.cc lines 36-39). -/
def moveConstruct (this that : Nat) (sys : FdSys) : FdSys :=
  (sys.setFd this (sys.objs that)).setFd that INVALID_DESCRIPTOR

/-- The method `AutoCloseFD::get` (file-descriptor.cc lines 61-64). -/
def get (this : Nat) (sys : FdSys) : Int := sys.objs this

/-- The method `AutoCloseFD::close` (file-descriptor.cc lines 67-77). -/
def close (this : Nat) (sys : FdSys) : Run StoreError Unit FdSys :=
  if sys.objs this != INVALID_DESCRIPTOR then
    if (sys.sysClose (sys.objs this)).1 == -1 then
      .throw { kind := .NativeSysError, msg := "closing file descriptor %1%",
               args := [.int (sys.objs this)] } (sys.sysClose (sys.objs this)).2
    else .ret () ((sys.sysClose (sys.objs this)).2.setFd this INVALID_DESCRIPTOR)
  else .ret () sys

/-- The move assignment `AutoCloseFD::operator =(AutoCloseFD && that)`
(file-descriptor.cc lines 42-48). -/
def moveAssign (this that : Nat) (sys : FdSys) : Run StoreError Unit FdSys :=
  (close this sys).bind fun _ sys1 =>
    .ret () ((sys1.setFd this (sys1.objs that)).setFd that INVALID_DESCRIPTOR)

/-- The destructor `AutoCloseFD::~AutoCloseFD` (file-descriptor.cc lines 51-58):
`close()`, an exception of which is caught and ignored. -/
def destroy (this : Nat) (sys : FdSys) : Run StoreError Unit FdSys :=
  match close this sys with
  | .throw _ sys1 => .ret () sys1
  | r => r

/-- The conversion `AutoCloseFD::operator bool` (file-descriptor.cc lines
104-107). -/
def toBool (this : Nat) (sys : FdSys) : Bool := sys.objs this != INVALID_DESCRIPTOR

/-- The method `AutoCloseFD::release` (file-descriptor.cc lines 110-115): the
descriptor returned and the state. -/
def release (this : Nat) (sys : FdSys) : Int × FdSys :=
  (sys.objs this, sys.setFd this INVALID_DESCRIPTOR)

end AutoCloseFD

/-- A process in which the descriptors 3 and 4 are open, `close` reports no
error, and the objects at addresses 0 and 1 hold 3 and 4. -/
def twoFds : FdSys :=
  { isOpen := fun d => d == 3 || d == 4
    closeFails := fun _ => false
    closeCalls := []
    objs := fun a => if a = 0 then 3 else if a = 1 then 4 else -1 }

/-! ## eval-inline.hh: allocation -/

/-- The memory source that `calloc` draws on: how many bytes it can still hand
out, where the block handed out last ended, and the bytes of the block at
each address handed out. -/
structure MemSource where
  avail : Nat
  brk : Ptr
  blocks : Ptr → Option (List Nat)

/-- The C library function `calloc(nmemb, size)`: the null pointer when the
product does not fit `size_t` (64 bits) or exceeds what the source can still
hand out, that is, when the source is exhausted for the request; otherwise
the non-null address of a fresh block of `nmemb * size` zero bytes (also for
a request of no bytes). -/
def calloc (nmemb size : Nat) (m : MemSource) : Ptr × MemSource :=
  if nmemb * size < 2 ^ 64 ∧ nmemb * size ≤ m.avail then
    (m.brk + 1,
      { avail := m.avail - nmemb * size
        brk := m.brk + 1 + nmemb * size
        blocks := fun a =>
          if a = m.brk + 1 then some (List.replicate (nmemb * size) 0) else m.blocks a })
  else (0, m)

/-- The function `allocBytes` (eval-inline.hh lines 14-21); `n` is a `size_t`. -/
def allocBytes (n : Nat) (m : MemSource) : Run Error Ptr MemSource :=
  if (calloc n 1 m).1 == 0 then
    .throw { kind := .bad_alloc, msg := "std::bad_alloc", subject := none, pos := none,
             traces := [] } (calloc n 1 m).2
  else .ret (calloc n 1 m).1 (calloc n 1 m).2

/-- The sizes that the allocation functions take with `sizeof`: of `Value`, of
`Env` (whose array `values` starts where the structure ends) and of a
pointer `Value *`. -/
structure Layout where
  sizeofValue : Nat
  sizeofEnv : Nat
  sizeofPtr : Nat
  deriving DecidableEq, Repr

/-- The members of `EvalState` that allocation touches, with the memory
source. -/
structure AllocState where
  mem : MemSource
  nrValues : Nat
  nrEnvs : Nat
  nrValuesInEnvs : Nat

/-- The method `EvalState::allocValue` (eval-inline.hh lines 24-30). -/
def allocValue (L : Layout) (s : AllocState) : Run Error Ptr AllocState :=
  match allocBytes L.sizeofValue s.mem with
  | .ret p m => .ret p { s with mem := m, nrValues := s.nrValues + 1 }
  | .throw e m => .throw e { s with mem := m }
  | .abort => .abort

/-- The method `EvalState::allocEnv` (eval-inline.hh lines 33-45).  The counters
are incremented before the allocation and stay so when it throws.  The
byte count `sizeof(Env) + size * sizeof(Value *)` is computed in `size_t`,
that is, modulo `2 ^ 64`. -/
def allocEnv (L : Layout) (size : Nat) (s : AllocState) : Run Error Ptr AllocState :=
  match allocBytes ((L.sizeofEnv + size * L.sizeofPtr) % 2 ^ 64) s.mem with
  | .ret p m =>
      .ret p { s with nrEnvs := s.nrEnvs + 1, nrValuesInEnvs := s.nrValuesInEnvs + size,
                      mem := m }
  | .throw e m =>
      .throw e { s with nrEnvs := s.nrEnvs + 1, nrValuesInEnvs := s.nrValuesInEnvs + size,
                        mem := m }
  | .abort => .abort

/-- The unsigned number stored in the `len` bytes of a block from offset `off`
on (little-endian), if they all lie in the block. -/
def readLE (block : List Nat) (off len : Nat) : Option Nat :=
  if off + len ≤ block.length then
    some (((List.range len).map fun j => block.getD (off + j) 0 * 256 ^ j).sum)
  else none

/-- The value slot `values[i]` of the environment stored in a block. -/
def envSlot (L : Layout) (block : List Nat) (i : Nat) : Option Nat :=
  readLE block (L.sizeofEnv + i * L.sizeofPtr) L.sizeofPtr

/-- The sizes on a platform with 64-bit pointers: a `Value` of 24 bytes, an `Env`
header of 8 bytes. -/
def lp64 : Layout := { sizeofValue := 24, sizeofEnv := 8, sizeofPtr := 8 }

/-- An allocation state whose memory source can hand out `avail` bytes and has
handed out none. -/
def freshAlloc (avail : Nat) : AllocState :=
  { mem := { avail := avail, brk := 0, blocks := fun _ => none }
    nrValues := 0, nrEnvs := 0, nrValuesInEnvs := 0 }

/-! ## Directory trees and hard links -/

/-- Whether `lstat` reports a directory at the path. -/
def Fs.isDir (fs : Fs) (path : String) : Bool :=
  match fs.stat path with
  | some st => S_ISDIR st.st_mode
  | none => false

/-- Whether the directory tree at `path` is exhausted by `depth` nested calls of
`canonicalisePathMetaData_`: one call for a path that is no directory, one
more than its entries need for a directory. -/
def Fs.fits (fs : Fs) : Nat → String → Bool
  | 0, _ => false
  | depth + 1, path => !fs.isDir path || (fs.entries path).all (fs.fits depth)

/-- The file system `fs1` names the same inodes by the same paths as `fs`, lists
the same directory entries, and every inode has the file type it has in
`fs`. -/
def Fs.SameTree (fs fs1 : Fs) : Prop :=
  fs1.inodeOf = fs.inodeOf ∧ fs1.entries = fs.entries ∧
  ∀ i, (fs1.attrs i).st_mode &&& S_IFMT = (fs.attrs i).st_mode &&& S_IFMT

/-- A file system holding the directory "d" (inode 10 on device 1, mode 0755,
owner 1500, modification time 77) with the two entries "d/a" and "d/b",
which are two names of one regular file (inode 11, mode 0644, owner 1500,
modification time 77).  The effective user is 0, no call is refused and no
interrupt is pending. -/
def hardLinkFs : Fs :=
  { inodeOf := fun p =>
      if p = "d" then some (1, 10)
      else if p = "d/a" then some (1, 11)
      else if p = "d/b" then some (1, 11)
      else none
    attrs := fun i =>
      if i = (1, 10) then { st_mode := 0o40755, st_uid := 1500, st_gid := 0, st_mtime := 77 }
      else { st_mode := 0o100644, st_uid := 1500, st_gid := 0, st_mtime := 77 }
    xattrs := fun _ => []
    entries := fun p => if p = "d" then ["d/a", "d/b"] else []
    euid := 0
    egid := 0
    refuses := fun _ => none
    interrupted := false
    calls := [] }

/-- The state in which a run returns; `none` when it throws, aborts or runs out
of recursion depth. -/
def returned? (r : Option (Run StoreError Unit CanonState)) : Option CanonState :=
  match r with
  | some (.ret _ s) => some s
  | _ => none

/-! ## Basic facts about the state -/

theorem EvalState.setValue_same {σ : Type} (s : EvalState σ) (a : Ptr) (v : Value) :
    (s.setValue a v).values a = v := by
  simp [EvalState.setValue]

theorem EvalState.setValue_other {σ : Type} (s : EvalState σ) (a b : Ptr) (v : Value)
    (h : b ≠ a) : (s.setValue a v).values b = s.values b := by
  simp [EvalState.setValue, h]

theorem EvalState.setValue_restore {σ : Type} (s : EvalState σ) (a : Ptr) (w : Value) :
    (s.setValue a w).setValue a (s.values a) = s := by
  cases s with
  | mk values callDepth settings ext =>
    simp only [EvalState.setValue, EvalState.mk.injEq, and_true]
    funext b
    by_cases h : b = a <;> simp [h]

theorem Value.mkThunk_of_isThunk (v w : Value) (h : v.isThunk = true) :
    w.mkThunk v.thunk_env v.thunk_expr = v := by
  cases v with
  | mk type word0 word1 =>
    simp [Value.isThunk, Value.hasType] at h
    simp [Value.mkThunk, Value.thunk_env, Value.thunk_expr, h]

/-- What `forceValue` does on a thunk with a present environment: it hands the
blackholed state to the evaluation of the captured expression and treats
the outcome as the `try` / `catch` prescribes. -/
theorem forceValue_thunk {σ : Type} (C : Collab σ) (v : Ptr) (pos : PosIdx) (s : EvalState σ)
    (hthunk : (s.values v).isThunk = true) (henv : (s.values v).thunk_env ≠ 0) :
    forceValue C v pos s =
      match C.eval (s.values v).thunk_expr (s.values v).thunk_env v
              (s.setValue v (s.values v).mkBlackhole) with
      | .throw e s2 =>
          .throw (tryFixupBlackHolePos
                    ((s2.setValue v ((s2.values v).mkThunk (s.values v).thunk_env
                        (s.values v).thunk_expr)).values v) pos e)
                 (s2.setValue v ((s2.values v).mkThunk (s.values v).thunk_env
                        (s.values v).thunk_expr))
      | .ok s2 => .ok s2
      | .abort => .abort := by
  simp [forceValue, hthunk, henv]

theorem tryFixupBlackHolePos_fields (w : Value) (pos : PosIdx) (e : Error) :
    (tryFixupBlackHolePos w pos e).kind = e.kind ∧
    (tryFixupBlackHolePos w pos e).msg = e.msg ∧
    (tryFixupBlackHolePos w pos e).subject = e.subject ∧
    (tryFixupBlackHolePos w pos e).traces = e.traces ∧
    (tryFixupBlackHolePos w pos e).pos = some (e.pos.getD pos) := by
  unfold tryFixupBlackHolePos
  cases h : e.pos <;> simp [h]

/-- On a node that is neither a thunk nor an application `forceValue` returns
at once, in the state it was called in, whatever the collaborators are. -/
theorem forceValue_of_forced {σ : Type} (C : Collab σ) (v : Ptr) (pos : PosIdx)
    (s : EvalState σ) (hT : (s.values v).isThunk = false) (hA : (s.values v).isApp = false) :
    forceValue C v pos s = .ok s := by
  simp [forceValue, hT, hA]

/-- When `forceValue` returns, the node it was called on was a thunk with a
present environment whose evaluation returned in the final state, or an
application whose call returned in the final state, or neither, and then the
state is unchanged. -/
theorem forceValue_ok_cases {σ : Type} (C : Collab σ) (v : Ptr) (pos : PosIdx)
    (s s1 : EvalState σ) (h : forceValue C v pos s = .ok s1) :
    ((s.values v).isThunk = true ∧ (s.values v).thunk_env ≠ 0 ∧
        C.eval (s.values v).thunk_expr (s.values v).thunk_env v
          (s.setValue v (s.values v).mkBlackhole) = .ok s1) ∨
    ((s.values v).isThunk = false ∧ (s.values v).isApp = true ∧
        C.callFunction (s.values v).app_left (s.values v).app_right v pos s = .ok s1) ∨
    ((s.values v).isThunk = false ∧ (s.values v).isApp = false ∧ s1 = s) := by
  by_cases hT : (s.values v).isThunk = true
  · left
    by_cases he : (s.values v).thunk_env = 0
    · exfalso
      by_cases hb : (s.values v).isBlackhole = true
      · simp [forceValue, hT, he, hb, throwInfiniteRecursionError] at h
      · simp [forceValue, hT, he, hb] at h
    · refine ⟨hT, he, ?_⟩
      rw [forceValue_thunk C v pos s hT he] at h
      cases hr : C.eval (s.values v).thunk_expr (s.values v).thunk_env v
          (s.setValue v (s.values v).mkBlackhole) with
      | ok s2 => rw [hr] at h; simpa using h
      | throw e s2 => rw [hr] at h; simp at h
      | abort => rw [hr] at h; simp at h
  · right
    have hT2 : (s.values v).isThunk = false := by simpa using hT
    by_cases hA : (s.values v).isApp = true
    · left
      refine ⟨hT2, hA, ?_⟩
      simpa [forceValue, hT2, hA] using h
    · right
      have hA2 : (s.values v).isApp = false := by simpa using hA
      refine ⟨hT2, hA2, ?_⟩
      rw [forceValue_of_forced C v pos s hT2 hA2] at h
      cases h
      rfl

/-- Under the collaborators' contract, a node on which `forceValue` returned is
neither a thunk nor an application. -/
theorem forceValue_ok_forced {σ : Type} (C : Collab σ) (hC : C.WritesResult) (v : Ptr)
    (pos : PosIdx) (s s1 : EvalState σ) (h : forceValue C v pos s = .ok s1) :
    (s1.values v).isThunk = false ∧ (s1.values v).isApp = false := by
  rcases forceValue_ok_cases C v pos s s1 h with ⟨_, _, he⟩ | ⟨_, _, hc⟩ | ⟨hT, hA, rfl⟩
  · exact hC.1 _ _ _ _ _ he
  · exact hC.2 _ _ _ _ _ _ hc
  · exact ⟨hT, hA⟩

theorem countingCollab_writesResult (failures : Nat) : (countingCollab failures).WritesResult := by
  constructor
  · intro expr env v s s1 h
    simp only [countingCollab] at h
    split at h
    · cases h
    · cases h
      simp [EvalState.setValue, Value.isThunk, Value.isApp, Value.hasType, ValueType.toNat]
  · intro f a v pos s s1 h
    simp only [countingCollab] at h
    cases h
    simp [EvalState.setValue, Value.isThunk, Value.isApp, Value.hasType, ValueType.toNat]

/-! ## Forcing -/

/-- C1.  Let the node at `v` be a Thunk (not a Blackhole) holding a present
environment `env` and an expression `expr`, and let the evaluation of `expr`
against `env`, started by `forceValue` on the blackholed node, raise `e` in
a state `s2` in which it may have overwritten the node in whatever way.
Then `forceValue` raises: the error is not swallowed, and it is that error
(same class, message, subject and traces, its position kept, or filled in
with `pos` where it carried none, so it is `e` itself when `e` has a
position).  In the state `forceValue` exits in, the node is exactly the node
it was, a Thunk holding `env` and `expr`, not a Blackhole; everything else is
as evaluation left it.  A later `forceValue` hands `expr` and `env` to
evaluation again, its outcome being the outcome of that evaluation. -/
theorem forceValue_eval_error_restores {σ : Type} (C : Collab σ) (v : Ptr) (pos : PosIdx)
    (s s2 : EvalState σ) (env expr : Ptr) (e : Error)
    (hthunk : (s.values v).isThunk = true)
    (hnotbh : (s.values v).isBlackhole = false)
    (henv : (s.values v).thunk_env = env) (hpresent : env ≠ 0)
    (hexpr : (s.values v).thunk_expr = expr)
    (hraise : C.eval expr env v (s.setValue v (s.values v).mkBlackhole) = .throw e s2) :
    ∃ e1 s3, forceValue C v pos s = .throw e1 s3
      ∧ (e1.kind = e.kind ∧ e1.msg = e.msg ∧ e1.subject = e.subject ∧ e1.traces = e.traces
          ∧ e1.pos = some (e.pos.getD pos))
      ∧ (e.pos ≠ none → e1 = e)
      ∧ s3.values v = s.values v
      ∧ (s3.values v).isThunk = true ∧ (s3.values v).isBlackhole = false
      ∧ (s3.values v).thunk_env = env ∧ (s3.values v).thunk_expr = expr
      ∧ (∀ a, a ≠ v → s3.values a = s2.values a)
      ∧ s3.callDepth = s2.callDepth ∧ s3.ext = s2.ext
      ∧ (∀ pos2 s4, C.eval expr env v (s3.setValue v (s3.values v).mkBlackhole) = .ok s4 →
            forceValue C v pos2 s3 = .ok s4)
      ∧ (∀ pos2 e2 s4,
            C.eval expr env v (s3.setValue v (s3.values v).mkBlackhole) = .throw e2 s4 →
            ∃ e3, forceValue C v pos2 s3 = .throw e3 (s4.setValue v (s.values v))
                  ∧ e3.kind = e2.kind) := by
  have henv0 : (s.values v).thunk_env ≠ 0 := by rw [henv]; exact hpresent
  have hback : ∀ w : Value, w.mkThunk env expr = s.values v := by
    intro w
    rw [← henv, ← hexpr]
    exact Value.mkThunk_of_isThunk _ _ hthunk
  have hnode : (s2.setValue v (s.values v)).values v = s.values v :=
    EvalState.setValue_same _ _ _
  refine ⟨tryFixupBlackHolePos (s.values v) pos e, s2.setValue v (s.values v), ?_, ?_, ?_,
    hnode, ?_, ?_, ?_, ?_, ?_, rfl, rfl, ?_, ?_⟩
  · rw [forceValue_thunk C v pos s hthunk henv0, henv, hexpr, hraise]
    simp only [hback, hnode]
  · exact tryFixupBlackHolePos_fields _ _ _
  · intro hp
    unfold tryFixupBlackHolePos
    cases h : e.pos with
    | none => exact absurd h hp
    | some p => rfl
  · rw [hnode]; exact hthunk
  · rw [hnode]; exact hnotbh
  · rw [hnode]; exact henv
  · rw [hnode]; exact hexpr
  · intro a ha
    exact EvalState.setValue_other _ _ _ _ ha
  · intro pos2 s4 h4
    have ht : ((s2.setValue v (s.values v)).values v).isThunk = true := by
      rw [hnode]; exact hthunk
    have he : ((s2.setValue v (s.values v)).values v).thunk_env ≠ 0 := by
      rw [hnode]; exact henv0
    rw [forceValue_thunk C v pos2 _ ht he]
    simp only [hnode] at h4 ⊢
    rw [henv, hexpr, h4]
  · intro pos2 e2 s4 h4
    have ht : ((s2.setValue v (s.values v)).values v).isThunk = true := by
      rw [hnode]; exact hthunk
    have he : ((s2.setValue v (s.values v)).values v).thunk_env ≠ 0 := by
      rw [hnode]; exact henv0
    refine ⟨tryFixupBlackHolePos (s.values v) pos2 e2, ?_, (tryFixupBlackHolePos_fields _ _ _).1⟩
    rw [forceValue_thunk C v pos2 _ ht he]
    simp only [hnode] at h4 ⊢
    rw [henv, hexpr, h4]
    simp only [hback, EvalState.setValue_same]

/-- Instance of C1: a thunk whose expression counts its evaluations and fails
the first time after scribbling over the node.  The first force raises the
expression's `EvalError 7` and leaves the thunk, one evaluation counted; a
second force evaluates again (two evaluations counted) and now returns
with the integer 42 in the node. -/
theorem forceValue_eval_error_restores_witness :
    ∃ e1 s3 s4, forceValue (countingCollab 1) 5 0
        ((constState ⟨1, 0, 0⟩ 10 0).setValue 5 ⟨10, 3, 4⟩) = .throw e1 s3
      ∧ e1.kind = .EvalError 7 ∧ s3.values 5 = ⟨10, 3, 4⟩ ∧ s3.ext = 1
      ∧ forceValue (countingCollab 1) 5 0 s3 = .ok s4
      ∧ s4.ext = 2 ∧ s4.values 5 = ⟨1, 42, 0⟩ := by
  obtain ⟨e1, s3, h, hk, _, hv, _, _, _, _, _, _, hx, hretry, _⟩ :=
    forceValue_eval_error_restores (countingCollab 1) 5 0
      ((constState ⟨1, 0, 0⟩ 10 0).setValue 5 ⟨10, 3, 4⟩) _ 3 4 _
      rfl rfl rfl (by decide) rfl rfl
  have hx1 : s3.ext = 1 := hx
  have hev : (countingCollab 1).eval 4 3 5 (s3.setValue 5 (s3.values 5).mkBlackhole) =
      .ok ({ (s3.setValue 5 (s3.values 5).mkBlackhole) with ext := 2 }.setValue 5
            ⟨1, 42, 0⟩) := by
    simp [countingCollab, EvalState.setValue, hx1, ValueType.toNat]
  exact ⟨e1, s3, _, h, hk.1, hv, hx1, hretry 0 _ hev, rfl, EvalState.setValue_same _ _ _⟩

/-- C2.  Let the collaborators keep their contract (on return the output node
holds a result).  If a first `forceValue` on a node returns, then a second
`forceValue` on it returns in exactly the state the first one left, so the
node's tag and payload are identical, and it does so whatever collaborators
it is given: the second call consults neither expression evaluation nor the
call mechanism.  Over the two calls the captured expression of a thunk is
thus evaluated once, by the first call, whose final state is the state in
which that one evaluation returned (for an application: in which the one
call returned; for any other node: the initial state). -/
theorem forceValue_idempotent {σ : Type} (C : Collab σ) (hC : C.WritesResult) (v : Ptr)
    (pos : PosIdx) (s s1 : EvalState σ) (h1 : forceValue C v pos s = .ok s1) :
    (∀ (C2 : Collab σ) (pos2 : PosIdx), forceValue C2 v pos2 s1 = .ok s1)
    ∧ ((s.values v).isThunk = true →
        C.eval (s.values v).thunk_expr (s.values v).thunk_env v
          (s.setValue v (s.values v).mkBlackhole) = .ok s1)
    ∧ ((s.values v).isThunk = false → (s.values v).isApp = true →
        C.callFunction (s.values v).app_left (s.values v).app_right v pos s = .ok s1)
    ∧ ((s.values v).isThunk = false → (s.values v).isApp = false → s1 = s) := by
  have hf := forceValue_ok_forced C hC v pos s s1 h1
  refine ⟨fun C2 pos2 => forceValue_of_forced C2 v pos2 s1 hf.1 hf.2, ?_, ?_, ?_⟩
  · intro hT
    rcases forceValue_ok_cases C v pos s s1 h1 with ⟨_, _, he⟩ | ⟨hT2, _, _⟩ | ⟨hT2, _, _⟩
    · exact he
    · rw [hT] at hT2; cases hT2
    · rw [hT] at hT2; cases hT2
  · intro hT hA
    rcases forceValue_ok_cases C v pos s s1 h1 with ⟨hT2, _, _⟩ | ⟨_, _, hc⟩ | ⟨_, hA2, _⟩
    · rw [hT] at hT2; cases hT2
    · exact hc
    · rw [hA] at hA2; cases hA2
  · intro hT hA
    rcases forceValue_ok_cases C v pos s s1 h1 with ⟨hT2, _, _⟩ | ⟨_, hA2, _⟩ | ⟨_, _, hs⟩
    · rw [hT] at hT2; cases hT2
    · rw [hA] at hA2; cases hA2
    · exact hs

/-- Instance of C2: a thunk whose expression counts its evaluations and writes
the integer 42.  The first force returns with one evaluation counted; a
second force, even with collaborators that abort when called, returns in
the same state. -/
theorem forceValue_idempotent_witness :
    ∃ s1, forceValue (countingCollab 0) 5 0
        ((constState ⟨1, 0, 0⟩ 10 0).setValue 5 ⟨10, 3, 4⟩) = .ok s1
      ∧ s1.ext = 1 ∧ s1.values 5 = ⟨1, 42, 0⟩
      ∧ forceValue (abortingCollab Nat) 5 9 s1 = .ok s1 :=
  ⟨_, rfl, rfl, rfl,
    (forceValue_idempotent (countingCollab 0) (countingCollab_writesResult 0) 5 0
      ((constState ⟨1, 0, 0⟩ 10 0).setValue 5 ⟨10, 3, 4⟩) _ rfl).1 (abortingCollab Nat) 9⟩

/-- C3.  On a node whose tag is neither Thunk nor Application (a Blackhole is
met under the thunk tag, so it is excluded too) `forceValue` is a no-op: for
all collaborators, hence without consulting expression evaluation or
`callFunction`, it returns, and the state it returns in is the state it was
called in, the node's tag and payload included. -/
theorem forceValue_forced_noop {σ : Type} (v : Ptr) (s : EvalState σ)
    (hT : (s.values v).type ≠ ValueType.tThunk.toNat)
    (hA : (s.values v).type ≠ ValueType.tApp.toNat) :
    ∀ (C : Collab σ) (pos : PosIdx), forceValue C v pos s = .ok s := by
  intro C pos
  apply forceValue_of_forced
  · simpa [Value.isThunk, Value.hasType] using hT
  · simpa [Value.isApp, Value.hasType] using hA

/-- Instance of C3: a node holding the integer 42, forced with collaborators
that abort when called. -/
theorem forceValue_forced_noop_witness :
    forceValue (abortingCollab Unit) 5 0
        ((constState ⟨1, 0, 0⟩ 10 ()).setValue 5 ⟨1, 42, 0⟩)
      = .ok ((constState ⟨1, 0, 0⟩ 10 ()).setValue 5 ⟨1, 42, 0⟩) :=
  forceValue_forced_noop 5 ((constState ⟨1, 0, 0⟩ 10 ()).setValue 5 ⟨1, 42, 0⟩)
    (by decide) (by decide) (abortingCollab Unit) 0

/-- One force of the self-referential thunk: the nested force meets the
Blackhole and raises, both catch blocks restore what they read, and the
state is again the initial one. -/
theorem forceValue_selfRef {σ : Type} (x : Ptr) (posVar pos : PosIdx) (bottom : Collab σ)
    (fuel : Nat) (s : EvalState σ) (env expr : Ptr)
    (hnode : s.values x = ⟨ValueType.tThunk.toNat, env, expr⟩) (hpresent : env ≠ 0) :
    forceValue (selfRef x posVar bottom (fuel + 1)) x pos s =
      .throw { kind := .InfiniteRecursionError, msg := "infinite recursion encountered",
               subject := none, pos := some posVar, traces := [] } s := by
  have hs : ((s.setValue x ⟨10, 0, eBlackHole⟩).setValue x ⟨10, 0, eBlackHole⟩).setValue
      x ⟨10, 0, eBlackHole⟩ = s.setValue x ⟨10, 0, eBlackHole⟩ := by
    simp only [EvalState.setValue, EvalState.mk.injEq, and_true]
    funext b
    by_cases h : b = x <;> simp [h]
  have hr : (s.setValue x ⟨10, 0, eBlackHole⟩).setValue x ⟨10, env, expr⟩ = s := by
    have h := EvalState.setValue_restore s x ⟨10, 0, eBlackHole⟩
    rw [hnode] at h
    exact h
  simp [forceValue, selfRef, evalVar, hnode, Value.isThunk, Value.hasType, Value.thunk_env,
    Value.thunk_expr, Value.mkBlackhole, Value.mkThunk, Value.isBlackhole, hpresent,
    throwInfiniteRecursionError, tryFixupBlackHolePos, EvalState.setValue_same,
    ValueType.toNat, hs, hr]

/-- C4.  Let `x` be a thunk node whose expression, when evaluated, forces `x`
itself (`let x = x; in x`), with a present environment.  For every positive
amount of unfolding of the recursion between forcing and evaluation, and
whatever lies below it, the first `forceValue` on `x` ends by raising the
infinite-recursion error, in the very state it was called in; and the
force that follows any number `k` of earlier forces of `x` raises that same
error again.  No force of `x` returns, aborts or runs out of unfolding. -/
theorem forceValue_selfRef_infiniteRecursion {σ : Type} (x : Ptr) (posVar pos : PosIdx)
    (bottom : Collab σ) (fuel : Nat) (s : EvalState σ) (env expr : Ptr)
    (hnode : s.values x = ⟨ValueType.tThunk.toNat, env, expr⟩) (hpresent : env ≠ 0) :
    forceValue (selfRef x posVar bottom (fuel + 1)) x pos s =
        .throw { kind := .InfiniteRecursionError, msg := "infinite recursion encountered",
                 subject := none, pos := some posVar, traces := [] } s
    ∧ ∀ k, forceAgain (selfRef x posVar bottom (fuel + 1)) x pos k s =
        .throw { kind := .InfiniteRecursionError, msg := "infinite recursion encountered",
                 subject := none, pos := some posVar, traces := [] } s := by
  have h1 := forceValue_selfRef x posVar pos bottom fuel s env expr hnode hpresent
  refine ⟨h1, ?_⟩
  intro k
  induction k with
  | zero => simpa [forceAgain] using h1
  | succ k ih => simp only [forceAgain, h1]; exact ih

/-- Instance of C4: the node at address 5 is the thunk of `x` in an environment
binding `x` to address 5; the fourth force in a row still raises the
infinite-recursion error. -/
theorem forceValue_selfRef_infiniteRecursion_witness :
    (forceAgain (selfRef 5 2 (abortingCollab Unit) 1) 5 0 3
        ((constState ⟨1, 0, 0⟩ 10 ()).setValue 5 ⟨10, 3, 4⟩)).error? =
      some { kind := .InfiniteRecursionError, msg := "infinite recursion encountered",
             subject := none, pos := some 2, traces := [] } := by
  rw [(forceValue_selfRef_infiniteRecursion 5 2 0 (abortingCollab Unit) 0
        ((constState ⟨1, 0, 0⟩ 10 ()).setValue 5 ⟨10, 3, 4⟩) 3 4 rfl (by decide)).2 3]
  rfl

/-! ## Type-asserting coercions -/

/-- C5.  Let forcing the node at `v` return, in state `s1`, and let `t` be the
normal type of the forced node.  Then `forceAttrs` raises a `TypeError` if and
only if `t` is not `nAttrs`; whenever it raises, the error is that
`TypeError` and the state, the node included, is exactly `s1`, as forcing left
it; and when `t` is `nAttrs` it returns in `s1`. -/
theorem forceAttrs_typeError_iff {σ : Type} (C : Collab σ) (v : Ptr) (pos : PosIdx)
    (errorCtx : String) (s s1 : EvalState σ) (t : NormalType)
    (hforce : forceValue C v pos s = .ok s1)
    (htype : (s1.values v).normalType = some t) :
    ((∃ e s2, forceAttrs C v pos errorCtx s = .throw e s2 ∧ e.kind = .TypeError)
        ↔ t ≠ .nAttrs)
    ∧ (∀ e s2, forceAttrs C v pos errorCtx s = .throw e s2 →
        e.kind = .TypeError ∧ e.subject = some (s1.values v) ∧ s2 = s1)
    ∧ (t = .nAttrs → forceAttrs C v pos errorCtx s = .ok s1) := by
  by_cases ht : t = .nAttrs
  · have hres : forceAttrs C v pos errorCtx s = .ok s1 := by
      simp [forceAttrs, forceAttrsWith, hforce, htype, ht]
    refine ⟨?_, ?_, fun _ => hres⟩
    · rw [hres]
      simp [ht]
    · intro e s2 h
      rw [hres] at h
      cases h
  · have hres : forceAttrs C v pos errorCtx s =
        .throw { kind := .TypeError, msg := "expected a set but found %1%: %2%",
                 subject := some (s1.values v), pos := none,
                 traces := [(pos, errorCtx)] } s1 := by
      simp [forceAttrs, forceAttrsWith, hforce, htype, ht]
    refine ⟨?_, ?_, fun h => absurd h ht⟩
    · rw [hres]
      simp [ht]
    · intro e s2 h
      rw [hres] at h
      cases h
      exact ⟨rfl, rfl, rfl⟩

/-- Instance of C5: a thunk that forces to the integer 42; `forceAttrs` raises a
`TypeError` and the node stays the integer. -/
theorem forceAttrs_typeError_iff_witness :
    ∃ e s2, forceAttrs (countingCollab 0) 5 0 "ctx"
        ((constState ⟨1, 0, 0⟩ 10 0).setValue 5 ⟨10, 3, 4⟩) = .throw e s2
      ∧ e.kind = .TypeError ∧ s2.values 5 = ⟨1, 42, 0⟩ := by
  have h := forceAttrs_typeError_iff (countingCollab 0) 5 0 "ctx"
      ((constState ⟨1, 0, 0⟩ 10 0).setValue 5 ⟨10, 3, 4⟩) _ .nInt rfl (by decide)
  obtain ⟨e, s2, h2, hk⟩ := h.1.2 (by decide)
  refine ⟨e, s2, h2, hk, ?_⟩
  rw [(h.2.1 e s2 h2).2.2]
  rfl

/-- C6.  Let forcing the node at `v` return, in state `s1`.  Then `forceList`
raises a `TypeError` if and only if the forced node is not a list, that is,
its tag is none of `tList1`, `tList2`, `tListN`; whenever it raises, the error
is that `TypeError` and the state, the node included, is exactly `s1`; and on
a list it returns in `s1`. -/
theorem forceList_typeError_iff {σ : Type} (C : Collab σ) (v : Ptr) (pos : PosIdx)
    (errorCtx : String) (s s1 : EvalState σ)
    (hforce : forceValue C v pos s = .ok s1) :
    ((∃ e s2, forceList C v pos errorCtx s = .throw e s2 ∧ e.kind = .TypeError)
        ↔ ¬ ((s1.values v).type = ValueType.tList1.toNat ∨
             (s1.values v).type = ValueType.tList2.toNat ∨
             (s1.values v).type = ValueType.tListN.toNat))
    ∧ (∀ e s2, forceList C v pos errorCtx s = .throw e s2 →
        e.kind = .TypeError ∧ e.subject = some (s1.values v) ∧ s2 = s1)
    ∧ ((s1.values v).isList = true → forceList C v pos errorCtx s = .ok s1) := by
  have hlist : (s1.values v).isList = true ↔
      ((s1.values v).type = ValueType.tList1.toNat ∨
       (s1.values v).type = ValueType.tList2.toNat ∨
       (s1.values v).type = ValueType.tListN.toNat) := by
    simp [Value.isList, Value.hasType, or_assoc]
  rw [← hlist]
  by_cases hl : (s1.values v).isList = true
  · have hres : forceList C v pos errorCtx s = .ok s1 := by
      simp [forceList, hforce, hl]
    refine ⟨?_, ?_, fun _ => hres⟩
    · rw [hres]
      simp [hl]
    · intro e s2 h
      rw [hres] at h
      cases h
  · have hres : forceList C v pos errorCtx s =
        .throw { kind := .TypeError, msg := "expected a list but found %1%: %2%",
                 subject := some (s1.values v), pos := none,
                 traces := [(pos, errorCtx)] } s1 := by
      simp [forceList, hforce, hl]
    refine ⟨?_, ?_, fun h => absurd h hl⟩
    · rw [hres]
      simp [hl]
    · intro e s2 h
      rw [hres] at h
      cases h
      exact ⟨rfl, rfl, rfl⟩

/-- Instance of C6: a thunk that forces to the integer 42; `forceList` raises a
`TypeError` and the node stays the integer. -/
theorem forceList_typeError_iff_witness :
    ∃ e s2, forceList (countingCollab 0) 5 0 "ctx"
        ((constState ⟨1, 0, 0⟩ 10 0).setValue 5 ⟨10, 3, 4⟩) = .throw e s2
      ∧ e.kind = .TypeError ∧ s2.values 5 = ⟨1, 42, 0⟩ := by
  have h := forceList_typeError_iff (countingCollab 0) 5 0 "ctx"
      ((constState ⟨1, 0, 0⟩ 10 0).setValue 5 ⟨10, 3, 4⟩) _ rfl
  obtain ⟨e, s2, h2, hk⟩ := h.1.2 (by decide)
  refine ⟨e, s2, h2, hk, ?_⟩
  rw [(h.2.1 e s2 h2).2.2]
  rfl

/-! ## The call-depth guard -/

theorem CallDepth.leave_enter {σ : Type} (s : EvalState σ) :
    CallDepth.leave (CallDepth.enter s) = s := by
  cases s
  simp [CallDepth.leave, CallDepth.enter]

theorem CallDepth.enter_iterate {σ : Type} (n : Nat) (s : EvalState σ) :
    (CallDepth.enter^[n] s).callDepth = s.callDepth + n ∧
    (CallDepth.enter^[n] s).settings = s.settings ∧
    (CallDepth.enter^[n] s).values = s.values ∧
    (CallDepth.enter^[n] s).ext = s.ext := by
  induction n generalizing s with
  | zero => simp
  | succ n ih =>
    rw [Function.iterate_succ_apply]
    obtain ⟨h1, h2, h3, h4⟩ := ih (CallDepth.enter s)
    refine ⟨?_, ?_, ?_, ?_⟩
    · rw [h1]; simp [CallDepth.enter]; omega
    · rw [h2]; rfl
    · rw [h3]; rfl
    · rw [h4]; rfl

theorem guardedCall_eq {σ : Type} (pos : PosIdx) (body : EvalState σ → Outcome (EvalState σ))
    (s : EvalState σ) :
    guardedCall pos body s =
      if s.callDepth > s.settings.maxCallDepth then
        .throw { kind := .EvalBaseError, msg := "stack overflow; max-call-depth exceeded",
                 subject := none, pos := some pos, traces := [] } s
      else (body (CallDepth.enter s)).mapState CallDepth.leave := by
  unfold guardedCall addCallDepth
  split_ifs with h
  · rfl
  · simp only
    cases body (CallDepth.enter s) <;> rfl

/-- While the counter stays within the maximum plus one, every entry of the
chain succeeds: the innermost body runs after `n` entries and the `n` scope
exits follow it. -/
theorem nestedCalls_within {σ : Type} (pos : PosIdx)
    (body : EvalState σ → Outcome (EvalState σ)) (n : Nat) (s : EvalState σ)
    (h : s.callDepth + n ≤ s.settings.maxCallDepth + 1) :
    nestedCalls pos body n s =
      (body (CallDepth.enter^[n] s)).mapState (CallDepth.leave^[n]) := by
  induction n generalizing s with
  | zero =>
    simp only [nestedCalls, Function.iterate_zero, id_eq]
    cases body s <;> rfl
  | succ n ih =>
    have hle : ¬ s.callDepth > s.settings.maxCallDepth := by omega
    have hin : (CallDepth.enter s).callDepth + n ≤ (CallDepth.enter s).settings.maxCallDepth + 1 := by
      simp only [CallDepth.enter]
      omega
    simp only [nestedCalls]
    rw [guardedCall_eq, if_neg hle, ih (CallDepth.enter s) hin, Function.iterate_succ_apply]
    cases body (CallDepth.enter^[n] (CallDepth.enter s)) <;>
      simp only [Outcome.mapState, Function.iterate_succ_apply']

/-- Once the chain is long enough for an entry to find the counter above the
maximum, that entry throws and the unwinding gives back the initial state. -/
theorem nestedCalls_beyond {σ : Type} (pos : PosIdx)
    (body : EvalState σ → Outcome (EvalState σ)) (n : Nat) (s : EvalState σ)
    (hn : 0 < n) (h : s.settings.maxCallDepth + 1 < s.callDepth + n) :
    nestedCalls pos body n s =
      .throw { kind := .EvalBaseError, msg := "stack overflow; max-call-depth exceeded",
               subject := none, pos := some pos, traces := [] } s := by
  induction n generalizing s with
  | zero => omega
  | succ n ih =>
    simp only [nestedCalls]
    rw [guardedCall_eq]
    split_ifs with hgt
    · rfl
    · have hn2 : 0 < n := by omega
      have hin : (CallDepth.enter s).settings.maxCallDepth + 1 <
          (CallDepth.enter s).callDepth + n := by
        simp only [CallDepth.enter]
        omega
      rw [ih (CallDepth.enter s) hn2 hin]
      simp only [Outcome.mapState, CallDepth.leave_enter]

/-- A chain of guarded frames around a body that returns or throws with the
counter as it found it ends, by return or by throw, with the counter as the
chain found it. -/
theorem nestedCalls_callDepth {σ : Type} (pos : PosIdx)
    (body : EvalState σ → Outcome (EvalState σ))
    (hbody : ∀ s0, (body s0).callDepth? = some s0.callDepth)
    (n : Nat) (s : EvalState σ) :
    (nestedCalls pos body n s).callDepth? = some s.callDepth := by
  induction n generalizing s with
  | zero => exact hbody s
  | succ n ih =>
    simp only [nestedCalls]
    rw [guardedCall_eq]
    split_ifs with hgt
    · rfl
    · have h := ih (CallDepth.enter s)
      cases hr : nestedCalls pos body n (CallDepth.enter s) <;> rw [hr] at h <;>
        simp_all [Outcome.callDepth?, Outcome.mapState, CallDepth.leave, CallDepth.enter]

/-- C7, as the code has it.  With the counter at 0 and the maximum `M`, every
chain of at most `M + 1` nested guard entries succeeds (the innermost body
runs with the counter at the number of entries, and the scope exits follow
it), and in a chain of `M + 2` the last entry raises the stack-overflow
error, which unwinds to the initial state.  Each `addCallDepth` compares
before it increments, and rejects exactly when the counter is already
above the maximum. -/
theorem addCallDepth_nested_limit {σ : Type} (pos : PosIdx)
    (body : EvalState σ → Outcome (EvalState σ)) (s : EvalState σ)
    (hzero : s.callDepth = 0) :
    (∀ n, n ≤ s.settings.maxCallDepth + 1 →
        nestedCalls pos body n s =
          (body (CallDepth.enter^[n] s)).mapState (CallDepth.leave^[n])
        ∧ (CallDepth.enter^[n] s).callDepth = n)
    ∧ nestedCalls pos body (s.settings.maxCallDepth + 2) s =
        .throw { kind := .EvalBaseError, msg := "stack overflow; max-call-depth exceeded",
                 subject := none, pos := some pos, traces := [] } s
    ∧ (∀ s1 : EvalState σ,
        (s1.settings.maxCallDepth < s1.callDepth ∧
          addCallDepth pos s1 =
            .throw { kind := .EvalBaseError, msg := "stack overflow; max-call-depth exceeded",
                     subject := none, pos := some pos, traces := [] } s1)
        ∨ (s1.callDepth ≤ s1.settings.maxCallDepth ∧
            addCallDepth pos s1 = .ok (CallDepth.enter s1))) := by
  refine ⟨?_, ?_, ?_⟩
  · intro n hn
    refine ⟨nestedCalls_within pos body n s (by omega), ?_⟩
    rw [(CallDepth.enter_iterate n s).1, hzero]
    omega
  · exact nestedCalls_beyond pos body _ s (by omega) (by omega)
  · intro s1
    by_cases h : s1.settings.maxCallDepth < s1.callDepth
    · left
      exact ⟨h, by simp [addCallDepth, h]⟩
    · right
      exact ⟨by omega, by simp [addCallDepth, h]⟩

/-- Instance of C7 as the code has it: with maximum 1, the third nested entry
is the one that raises. -/
theorem addCallDepth_nested_limit_witness :
    (nestedCalls 0 Outcome.ok 2 (constState ⟨1, 0, 0⟩ 1 ()) =
      (Outcome.ok (CallDepth.enter^[2] (constState ⟨1, 0, 0⟩ 1 ()))).mapState
        (CallDepth.leave^[2]))
    ∧ nestedCalls 0 Outcome.ok 3 (constState ⟨1, 0, 0⟩ 1 ()) =
      .throw { kind := .EvalBaseError, msg := "stack overflow; max-call-depth exceeded",
               subject := none, pos := some 0, traces := [] } (constState ⟨1, 0, 0⟩ 1 ()) :=
  ⟨((addCallDepth_nested_limit 0 Outcome.ok (constState ⟨1, 0, 0⟩ 1 ()) rfl).1 2
      (by decide)).1,
   (addCallDepth_nested_limit 0 Outcome.ok (constState ⟨1, 0, 0⟩ 1 ()) rfl).2.1⟩

/-- C7 as stated fails for the maximum 1 and the counter at 0: the second of
two nested entries, one past the maximum, does not raise.  The chain
returns, its innermost body having run with the counter at 2, and the
counter is back at 0. -/
theorem addCallDepth_second_entry_max_one :
    (nestedCalls 0 (fun s => .ok { s with ext := s.callDepth }) 2
        (constState ⟨1, 0, 0⟩ 1 0)).isOk = true
    ∧ (nestedCalls 0 (fun s => .ok { s with ext := s.callDepth }) 2
        (constState ⟨1, 0, 0⟩ 1 0)).ext? = some 2
    ∧ (nestedCalls 0 (fun s => .ok { s with ext := s.callDepth }) 2
        (constState ⟨1, 0, 0⟩ 1 0)).callDepth? = some 0
    ∧ ¬ ∃ e s1, nestedCalls 0 (fun s => .ok { s with ext := s.callDepth }) 2
        (constState ⟨1, 0, 0⟩ 1 0) = .throw e s1 := by
  refine ⟨rfl, rfl, rfl, ?_⟩
  rintro ⟨e, s1, h⟩
  have h2 := congrArg Outcome.isOk h
  simp [Outcome.isOk] at h2
  exact absurd h2 (by decide)

/-- C8.  For a guarded frame entered in state `s`: a failing `addCallDepth`
leaves the state, the counter included, unchanged; a successful one
increments the counter by exactly one, and the scope exit that matches it
undoes exactly that; a scope exit decrements a positive counter by exactly
one.  Hence a chain of nested guarded frames in which an entry raises the
stack-overflow error ends with that error in the initial state, the
counter at its value before the first nested call; and around any body that
returns or throws with the counter as it found it, a chain of any length
ends, by return or by throw, with the counter at that value. -/
theorem callDepth_restored {σ : Type} (pos : PosIdx)
    (body : EvalState σ → Outcome (EvalState σ)) (s : EvalState σ) :
    (∀ e s1, addCallDepth pos s = .throw e s1 → s1 = s)
    ∧ (∀ s1, addCallDepth pos s = .ok s1 →
        s1.callDepth = s.callDepth + 1 ∧ CallDepth.leave s1 = s)
    ∧ (0 < s.callDepth → (CallDepth.leave s).callDepth + 1 = s.callDepth)
    ∧ (∀ n, 0 < n → s.settings.maxCallDepth + 1 < s.callDepth + n →
        nestedCalls pos body n s =
          .throw { kind := .EvalBaseError, msg := "stack overflow; max-call-depth exceeded",
                   subject := none, pos := some pos, traces := [] } s)
    ∧ ((∀ s0, (body s0).callDepth? = some s0.callDepth) →
        ∀ n, (nestedCalls pos body n s).callDepth? = some s.callDepth) := by
  refine ⟨?_, ?_, ?_, ?_, ?_⟩
  · intro e s1 h
    unfold addCallDepth at h
    split_ifs at h
    cases h
    rfl
  · intro s1 h
    unfold addCallDepth at h
    split_ifs at h
    cases h
    exact ⟨rfl, CallDepth.leave_enter s⟩
  · intro h
    simp only [CallDepth.leave]
    omega
  · intro n hn h
    exact nestedCalls_beyond pos body n s hn h
  · intro hbody n
    exact nestedCalls_callDepth pos body hbody n s

/-- Instance of C8: from the counter at 4 with maximum 5, a chain of seven
nested frames overflows and ends in the initial state, and a chain of two
around a body that throws ends with the counter at 4. -/
theorem callDepth_restored_witness :
    nestedCalls 0 (fun s => .throw ⟨.EvalError 1, "x", none, none, []⟩ s) 7
        { constState ⟨1, 0, 0⟩ 5 () with callDepth := 4 } =
      .throw { kind := .EvalBaseError, msg := "stack overflow; max-call-depth exceeded",
               subject := none, pos := some 0, traces := [] }
        { constState ⟨1, 0, 0⟩ 5 () with callDepth := 4 }
    ∧ (nestedCalls 0 (fun s => .throw ⟨.EvalError 1, "x", none, none, []⟩ s) 2
        { constState ⟨1, 0, 0⟩ 5 () with callDepth := 4 }).callDepth? = some 4 :=
  ⟨(callDepth_restored 0 (fun s => .throw ⟨.EvalError 1, "x", none, none, []⟩ s)
      { constState ⟨1, 0, 0⟩ 5 () with callDepth := 4 }).2.2.2.1 7 (by decide) (by decide),
   (callDepth_restored 0 (fun s => .throw ⟨.EvalError 1, "x", none, none, []⟩ s)
      { constState ⟨1, 0, 0⟩ 5 () with callDepth := 4 }).2.2.2.2 (fun _ => rfl) 2⟩

/-! ## Normal types and lists -/

theorem ValueType.ofNat?_toNat (t : ValueType) : ValueType.ofNat? t.toNat = some t := by
  cases t <;> rfl

theorem ValueType.toNat_of_ofNat? (n : Nat) (t : ValueType)
    (h : ValueType.ofNat? n = some t) : n = t.toNat := by
  by_cases hn : n ≤ 17
  · interval_cases n <;> simp [ValueType.ofNat?] at h <;> subst h <;> rfl
  · obtain ⟨k, rfl⟩ : ∃ k, n = k + 18 := ⟨n - 18, by omega⟩
    simp [ValueType.ofNat?] at h

/-- C9.  `normalType` reads the tag only and returns a normal type; it has no
access to the node's storage, so it modifies nothing.  On each of the
seventeen tags it returns (the `abort()` branch is not reached), and it
reaches `abort()` exactly for a tag word that is none of them.  It returns
`nThunk` exactly for the tags Thunk, Application and Blackhole, `nList`
exactly for the three list tags, `nFunction` exactly for Lambda, PrimOp and
PrimOpApplication, and for each of Int, Float, Bool, String, Path, Null,
Attrs, External the normal type of the same name exactly for that tag. -/
theorem normalType_spec (v : Value) :
    (∀ t : ValueType, v.type = t.toNat → ∃ n, v.normalType = some n)
    ∧ (v.normalType = none ↔ ∀ t : ValueType, v.type ≠ t.toNat)
    ∧ (v.normalType = some .nThunk ↔
        v.type = ValueType.tThunk.toNat ∨ v.type = ValueType.tApp.toNat ∨
        v.type = ValueType.tBlackhole.toNat)
    ∧ (v.normalType = some .nList ↔
        v.type = ValueType.tList1.toNat ∨ v.type = ValueType.tList2.toNat ∨
        v.type = ValueType.tListN.toNat)
    ∧ (v.normalType = some .nFunction ↔
        v.type = ValueType.tLambda.toNat ∨ v.type = ValueType.tPrimOp.toNat ∨
        v.type = ValueType.tPrimOpApp.toNat)
    ∧ (v.normalType = some .nInt ↔ v.type = ValueType.tInt.toNat)
    ∧ (v.normalType = some .nFloat ↔ v.type = ValueType.tFloat.toNat)
    ∧ (v.normalType = some .nBool ↔ v.type = ValueType.tBool.toNat)
    ∧ (v.normalType = some .nString ↔ v.type = ValueType.tString.toNat)
    ∧ (v.normalType = some .nPath ↔ v.type = ValueType.tPath.toNat)
    ∧ (v.normalType = some .nNull ↔ v.type = ValueType.tNull.toNat)
    ∧ (v.normalType = some .nAttrs ↔ v.type = ValueType.tAttrs.toNat)
    ∧ (v.normalType = some .nExternal ↔ v.type = ValueType.tExternal.toNat) := by
  cases h : ValueType.ofNat? v.type with
  | none =>
    have hno : ∀ t : ValueType, v.type ≠ t.toNat := by
      intro t ht
      rw [ht, ValueType.ofNat?_toNat] at h
      cases h
    have hn : v.normalType = none := by simp [Value.normalType, h]
    refine ⟨fun t ht => absurd ht (hno t), ?_, ?_, ?_, ?_, ?_, ?_, ?_, ?_, ?_, ?_, ?_, ?_⟩
    · simp [hn, hno]
    all_goals simp [hn, hno]
  | some t =>
    have ht := ValueType.toNat_of_ofNat? v.type t h
    clear h
    obtain ⟨ty, w0, w1⟩ := v
    simp only at ht
    subst ht
    refine ⟨?_, ?_, ?_⟩
    · intro _ _
      cases t <;> simp [Value.normalType, ValueType.ofNat?, ValueType.toNat]
    · constructor
      · intro h0
        cases t <;> simp [Value.normalType, ValueType.ofNat?, ValueType.toNat] at h0
      · intro h0
        exact absurd rfl (h0 t)
    · cases t <;> simp [Value.normalType, ValueType.ofNat?, ValueType.toNat]

/-- Instance of C9: the tag word 13 is the Blackhole tag, on which `normalType`
returns. -/
theorem normalType_spec_witness : ∃ n, (⟨13, 0, 0⟩ : Value).normalType = some n :=
  (normalType_spec ⟨13, 0, 0⟩).1 .tBlackhole rfl

theorem storeElems_read (mem : Ptr → Ptr) (base : Ptr) (xs : List Ptr) (i : Nat)
    (h : i < xs.length) : storeElems mem base xs (base + i) = xs[i] := by
  have h1 : base ≤ base + i ∧ base + i < base + xs.length :=
    ⟨Nat.le_add_right base i, Nat.add_lt_add_left h base⟩
  simp only [storeElems, h1, and_self, if_true, Nat.add_sub_cancel_left]
  exact List.getD_eq_getElem xs 0 h

/-- C10.  For the list value built from the elements `xs` (with `base` the
externally allocated storage and `mem` the element storage before): the
node is a list, `listSize` is the number of elements, and for every index
below it the entry of `listElems` at that index is the element of `xs` at
that index.  This holds alike for the inline representation, which is the
one built exactly when there are one or two elements (tags `tList1`,
`tList2`, element storage untouched), and for the external one (tag
`tListN`, elements at `base`), built when there are none or at least three. -/
theorem mkList_listSize_listElems (xs : List Ptr) (base : Ptr) (mem : Ptr → Ptr) :
    (mkList xs base mem).1.isList = true
    ∧ (mkList xs base mem).1.listSize = xs.length
    ∧ (∀ i : Fin xs.length,
        (mkList xs base mem).1.listElems (mkList xs base mem).2 i = some (xs.get i))
    ∧ (xs.length = 1 →
        (mkList xs base mem).1.type = ValueType.tList1.toNat ∧ (mkList xs base mem).2 = mem)
    ∧ (xs.length = 2 →
        (mkList xs base mem).1.type = ValueType.tList2.toNat ∧ (mkList xs base mem).2 = mem)
    ∧ (xs.length ≠ 1 → xs.length ≠ 2 →
        (mkList xs base mem).1.type = ValueType.tListN.toNat ∧
        (mkList xs base mem).1.bigList_elems = base ∧
        (mkList xs base mem).2 = storeElems mem base xs) := by
  match xs with
  | [] =>
    refine ⟨rfl, rfl, fun i => i.elim0, ?_, ?_, ?_⟩
    · intro h; simp at h
    · intro h; simp at h
    · intro _ _; exact ⟨rfl, rfl, rfl⟩
  | [a] =>
    refine ⟨rfl, rfl, ?_, ?_, ?_, ?_⟩
    · intro i
      rcases i with ⟨i, hi⟩
      simp only [List.length_cons, List.length_nil] at hi
      interval_cases i
      rfl
    · intro _; exact ⟨rfl, rfl⟩
    · intro h; simp at h
    · intro h; simp at h
  | [a, b] =>
    refine ⟨rfl, rfl, ?_, ?_, ?_, ?_⟩
    · intro i
      rcases i with ⟨i, hi⟩
      simp only [List.length_cons, List.length_nil] at hi
      interval_cases i <;> rfl
    · intro h; simp at h
    · intro _; exact ⟨rfl, rfl⟩
    · intro _ h; simp at h
  | a :: b :: c :: rest =>
    have hm : mkList (a :: b :: c :: rest) base mem =
        ({ type := ValueType.tListN.toNat, word0 := (a :: b :: c :: rest).length,
           word1 := base }, storeElems mem base (a :: b :: c :: rest)) := rfl
    rw [hm]
    refine ⟨rfl, by simp [Value.listSize, Value.hasType, ValueType.toNat,
      Value.bigList_size], ?_, ?_, ?_, ?_⟩
    · intro i
      simp only [Value.listElems, Value.hasType, ValueType.toNat, Value.bigList_elems]
      simp only [Nat.reduceBEq, Bool.or_self, Bool.false_eq_true, if_false]
      rw [storeElems_read mem base _ i i.isLt]
      rfl
    · intro h; simp at h
    · intro h; simp at h
    · intro _ _; exact ⟨rfl, rfl, rfl⟩

/-- Instance of C10: lists of 1 and of 5 elements; the entry at index 0 of the
inline one and at index 4 of the external one. -/
theorem mkList_listSize_listElems_witness :
    ((mkList [70] 100 (fun _ => 0)).1.type = 7 ∧ (mkList [70] 100 (fun _ => 0)).1.listSize = 1
      ∧ (mkList [70] 100 (fun _ => 0)).1.listElems (mkList [70] 100 (fun _ => 0)).2 0
          = some 70)
    ∧ ((mkList [70, 71, 72, 73, 74] 100 (fun _ => 0)).1.type = 9
      ∧ (mkList [70, 71, 72, 73, 74] 100 (fun _ => 0)).1.listSize = 5
      ∧ (mkList [70, 71, 72, 73, 74] 100 (fun _ => 0)).1.listElems
          (mkList [70, 71, 72, 73, 74] 100 (fun _ => 0)).2 4 = some 74) :=
  ⟨⟨((mkList_listSize_listElems [70] 100 (fun _ => 0)).2.2.2.1 rfl).1,
    (mkList_listSize_listElems [70] 100 (fun _ => 0)).2.1,
    (mkList_listSize_listElems [70] 100 (fun _ => 0)).2.2.1 ⟨0, by decide⟩⟩,
   ⟨((mkList_listSize_listElems [70, 71, 72, 73, 74] 100 (fun _ => 0)).2.2.2.2.2
        (by decide) (by decide)).1,
    (mkList_listSize_listElems [70, 71, 72, 73, 74] 100 (fun _ => 0)).2.1,
    (mkList_listSize_listElems [70, 71, 72, 73, 74] 100 (fun _ => 0)).2.2.1 ⟨4, by decide⟩⟩⟩

/-! ## Blackholes, applications, the invariant of forcing -/

theorem EvalState.setValue_self {σ : Type} (s : EvalState σ) (a : Ptr) :
    s.setValue a (s.values a) = s := by
  cases s with
  | mk values callDepth settings ext =>
    simp only [EvalState.setValue, EvalState.mk.injEq, and_true]
    funext b
    by_cases h : b = a <;> simp [h]

theorem EvalState.setValue_twice {σ : Type} (s : EvalState σ) (a : Ptr) (w1 w2 : Value) :
    (s.setValue a w1).setValue a w2 = s.setValue a w2 := by
  simp only [EvalState.setValue, EvalState.mk.injEq, and_true]
  funext b
  by_cases h : b = a <;> simp [h]

theorem Value.eq_mkBlackhole_of_isBlackhole (v w : Value) (hbh : v.isBlackhole = true)
    (henv : v.thunk_env = 0) : w.mkBlackhole = v := by
  cases v with
  | mk type word0 word1 =>
    simp [Value.isBlackhole, Value.hasType, Value.thunk_expr] at hbh
    simp [Value.thunk_env] at henv
    simp [Value.mkBlackhole, Value.mkThunk, hbh.1, hbh.2, henv]

theorem Value.isBlackhole_mkBlackhole (w : Value) :
    w.mkBlackhole.isBlackhole = true ∧ w.mkBlackhole.thunk_env = 0 ∧
    w.mkBlackhole.isThunk = true := by
  simp [Value.mkBlackhole, Value.mkThunk, Value.isBlackhole, Value.isThunk, Value.hasType,
    Value.thunk_env, Value.thunk_expr]

/-- Forcing a Blackhole whose environment is absent: no collaborator is
consulted, the infinite-recursion error is raised at the position of the
force, and the state is the one the force started in. -/
theorem forceValue_of_blackhole {σ : Type} (C : Collab σ) (v : Ptr) (pos : PosIdx)
    (s : EvalState σ) (hbh : (s.values v).isBlackhole = true)
    (henv : (s.values v).thunk_env = 0) :
    forceValue C v pos s =
      .throw { kind := .InfiniteRecursionError, msg := "infinite recursion encountered",
               subject := none, pos := some pos, traces := [] } s := by
  have hT : (s.values v).isThunk = true := by
    simp [Value.isBlackhole] at hbh
    simpa [Value.isThunk] using hbh.1
  have hexpr : (s.values v).thunk_expr = eBlackHole := by
    simp [Value.isBlackhole] at hbh
    exact hbh.2
  have hnode : ∀ w : Value, w.mkThunk 0 eBlackHole = s.values v := fun w =>
    Value.eq_mkBlackhole_of_isBlackhole (s.values v) w hbh henv
  have hs1 : s.setValue v (s.values v).mkBlackhole = s := by
    rw [Value.eq_mkBlackhole_of_isBlackhole (s.values v) _ hbh henv]
    exact EvalState.setValue_self s v
  simp only [forceValue, hT, henv, hbh, hexpr, hs1, hnode, if_true, throwInfiniteRecursionError,
    tryFixupBlackHolePos, EvalState.setValue_self]
  simp [EvalState.setValue_self]

/-- C12.  Forcing a node in the Blackhole state (its environment reference
absent) raises the infinite-recursion error, at the position of the force
and in the state the force was started in, whatever the collaborators are:
no expression evaluation is invoked.  And when `forceValue` forces a thunk
with a present environment, the state it hands to the evaluation of the
captured expression is the one in which the node is a Blackhole with an
absent environment, so that every force of that node made in that state, by
whatever collaborators, raises the infinite-recursion error there instead
of evaluating or looping. -/
theorem forceValue_blackhole_reentry {σ : Type} (v : Ptr) (s : EvalState σ) :
    ((s.values v).isBlackhole = true → (s.values v).thunk_env = 0 →
        ∀ (C : Collab σ) (pos : PosIdx), forceValue C v pos s =
          .throw { kind := .InfiniteRecursionError, msg := "infinite recursion encountered",
                   subject := none, pos := some pos, traces := [] } s)
    ∧ ((s.values v).isThunk = true → (s.values v).thunk_env ≠ 0 →
        (∀ (C : Collab σ) (pos : PosIdx), forceValue C v pos s =
            match C.eval (s.values v).thunk_expr (s.values v).thunk_env v
                    (s.setValue v (s.values v).mkBlackhole) with
            | .throw e s2 =>
                .throw (tryFixupBlackHolePos
                          ((s2.setValue v ((s2.values v).mkThunk (s.values v).thunk_env
                              (s.values v).thunk_expr)).values v) pos e)
                       (s2.setValue v ((s2.values v).mkThunk (s.values v).thunk_env
                              (s.values v).thunk_expr))
            | .ok s2 => .ok s2
            | .abort => .abort)
        ∧ ((s.setValue v (s.values v).mkBlackhole).values v).isBlackhole = true
        ∧ ((s.setValue v (s.values v).mkBlackhole).values v).thunk_env = 0
        ∧ (∀ (C2 : Collab σ) (pos2 : PosIdx),
            forceValue C2 v pos2 (s.setValue v (s.values v).mkBlackhole) =
              .throw { kind := .InfiniteRecursionError,
                       msg := "infinite recursion encountered",
                       subject := none, pos := some pos2, traces := [] }
                (s.setValue v (s.values v).mkBlackhole))) := by
  refine ⟨fun hbh henv C pos => forceValue_of_blackhole C v pos s hbh henv, ?_⟩
  intro hT henv
  have h1 : ((s.setValue v (s.values v).mkBlackhole).values v).isBlackhole = true := by
    rw [EvalState.setValue_same]
    exact (Value.isBlackhole_mkBlackhole _).1
  have h2 : ((s.setValue v (s.values v).mkBlackhole).values v).thunk_env = 0 := by
    rw [EvalState.setValue_same]
    exact (Value.isBlackhole_mkBlackhole _).2.1
  exact ⟨fun C pos => forceValue_thunk C v pos s hT henv, h1, h2,
    fun C2 pos2 => forceValue_of_blackhole C2 v pos2 _ h1 h2⟩

/-- Instance of C12: the thunk at address 5 is being forced; in the state its
expression is evaluated in, a force of address 5 with collaborators that
would abort if called raises the infinite-recursion error. -/
theorem forceValue_blackhole_reentry_witness :
    forceValue (abortingCollab Unit) 5 8
        (((constState ⟨1, 0, 0⟩ 10 ()).setValue 5 ⟨10, 3, 4⟩).setValue 5
          (⟨10, 3, 4⟩ : Value).mkBlackhole) =
      .throw { kind := .InfiniteRecursionError, msg := "infinite recursion encountered",
               subject := none, pos := some 8, traces := [] }
        (((constState ⟨1, 0, 0⟩ 10 ()).setValue 5 ⟨10, 3, 4⟩).setValue 5
          (⟨10, 3, 4⟩ : Value).mkBlackhole) :=
  ((forceValue_blackhole_reentry 5 ((constState ⟨1, 0, 0⟩ 10 ()).setValue 5 ⟨10, 3, 4⟩)).2
      rfl (by decide)).2.2.2 (abortingCollab Unit) 8

/-- C13.  On an Application node with function operand `l` and argument operand
`r` (as `mkApp` builds it), `forceValue` is exactly one call of the call
mechanism with `l`, `r`, the node itself as output and the given position,
made in the state `forceValue` was called in: the node has not been
blackholed or otherwise touched beforehand.  The outcome of `forceValue`,
final state and error included, is the outcome of that call, and it does
not depend on the expression-evaluation collaborator, which `forceValue`
does not consult. -/
theorem forceValue_app {σ : Type} (C : Collab σ) (v : Ptr) (pos : PosIdx) (s : EvalState σ)
    (w : Value) (l r : Ptr) (hnode : s.values v = w.mkApp l r) :
    (s.values v).isApp = true ∧ (s.values v).app_left = l ∧ (s.values v).app_right = r
    ∧ forceValue C v pos s = C.callFunction l r v pos s
    ∧ (∀ C2 : Collab σ, C2.callFunction = C.callFunction →
        forceValue C2 v pos s = C.callFunction l r v pos s) := by
  have hA : (s.values v).isApp = true := by
    rw [hnode]; simp [Value.mkApp, Value.setApp, Value.isApp, Value.hasType]
  have hT : (s.values v).isThunk = false := by
    rw [hnode]; simp [Value.mkApp, Value.setApp, Value.isThunk, Value.hasType, ValueType.toNat]
  have hl : (s.values v).app_left = l := by rw [hnode]; rfl
  have hr : (s.values v).app_right = r := by rw [hnode]; rfl
  refine ⟨hA, hl, hr, ?_, ?_⟩
  · simp [forceValue, hT, hA, hl, hr]
  · intro C2 h2
    simp [forceValue, hT, hA, hl, hr, h2]

/-- Instance of C13: the application of the node at 6 to the node at 7, stored
at address 5; forcing it is the counting call mechanism's one call. -/
theorem forceValue_app_witness :
    forceValue (countingCollab 0) 5 0
        ((constState ⟨1, 0, 0⟩ 10 0).setValue 5 ((⟨1, 0, 0⟩ : Value).mkApp 6 7)) =
      (countingCollab 0).callFunction 6 7 5 0
        ((constState ⟨1, 0, 0⟩ 10 0).setValue 5 ((⟨1, 0, 0⟩ : Value).mkApp 6 7)) :=
  (forceValue_app (countingCollab 0) 5 0
      ((constState ⟨1, 0, 0⟩ 10 0).setValue 5 ((⟨1, 0, 0⟩ : Value).mkApp 6 7))
      ⟨1, 0, 0⟩ 6 7 rfl).2.2.2.1

/-! ## Retagging a node -/

/-- C14.  Whatever a node `v` holds, in particular when it is an
Application-shaped node holding a (function, argument) pair: after `mkInt`,
`mkFloat`, `mkBool`, `mkNull` or `mkPathNoCopy` the node is the new tag, the
given payload in the first word and zero in the second, and reading the
payload back gives what was given.  The result does not depend on `v`, so
neither of the two references `v` held remains stored in the node.  Each of
the five is `clearValue`, which zeroes both references and keeps the tag,
followed by the retagging and the assignment of the payload. -/
theorem mk_clears_references (v : Value) :
    (∀ n : Int, v.mkInt n = ⟨ValueType.tInt.toNat, (n % 2 ^ 64).toNat, 0⟩
        ∧ (-(2 ^ 63) ≤ n → n < 2 ^ 63 → (v.mkInt n).integer = n))
    ∧ (∀ bits : Nat, v.mkFloat bits = ⟨ValueType.tFloat.toNat, bits % 2 ^ 64, 0⟩
        ∧ (bits < 2 ^ 64 → (v.mkFloat bits).fpoint = bits))
    ∧ (∀ b : Bool, v.mkBool b = ⟨ValueType.tBool.toNat, if b then 1 else 0, 0⟩
        ∧ (v.mkBool b).boolean = b)
    ∧ v.mkNull = ⟨ValueType.tNull.toNat, 0, 0⟩
    ∧ (∀ s : Ptr, v.mkPathNoCopy s = ⟨ValueType.tPath.toNat, s, 0⟩
        ∧ (v.mkPathNoCopy s).path = s)
    ∧ (v.clearValue.app_left = 0 ∧ v.clearValue.app_right = 0 ∧ v.clearValue.type = v.type)
    ∧ (∀ n, v.mkInt n = (v.clearValue.setInt).assign_integer n)
    ∧ (∀ bits, v.mkFloat bits = (v.clearValue.setFloat).assign_fpoint bits)
    ∧ (∀ b, v.mkBool b = (v.clearValue.setBool).assign_boolean b)
    ∧ v.mkNull = v.clearValue.setNull
    ∧ (∀ s, v.mkPathNoCopy s = (v.clearValue.setPath).assign_path s) := by
  refine ⟨?_, ?_, ?_, rfl, ?_, ⟨rfl, rfl, rfl⟩, fun _ => rfl, fun _ => rfl, fun _ => rfl, rfl,
    fun _ => rfl⟩
  · intro n
    refine ⟨rfl, ?_⟩
    intro hlo hhi
    simp only [Value.mkInt, Value.assign_integer, Value.integer]
    split_ifs with h <;> omega
  · intro bits
    refine ⟨rfl, ?_⟩
    intro hb
    simp only [Value.mkFloat, Value.assign_fpoint, Value.fpoint]
    omega
  · intro b
    cases b <;>
      simp [Value.mkBool, Value.assign_boolean, Value.clearValue, Value.setBool, Value.boolean]
  · intro s
    exact ⟨rfl, rfl⟩

/-- Instance of C14: the application of the node at 6 to the node at 7 is
overwritten with the integer -1, of two's complement `2 ^ 64 - 1`; the node
reads back as -1 and its second word, which held 7, is zero. -/
theorem mk_clears_references_witness :
    (((⟨1, 0, 0⟩ : Value).mkApp 6 7).mkInt (-1)).integer = -1
    ∧ (((⟨1, 0, 0⟩ : Value).mkApp 6 7).mkInt (-1)).word1 = 0 :=
  ⟨((mk_clears_references ((⟨1, 0, 0⟩ : Value).mkApp 6 7)).1 (-1)).2 (by decide) (by decide),
   congrArg Value.word1 ((mk_clears_references ((⟨1, 0, 0⟩ : Value).mkApp 6 7)).1 (-1)).1⟩

/-! ## The invariant of forcing -/

theorem EvalState.wellFormed_setValue {σ : Type} (s : EvalState σ) (a : Ptr) (w : Value)
    (hs : s.WellFormed) (hw : w.isThunk = true → w.thunk_env ≠ 0 ∨ w.isBlackhole = true) :
    (s.setValue a w).WellFormed := by
  intro b hb
  by_cases h : b = a
  · subst h
    rw [EvalState.setValue_same] at hb ⊢
    exact hw hb
  · rw [EvalState.setValue_other _ _ _ _ h] at hb ⊢
    exact hs b hb

/-- C15.  In a value graph where every thunk-tagged node has a present
environment or is a Blackhole: the assertion at the top of `forceValue`
holds for the node forced, so `forceValue` aborts only if a collaborator
does (never, with collaborators that never abort); and if the collaborators
keep the invariant, then so does `forceValue`, in the state it returns in
and in the state it throws in. -/
theorem forceValue_wellFormed {σ : Type} (C : Collab σ) (v : Ptr) (pos : PosIdx)
    (s : EvalState σ) (hs : s.WellFormed) :
    ((s.values v).isThunk = true →
        ((s.values v).thunk_env != 0 || (s.values v).isBlackhole) = true)
    ∧ (C.NeverAborts → forceValue C v pos s ≠ .abort)
    ∧ (C.PreservesWellFormed → (forceValue C v pos s).Holds EvalState.WellFormed) := by
  have hassert : (s.values v).isThunk = true →
      ((s.values v).thunk_env != 0 || (s.values v).isBlackhole) = true := by
    intro hT
    rcases hs v hT with h | h
    · simp [h]
    · simp [h]
  refine ⟨hassert, ?_, ?_⟩
  · intro hC
    by_cases hT : (s.values v).isThunk = true
    · by_cases henv : (s.values v).thunk_env = 0
      · have hbh : (s.values v).isBlackhole = true := by
          rcases hs v hT with h | h
          · exact absurd henv h
          · exact h
        rw [forceValue_of_blackhole C v pos s hbh henv]
        simp
      · rw [forceValue_thunk C v pos s hT henv]
        have := hC.1 (s.values v).thunk_expr (s.values v).thunk_env v
          (s.setValue v (s.values v).mkBlackhole)
        cases hr : C.eval (s.values v).thunk_expr (s.values v).thunk_env v
          (s.setValue v (s.values v).mkBlackhole) with
        | ok s2 => simp
        | throw e s2 => simp
        | abort => exact absurd hr this
    · have hT2 : (s.values v).isThunk = false := by simpa using hT
      by_cases hA : (s.values v).isApp = true
      · have : forceValue C v pos s =
            C.callFunction (s.values v).app_left (s.values v).app_right v pos s := by
          simp [forceValue, hT2, hA]
        rw [this]
        exact hC.2 _ _ _ _ _
      · have hA2 : (s.values v).isApp = false := by simpa using hA
        rw [forceValue_of_forced C v pos s hT2 hA2]
        simp
  · intro hC
    by_cases hT : (s.values v).isThunk = true
    · by_cases henv : (s.values v).thunk_env = 0
      · have hbh : (s.values v).isBlackhole = true := by
          rcases hs v hT with h | h
          · exact absurd henv h
          · exact h
        rw [forceValue_of_blackhole C v pos s hbh henv]
        exact hs
      · rw [forceValue_thunk C v pos s hT henv]
        have hs1 : (s.setValue v (s.values v).mkBlackhole).WellFormed :=
          EvalState.wellFormed_setValue s v _ hs
            (fun _ => Or.inr (Value.isBlackhole_mkBlackhole _).1)
        have := hC.1 (s.values v).thunk_expr (s.values v).thunk_env v _ hs1
        cases hr : C.eval (s.values v).thunk_expr (s.values v).thunk_env v
          (s.setValue v (s.values v).mkBlackhole) with
        | ok s2 =>
          rw [hr] at this
          exact this
        | throw e s2 =>
          rw [hr] at this
          exact EvalState.wellFormed_setValue s2 v _ this (fun _ => Or.inl henv)
        | abort => trivial
    · have hT2 : (s.values v).isThunk = false := by simpa using hT
      by_cases hA : (s.values v).isApp = true
      · have : forceValue C v pos s =
            C.callFunction (s.values v).app_left (s.values v).app_right v pos s := by
          simp [forceValue, hT2, hA]
        rw [this]
        exact hC.2 _ _ _ _ _ hs
      · have hA2 : (s.values v).isApp = false := by simpa using hA
        rw [forceValue_of_forced C v pos s hT2 hA2]
        exact hs

theorem constState_wellFormed {σ : Type} (d : Value) (m : Nat) (x : σ)
    (hd : d.isThunk = false) : (constState d m x).WellFormed := by
  intro a ha
  simp only [constState] at ha
  rw [hd] at ha
  cases ha

theorem countingCollab_preservesWellFormed (failures : Nat) :
    (countingCollab failures).PreservesWellFormed := by
  have key : ∀ (s : EvalState Nat) (k : Nat) (v : Ptr) (w : Value), s.WellFormed →
      w.isThunk = false → (EvalState.setValue { s with ext := k } v w).WellFormed := by
    intro s k v w hs hw
    apply EvalState.wellFormed_setValue
    · exact hs
    · intro h
      rw [hw] at h
      cases h
  constructor
  · intro expr env v s hs
    simp only [countingCollab]
    split_ifs
    · exact key s _ v _ hs (by decide)
    · exact key s _ v _ hs (by decide)
  · intro f a v pos s hs
    exact key s _ v _ hs (by decide)

/-- Instance of C15: a graph of integer nodes with one thunk, forced with the
counting collaborators, whose first evaluation throws; the state the force
throws in is well-formed. -/
theorem forceValue_wellFormed_witness :
    (forceValue (countingCollab 1) 5 0
        ((constState ⟨1, 0, 0⟩ 10 0).setValue 5 ⟨10, 3, 4⟩)).Holds EvalState.WellFormed :=
  (forceValue_wellFormed (countingCollab 1) 5 0
      ((constState ⟨1, 0, 0⟩ 10 0).setValue 5 ⟨10, 3, 4⟩)
      (EvalState.wellFormed_setValue _ 5 ⟨10, 3, 4⟩
        (constState_wellFormed ⟨1, 0, 0⟩ 10 0 (by decide))
        (fun _ => Or.inl (by decide)))).2.2
    (countingCollab_preservesWellFormed 1)

/-! ## List test and normal type -/

theorem Value.normalType_nList_iff (v : Value) :
    v.normalType = some .nList ↔
      (v.type = ValueType.tList1.toNat ∨ v.type = ValueType.tList2.toNat ∨
       v.type = ValueType.tListN.toNat) := by
  cases h : ValueType.ofNat? v.type with
  | none =>
    have hno : ∀ t : ValueType, v.type ≠ t.toNat := by
      intro t ht
      rw [ht, ValueType.ofNat?_toNat] at h
      cases h
    simp [Value.normalType, h, hno]
  | some t =>
    have ht := ValueType.toNat_of_ofNat? v.type t h
    clear h
    obtain ⟨ty, w0, w1⟩ := v
    simp only at ht
    subst ht
    cases t <;> simp [Value.normalType, ValueType.ofNat?, ValueType.toNat]

/-- C19.  For every node, whatever its tag word: `isList` is true if and only if
`normalType` returns `nList`, so the list test of `forceList` and a test on
the normal type accept the same nodes.  And `listElems` is the inline array
`smallList` of the node when the tag is `tList1` or `tList2`, and for every
other tag the external array at `bigList.elems`. -/
theorem isList_iff_normalType (v : Value) :
    (v.isList = true ↔ v.normalType = some .nList)
    ∧ ((v.type = ValueType.tList1.toNat ∨ v.type = ValueType.tList2.toNat) →
        ∀ mem i, v.listElems mem i = v.smallList i)
    ∧ (¬ (v.type = ValueType.tList1.toNat ∨ v.type = ValueType.tList2.toNat) →
        ∀ mem i, v.listElems mem i = some (mem (v.bigList_elems + i))) := by
  refine ⟨?_, ?_, ?_⟩
  · rw [Value.normalType_nList_iff]
    simp [Value.isList, Value.hasType, or_assoc]
  · intro h mem i
    have : (v.hasType .tList1 || v.hasType .tList2) = true := by
      simpa [Value.hasType] using h
    simp [Value.listElems, this]
  · intro h mem i
    have : (v.hasType .tList1 || v.hasType .tList2) = false := by
      simpa [Value.hasType] using h
    simp [Value.listElems, this]

/-- Instance of C19: a two-element list node reads its entries from the node,
an N-element one from the element storage. -/
theorem isList_iff_normalType_witness :
    (∀ mem i, (⟨8, 70, 71⟩ : Value).listElems mem i = (⟨8, 70, 71⟩ : Value).smallList i)
    ∧ (∀ mem i, (⟨9, 5, 100⟩ : Value).listElems mem i =
        some (mem ((⟨9, 5, 100⟩ : Value).bigList_elems + i))) :=
  ⟨(isList_iff_normalType ⟨8, 70, 71⟩).2.1 (Or.inr rfl),
   (isList_iff_normalType ⟨9, 5, 100⟩).2.2 (by decide)⟩

/-! ## Canonical permissions and timestamp -/

theorem land_land_const (k a b c : Nat) (h : a &&& b = c) : k &&& a &&& b = k &&& c := by
  rw [Nat.and_assoc, h]

theorem xusr_of_perm_444 (m : Nat) (h : m &&& notS_IFMT = 0o444) : m &&& S_IXUSR = 0 := by
  rw [← land_land_const m notS_IFMT S_IXUSR S_IXUSR (by decide), h]
  decide

theorem xusr_of_perm_555 (m : Nat) (h : m &&& notS_IFMT = 0o555) : m &&& S_IXUSR = 0o100 := by
  rw [← land_land_const m notS_IFMT S_IXUSR S_IXUSR (by decide), h]
  decide

theorem perm_after_chmod (m c : Nat) (hc : c &&& 0o7777 = c) (hc2 : c &&& notS_IFMT = c) :
    ((m &&& S_IFMT) ||| ((((m &&& S_IFMT) ||| 0o444) ||| c) &&& 0o7777)) &&& notS_IFMT
      = 0o444 ||| c := by
  have h0 : m &&& S_IFMT &&& 0o7777 = 0 := by
    rw [land_land_const m _ _ 0 (by decide)]; simp
  have h1 : m &&& S_IFMT &&& notS_IFMT = 0 := by
    rw [land_land_const m _ _ 0 (by decide)]; simp
  have h2 : (0o444 &&& 0o7777 : Nat) = 0o444 := by decide
  have h3 : (0o444 &&& notS_IFMT : Nat) = 0o444 := by decide
  simp only [Nat.and_distrib_right, h0, h1, h2, h3, hc, hc2, Nat.zero_or]

theorem type_after_chmod (m c : Nat) (hc : c &&& 0o7777 = c) :
    ((m &&& S_IFMT) ||| ((((m &&& S_IFMT) ||| 0o444) ||| c) &&& 0o7777)) &&& S_IFMT
      = m &&& S_IFMT := by
  have h0 : m &&& S_IFMT &&& 0o7777 = 0 := by
    rw [land_land_const m _ _ 0 (by decide)]; simp
  have h1 : m &&& S_IFMT &&& S_IFMT = m &&& S_IFMT := by
    rw [land_land_const m _ _ S_IFMT (by decide)]
  have h2 : (0o444 &&& 0o7777 : Nat) = 0o444 := by decide
  have h3 : (0o444 &&& S_IFMT : Nat) = 0 := by decide
  have h4 : c &&& S_IFMT = 0 := by
    rw [← hc, land_land_const c _ _ 0 (by decide)]; simp
  simp only [Nat.and_distrib_right, h0, h1, h2, h3, h4, hc, Nat.zero_or, Nat.or_zero]

theorem Fs.inodeOf_of_stat (fs : Fs) (path : String) (st : Stat)
    (h : fs.stat path = some st) : fs.inodeOf path = some (st.st_dev, st.st_ino) := by
  unfold Fs.stat at h
  cases hi : fs.inodeOf path with
  | none => rw [hi] at h; cases h
  | some i =>
    rw [hi] at h
    simp only [Option.some.injEq] at h
    subst h
    rfl

theorem Fs.setStat_refuses (fs : Fs) (path : String) (st : Stat) :
    (fs.setStat path st).refuses = fs.refuses := by
  unfold Fs.setStat; split <;> rfl

theorem Fs.setStat_calls (fs : Fs) (path : String) (st : Stat) :
    (fs.setStat path st).calls = fs.calls := by
  unfold Fs.setStat; split <;> rfl

theorem Fs.setStat_inodeOf (fs : Fs) (path : String) (st : Stat) :
    (fs.setStat path st).inodeOf = fs.inodeOf := by
  unfold Fs.setStat; split <;> rfl

theorem Fs.setStat_entries (fs : Fs) (path : String) (st : Stat) :
    (fs.setStat path st).entries = fs.entries := by
  unfold Fs.setStat; split <;> rfl

theorem Fs.setStat_euid (fs : Fs) (path : String) (st : Stat) :
    (fs.setStat path st).euid = fs.euid := by
  unfold Fs.setStat; split <;> rfl

theorem Fs.setStat_interrupted (fs : Fs) (path : String) (st : Stat) :
    (fs.setStat path st).interrupted = fs.interrupted := by
  unfold Fs.setStat; split <;> rfl

/-- Setting the status of the file a path names, to a status with the device
and inode numbers the path has, makes `lstat` of the path report it. -/
theorem Fs.setStat_same (fs : Fs) (path : String) (st s0 : Stat)
    (h : fs.stat path = some s0) (hd : st.st_dev = s0.st_dev) (hi : st.st_ino = s0.st_ino) :
    (fs.setStat path st).stat path = some st := by
  have hino := Fs.inodeOf_of_stat fs path s0 h
  obtain ⟨m, u, g, d, i, t⟩ := st
  simp only at hd hi
  subst hd hi
  simp [Fs.setStat, Fs.stat, hino]

/-- On a file whose permission bits are 0444 or 0555 and whose modification
time is 1 the operation issues no call and returns in the state it was
called in. -/
theorem canonicaliseTimestampAndPermissions_canonical (path : String) (fs : Fs) (st : Stat)
    (hstat : fs.stat path = some st)
    (hperm : st.st_mode &&& notS_IFMT = 0o444 ∨ st.st_mode &&& notS_IFMT = 0o555)
    (hm : st.st_mtime = 1) :
    canonicaliseTimestampAndPermissions path fs = .ret () fs := by
  have hp : (st.st_mode &&& notS_IFMT != 0o444 && st.st_mode &&& notS_IFMT != 0o555) = false := by
    rcases hperm with h | h <;> simp [h]
  simp [canonicaliseTimestampAndPermissions, lstat, hstat, Run.bind,
    canonicaliseTimestampAndPermissionsSt, hp, hm, mtimeStore]

theorem setWriteTime_eq (path : String) (st2 s0 : Stat) (fs : Fs)
    (hstat : fs.stat path = some s0) :
    setWriteTime path st2 fs =
      match fs.refuses (.setWriteTime path st2.st_mtime) with
      | none => .ret () ((fs.issue (.setWriteTime path st2.st_mtime)).setStat path
                  { s0 with st_mtime := st2.st_mtime })
      | some _ => .throw { kind := .SysError, msg := "changing modification time of '%s'",
                           args := [.str path] } (fs.issue (.setWriteTime path st2.st_mtime)) := by
  unfold setWriteTime
  rw [hstat]
  cases fs.refuses (.setWriteTime path st2.st_mtime) <;> rfl

theorem canonicaliseTimestampAndPermissions_perms_ok (path : String) (fs : Fs) (st : Stat)
    (hstat : fs.stat path = some st)
    (hperm : st.st_mode &&& notS_IFMT = 0o444 ∨ st.st_mode &&& notS_IFMT = 0o555)
    (hm : st.st_mtime ≠ 1) :
    canonicaliseTimestampAndPermissions path fs =
      setWriteTime path { st with st_mtime := mtimeStore } fs := by
  have hp : (st.st_mode &&& notS_IFMT != 0o444 && st.st_mode &&& notS_IFMT != 0o555) = false := by
    rcases hperm with h | h <;> simp [h]
  simp [canonicaliseTimestampAndPermissions, lstat, hstat, Run.bind,
    canonicaliseTimestampAndPermissionsSt, hp, hm, mtimeStore]

theorem canonicaliseTimestampAndPermissions_chmod (path : String) (fs : Fs) (st : Stat)
    (hstat : fs.stat path = some st) (hnl : S_ISLNK st.st_mode = false)
    (h444 : st.st_mode &&& notS_IFMT ≠ 0o444) (h555 : st.st_mode &&& notS_IFMT ≠ 0o555) :
    canonicaliseTimestampAndPermissions path fs =
      match fs.refuses (.chmod path ((st.st_mode &&& S_IFMT) ||| 0o444
              ||| (if (st.st_mode &&& S_IXUSR) != 0 then 0o111 else 0))) with
      | some _ =>
          .throw { kind := .SysError, msg := "changing mode of '%1%' to %2$o",
                   args := [.str path, .num ((st.st_mode &&& S_IFMT) ||| 0o444
                      ||| (if (st.st_mode &&& S_IXUSR) != 0 then 0o111 else 0))] }
            (fs.issue (.chmod path ((st.st_mode &&& S_IFMT) ||| 0o444
                      ||| (if (st.st_mode &&& S_IXUSR) != 0 then 0o111 else 0))))
      | none =>
          if st.st_mtime != mtimeStore then
            setWriteTime path { st with st_mtime := mtimeStore }
              ((fs.issue (.chmod path ((st.st_mode &&& S_IFMT) ||| 0o444
                      ||| (if (st.st_mode &&& S_IXUSR) != 0 then 0o111 else 0)))).setStat path
                { st with st_mode := (st.st_mode &&& S_IFMT) |||
                    (((st.st_mode &&& S_IFMT) ||| 0o444
                      ||| (if (st.st_mode &&& S_IXUSR) != 0 then 0o111 else 0)) &&& 0o7777) })
          else
            .ret () ((fs.issue (.chmod path ((st.st_mode &&& S_IFMT) ||| 0o444
                      ||| (if (st.st_mode &&& S_IXUSR) != 0 then 0o111 else 0)))).setStat path
                { st with st_mode := (st.st_mode &&& S_IFMT) |||
                    (((st.st_mode &&& S_IFMT) ||| 0o444
                      ||| (if (st.st_mode &&& S_IXUSR) != 0 then 0o111 else 0)) &&& 0o7777) }) := by
  have hp : (st.st_mode &&& notS_IFMT != 0o444 && st.st_mode &&& notS_IFMT != 0o555) = true := by
    simp [h444, h555]
  simp only [canonicaliseTimestampAndPermissions, lstat, hstat, Run.bind,
    canonicaliseTimestampAndPermissionsSt, hp, hnl, Fs.chmod]
  cases hr : fs.refuses (.chmod path ((st.st_mode &&& S_IFMT) ||| 0o444
              ||| (if (st.st_mode &&& S_IXUSR) != 0 then 0o111 else 0))) with
  | none => simp
  | some e => simp

/-- C16.  Let `path` be a file that is not a symlink, `st` what `lstat` reports
of it.  The operation never aborts.  In every run, also one that a refused
call ends by an exception, `chmod` is issued on the file if and only if the
original permission bits (the mode without the file type bits) are neither
0444 nor 0555.  When the operation returns: the permission bits left on the
file are exactly 0555 if the owner-execute bit of the original mode is set
and exactly 0444 otherwise (no setuid, setgid, sticky or write bit), the
file type is unchanged and the modification time is 1; the modification
time has been set (to 1) if and only if it was not 1; and the operation
applied to the resulting state returns in that very state, issuing no
call. -/
theorem canonicaliseTimestampAndPermissions_spec (path : String) (fs : Fs) (st : Stat)
    (hstat : fs.stat path = some st) (hnl : S_ISLNK st.st_mode = false) :
    canonicaliseTimestampAndPermissions path fs ≠ .abort
    ∧ (∀ fs1, (canonicaliseTimestampAndPermissions path fs).state? = some fs1 →
        ∃ issued, fs1.calls = fs.calls ++ issued ∧
          ((∃ m, SysCall.chmod path m ∈ issued) ↔
            (st.st_mode &&& notS_IFMT ≠ 0o444 ∧ st.st_mode &&& notS_IFMT ≠ 0o555)))
    ∧ (∀ fs1, canonicaliseTimestampAndPermissions path fs = .ret () fs1 →
        (∃ st1, fs1.stat path = some st1
          ∧ st1.st_mode &&& notS_IFMT = (if st.st_mode &&& S_IXUSR ≠ 0 then 0o555 else 0o444)
          ∧ st1.st_mode &&& S_IFMT = st.st_mode &&& S_IFMT
          ∧ st1.st_mtime = 1)
        ∧ (∃ issued, fs1.calls = fs.calls ++ issued ∧
            (SysCall.setWriteTime path 1 ∈ issued ↔ st.st_mtime ≠ 1))
        ∧ canonicaliseTimestampAndPermissions path fs1 = .ret () fs1) := by
  by_cases hperm : st.st_mode &&& notS_IFMT = 0o444 ∨ st.st_mode &&& notS_IFMT = 0o555
  · have htarget : (if st.st_mode &&& S_IXUSR ≠ 0 then 0o555 else 0o444) =
        st.st_mode &&& notS_IFMT := by
      rcases hperm with h | h
      · simp [xusr_of_perm_444 _ h, h]
      · simp [xusr_of_perm_555 _ h, h]
    have hnochmod : ¬ (st.st_mode &&& notS_IFMT ≠ 0o444 ∧ st.st_mode &&& notS_IFMT ≠ 0o555) := by
      tauto
    by_cases hm : st.st_mtime = 1
    · have hres := canonicaliseTimestampAndPermissions_canonical path fs st hstat hperm hm
      rw [hres]
      refine ⟨by simp, ?_, ?_⟩
      · intro fs1 h
        simp only [Run.state?, Option.some.injEq] at h
        subst h
        exact ⟨[], by simp, by simp [hnochmod]⟩
      · intro fs1 h
        cases h
        exact ⟨⟨st, hstat, htarget.symm, rfl, hm⟩, ⟨[], by simp, by simp [hm]⟩, hres⟩
    · rw [canonicaliseTimestampAndPermissions_perms_ok path fs st hstat hperm hm,
        setWriteTime_eq path _ st fs hstat]
      simp only [mtimeStore]
      cases hr : fs.refuses (.setWriteTime path 1) with
      | some e =>
        refine ⟨by simp, ?_, ?_⟩
        · intro fs1 h
          simp only [Run.state?, Option.some.injEq] at h
          subst h
          exact ⟨[.setWriteTime path 1], rfl, by simp [hnochmod]⟩
        · intro fs1 h
          cases h
      | none =>
        refine ⟨by simp, ?_, ?_⟩
        · intro fs1 h
          simp only [Run.state?, Option.some.injEq] at h
          subst h
          exact ⟨[.setWriteTime path 1], by simp [Fs.setStat_calls, Fs.issue],
            by simp [hnochmod]⟩
        · intro fs1 h
          cases h
          have hs := Fs.setStat_same (fs.issue (.setWriteTime path 1)) path
            { st with st_mtime := 1 } st hstat rfl rfl
          refine ⟨⟨_, hs, htarget.symm, rfl, rfl⟩,
            ⟨[.setWriteTime path 1], by simp [Fs.setStat_calls, Fs.issue], by simp [hm]⟩, ?_⟩
          exact canonicaliseTimestampAndPermissions_canonical path _ _ hs hperm rfl
  · have h444 : st.st_mode &&& notS_IFMT ≠ 0o444 := fun h => hperm (Or.inl h)
    have h555 : st.st_mode &&& notS_IFMT ≠ 0o555 := fun h => hperm (Or.inr h)
    have hc1 : ((if (st.st_mode &&& S_IXUSR) != 0 then 0o111 else 0 : Nat) &&& 0o7777) =
        (if (st.st_mode &&& S_IXUSR) != 0 then 0o111 else 0) := by
      split_ifs <;> decide
    have hc2 : ((if (st.st_mode &&& S_IXUSR) != 0 then 0o111 else 0 : Nat) &&& notS_IFMT) =
        (if (st.st_mode &&& S_IXUSR) != 0 then 0o111 else 0) := by
      split_ifs <;> decide
    have hperm1 := perm_after_chmod st.st_mode _ hc1 hc2
    have htype1 := type_after_chmod st.st_mode _ hc1
    have htarget : (0o444 ||| (if (st.st_mode &&& S_IXUSR) != 0 then 0o111 else 0 : Nat)) =
        (if st.st_mode &&& S_IXUSR ≠ 0 then 0o555 else 0o444) := by
      by_cases hx : st.st_mode &&& S_IXUSR = 0
      · simp [hx]
      · simp [hx]
    have hcanon : ∀ k : Nat, k = (if st.st_mode &&& S_IXUSR ≠ 0 then 0o555 else 0o444) →
        k = 0o444 ∨ k = 0o555 := by
      intro k hk
      split_ifs at hk
      · exact Or.inr hk
      · exact Or.inl hk
    rw [canonicaliseTimestampAndPermissions_chmod path fs st hstat hnl h444 h555]
    generalize hnm : ((st.st_mode &&& S_IFMT) ||| 0o444
              ||| (if (st.st_mode &&& S_IXUSR) != 0 then 0o111 else 0)) = nm at hperm1 htype1 ⊢
    cases hr : fs.refuses (.chmod path nm) with
    | some e =>
      refine ⟨by simp, ?_, ?_⟩
      · intro fs1 h
        simp only [Run.state?, Option.some.injEq] at h
        subst h
        exact ⟨[.chmod path nm], rfl, by simp [h444, h555]⟩
      · intro fs1 h
        cases h
    | none =>
      simp only
      have hs1 := Fs.setStat_same (fs.issue (.chmod path nm)) path
        { st with st_mode := (st.st_mode &&& S_IFMT) ||| (nm &&& 0o7777) } st hstat rfl rfl
      by_cases hm : st.st_mtime = 1
      · have hm2 : (st.st_mtime != mtimeStore) = false := by simp [hm, mtimeStore]
        simp only [hm2]
        refine ⟨by simp, ?_, ?_⟩
        · intro fs1 h
          simp only [Bool.false_eq_true, if_false, Run.state?, Option.some.injEq] at h
          subst h
          exact ⟨[.chmod path nm], by simp [Fs.setStat_calls, Fs.issue], by simp [h444, h555]⟩
        · intro fs1 h
          simp only [Bool.false_eq_true, if_false] at h
          cases h
          refine ⟨⟨_, hs1, ?_, htype1, hm⟩,
            ⟨[.chmod path nm], by simp [Fs.setStat_calls, Fs.issue], by simp [hm]⟩, ?_⟩
          · exact hperm1.trans htarget
          · exact canonicaliseTimestampAndPermissions_canonical path _ _
              hs1 (hcanon _ (hperm1.trans htarget)) hm
      · have hm2 : (st.st_mtime != mtimeStore) = true := by simp [hm, mtimeStore]
        simp only [hm2, if_true]
        rw [setWriteTime_eq path _ _ _ hs1]
        simp only [mtimeStore]
        have hrefuses : ∀ (c : SysCall) (f : Fs) (p : String) (s0 : Stat),
            ((f.issue c).setStat p s0).refuses = f.refuses := fun c f p s0 =>
          Fs.setStat_refuses (f.issue c) p s0
        rw [hrefuses]
        have hs2 := Fs.setStat_same
          (((fs.issue (.chmod path nm)).setStat path
              { st with st_mode := (st.st_mode &&& S_IFMT) ||| (nm &&& 0o7777) }).issue
            (.setWriteTime path 1)) path
          { st with st_mode := (st.st_mode &&& S_IFMT) ||| (nm &&& 0o7777), st_mtime := 1 }
          { st with st_mode := (st.st_mode &&& S_IFMT) ||| (nm &&& 0o7777) } hs1 rfl rfl
        cases hw : fs.refuses (.setWriteTime path 1) with
        | some e =>
          refine ⟨by simp, ?_, ?_⟩
          · intro fs1 h
            simp only [Run.state?, Option.some.injEq] at h
            subst h
            exact ⟨[.chmod path nm, .setWriteTime path 1],
              by simp [Fs.issue, Fs.setStat_calls], by simp [h444, h555]⟩
          · intro fs1 h
            cases h
        | none =>
          refine ⟨by simp, ?_, ?_⟩
          · intro fs1 h
            simp only [Run.state?, Option.some.injEq] at h
            subst h
            exact ⟨[.chmod path nm, .setWriteTime path 1],
              by simp [Fs.issue, Fs.setStat_calls], by simp [h444, h555]⟩
          · intro fs1 h
            cases h
            refine ⟨⟨_, hs2, ?_, htype1, rfl⟩,
              ⟨[.chmod path nm, .setWriteTime path 1], by simp [Fs.issue, Fs.setStat_calls],
                by simp [hm]⟩, ?_⟩
            · exact hperm1.trans htarget
            · exact canonicaliseTimestampAndPermissions_canonical path _ _
                hs2 (hcanon _ (hperm1.trans htarget)) rfl

/-- Instance of C16: a regular file with mode 0775 (and the setuid bit) and
modification time 1234 ends with permission bits 0555 and modification
time 1. -/
theorem canonicaliseTimestampAndPermissions_spec_witness :
    ∃ fs1 st1, canonicaliseTimestampAndPermissions "f"
        (oneFileFs ⟨0o104775, 0, 0, 1, 2, 1234⟩) = .ret () fs1
      ∧ fs1.stat "f" = some st1 ∧ st1.st_mode &&& notS_IFMT = 0o555 ∧ st1.st_mtime = 1
      ∧ canonicaliseTimestampAndPermissions "f" fs1 = .ret () fs1 := by
  obtain ⟨⟨st1, h1, h2, _, h4⟩, _, h6⟩ :=
    (canonicaliseTimestampAndPermissions_spec "f" (oneFileFs ⟨0o104775, 0, 0, 1, 2, 1234⟩)
      ⟨0o104775, 0, 0, 1, 2, 1234⟩ rfl (by decide)).2.2 _ rfl
  exact ⟨_, st1, rfl, h1, h2, h4, h6⟩

/-! ## Ownership test and seen inodes -/

theorem clearFlags_stat (cfg : StoreConfig) (path : String) (fs fs1 : Fs)
    (h : clearFlags cfg path fs = .ret () fs1) :
    fs1.stat = fs.stat ∧ fs1.euid = fs.euid := by
  unfold clearFlags at h
  have hk : (fs.lchflags path 0).2.2.stat = fs.stat ∧ (fs.lchflags path 0).2.2.euid = fs.euid := by
    unfold Fs.lchflags
    cases fs.refuses (.lchflags path 0) <;> exact ⟨rfl, rfl⟩
  split_ifs at h <;> cases h <;> first | exact hk | exact ⟨rfl, rfl⟩

theorem removeXattrs_stat (cfg : StoreConfig) (path : String) (names : List String)
    (fs fs1 : Fs) (h : removeXattrs cfg path names fs = .ret () fs1) :
    fs1.stat = fs.stat ∧ fs1.euid = fs.euid := by
  induction names generalizing fs with
  | nil =>
    simp only [removeXattrs] at h
    cases h
    exact ⟨rfl, rfl⟩
  | cons n rest ih =>
    have hk : (fs.lremovexattr path n).2.stat = fs.stat ∧
        (fs.lremovexattr path n).2.euid = fs.euid := by
      unfold Fs.lremovexattr
      cases fs.refuses (.lremovexattr path n) <;> exact ⟨rfl, rfl⟩
    simp only [removeXattrs] at h
    split_ifs at h
    · exact ih fs h
    · have := ih _ h
      exact ⟨this.1.trans hk.1, this.2.trans hk.2⟩

theorem Fs.llistxattr_stat (fs : Fs) (path : String) (size : Nat) :
    (fs.llistxattr path size).2.2.2.stat = fs.stat ∧
    (fs.llistxattr path size).2.2.2.euid = fs.euid := by
  unfold Fs.llistxattr
  cases fs.refuses (.llistxattr path size) <;> exact ⟨rfl, rfl⟩

theorem removeAcls_stat (cfg : StoreConfig) (path : String) (fs fs1 : Fs)
    (h : removeAcls cfg path fs = .ret () fs1) :
    fs1.stat = fs.stat ∧ fs1.euid = fs.euid := by
  unfold removeAcls at h
  have h1 := Fs.llistxattr_stat fs path 0
  have h2 := Fs.llistxattr_stat (fs.llistxattr path 0).2.2.2 path (fs.llistxattr path 0).1.toNat
  simp only at h
  split_ifs at h
  · cases h; exact h1
  · have := removeXattrs_stat cfg path _ _ _ h
    exact ⟨this.1.trans (h2.1.trans h1.1), this.2.trans (h2.2.trans h1.2)⟩
  · cases h; exact h1
  · cases h; exact ⟨rfl, rfl⟩

/-- When the first part returns, it returns what `lstat` reports of the path, a
regular file, directory or symlink, and it has changed no file status and
not the effective user. -/
theorem canonicalisePathMetaData_upToOwnership_ret (cfg : StoreConfig) (path : String)
    (fs fs1 : Fs) (st : Stat)
    (h : canonicalisePathMetaData_upToOwnership cfg path fs = .ret st fs1) :
    fs1.stat = fs.stat ∧ fs1.euid = fs.euid ∧ fs.stat path = some st
    ∧ (S_ISREG st.st_mode || S_ISDIR st.st_mode || S_ISLNK st.st_mode) = true := by
  unfold canonicalisePathMetaData_upToOwnership checkInterrupt at h
  by_cases hi : fs.interrupted = true
  · simp [hi, Run.bind] at h
  · simp only [hi, Bool.false_eq_true, if_false, Run.bind] at h
    cases hc : clearFlags cfg path fs with
    | throw e f => rw [hc] at h; cases h
    | abort => rw [hc] at h; cases h
    | ret u f2 =>
      rw [hc] at h
      have hf2 := clearFlags_stat cfg path fs f2 hc
      simp only [lstat] at h
      cases hs : f2.stat path with
      | none => rw [hs] at h; cases h
      | some st0 =>
        rw [hs] at h
        simp only at h
        split_ifs at h with hty
        cases ha : removeAcls cfg path f2 with
        | throw e f => rw [ha] at h; cases h
        | abort => rw [ha] at h; cases h
        | ret u2 f4 =>
          rw [ha] at h
          simp only at h
          cases h
          have hf4 := removeAcls_stat cfg path f2 fs1 ha
          refine ⟨hf4.1.trans hf2.1, hf4.2.trans hf2.2, ?_, ?_⟩
          · rw [← hf2.1]; exact hs
          · cases h1 : S_ISREG st.st_mode <;> cases h2 : S_ISDIR st.st_mode <;>
              cases h3 : S_ISLNK st.st_mode <;> simp [h1, h2, h3] at hty ⊢

theorem CanonState.onFs_inodesSeen {α : Type} (f : Fs → Run StoreError α Fs)
    (s s1 : CanonState) (h : (CanonState.onFs f s).state? = some s1) :
    s1.inodesSeen = s.inodesSeen := by
  unfold CanonState.onFs at h
  cases hf : f s.fs <;> rw [hf] at h <;> simp [Run.state?] at h <;> subst h <;> rfl

theorem forEntries_inodesSeen
    (rec : String → CanonState → Option (Run StoreError Unit CanonState))
    (hrec : ∀ p s r s1, rec p s = some r → r.state? = some s1 → s.inodesSeen ⊆ s1.inodesSeen)
    (entries : List String) (s s1 : CanonState) (r : Run StoreError Unit CanonState)
    (h : forEntries rec entries s = some r) (hs : r.state? = some s1) :
    s.inodesSeen ⊆ s1.inodesSeen := by
  induction entries generalizing s with
  | nil =>
    simp only [forEntries, Option.some.injEq] at h
    subst h
    simp only [Run.state?, Option.some.injEq] at hs
    subst hs
    exact Finset.Subset.refl _
  | cons p rest ih =>
    simp only [forEntries, checkInterrupt] at h
    by_cases hi : s.fs.interrupted = true
    · simp only [hi, if_true, Run.bindO, Option.some.injEq] at h
      subst h
      simp only [Run.state?, Option.some.injEq] at hs
      subst hs
      exact Finset.Subset.refl _
    · simp only [hi, Bool.false_eq_true, if_false, Run.bindO] at h
      cases hr : rec p s with
      | none => rw [hr] at h; cases h
      | some r2 =>
        rw [hr] at h
        cases r2 with
        | ret u s2 =>
          simp only at h
          exact (hrec p s _ s2 hr rfl).trans (ih s2 h)
        | throw e s2 =>
          simp only [Option.some.injEq] at h
          subst h
          simp only [Run.state?, Option.some.injEq] at hs
          subst hs
          exact hrec p s _ _ hr rfl
        | abort =>
          simp only [Option.some.injEq] at h
          subst h
          cases hs

theorem Run.bindO_some {ε α β S : Type} (r : Run ε α S) (k : α → S → Option (Run ε β S))
    (out : Run ε β S) (h : r.bindO k = some out) :
    (∃ a s, r = .ret a s ∧ k a s = some out) ∨ (∃ e s, r = .throw e s ∧ out = .throw e s) ∨
    (r = .abort ∧ out = .abort) := by
  cases r with
  | ret a s => exact Or.inl ⟨a, s, rfl, h⟩
  | throw e s =>
    simp only [Run.bindO, Option.some.injEq] at h
    exact Or.inr (Or.inl ⟨e, s, rfl, h.symm⟩)
  | abort =>
    simp only [Run.bindO, Option.some.injEq] at h
    exact Or.inr (Or.inr ⟨rfl, h.symm⟩)

theorem CanonState.onFs_ret {α : Type} (f : Fs → Run StoreError α Fs) (s s1 : CanonState)
    (a : α) (h : CanonState.onFs f s = .ret a s1) :
    f s.fs = .ret a s1.fs ∧ s1.inodesSeen = s.inodesSeen := by
  unfold CanonState.onFs at h
  cases hf : f s.fs <;> rw [hf] at h <;> cases h
  exact ⟨rfl, rfl⟩

/-- Whatever the depth bound, when `canonicalisePathMetaData_` returns or throws,
the set of seen inodes contains what it contained at the call; and it
contains the (device, inode) pair of the file whenever the first part
returned and the ownership test did not find the owner outside the range. -/
theorem canonicalisePathMetaData_inodesSeen (cfg : StoreConfig) (uidRange : Option (Nat × Nat))
    (depth : Nat) (path : String) (s s1 : CanonState) (r : Run StoreError Unit CanonState)
    (h : canonicalisePathMetaData_ cfg depth path uidRange s = some r)
    (hs : r.state? = some s1) :
    s.inodesSeen ⊆ s1.inodesSeen ∧
    (∀ st fs1, canonicalisePathMetaData_upToOwnership cfg path s.fs = .ret st fs1 →
      ownerOutsideRange uidRange st.st_uid = false → (st.st_dev, st.st_ino) ∈ s1.inodesSeen) := by
  induction depth generalizing path s s1 r with
  | zero => simp [canonicalisePathMetaData_] at h
  | succ d ih =>
    simp only [canonicalisePathMetaData_] at h
    rcases Run.bindO_some _ _ _ h with ⟨st, s2, hpre, hk⟩ | ⟨e, s2, hpre, rfl⟩ | ⟨_, rfl⟩
    · have hpre2 := CanonState.onFs_ret _ _ _ _ hpre
      by_cases hout : ownerOutsideRange uidRange st.st_uid = true
      · have hsame : s1.inodesSeen = s.inodesSeen := by
          simp only [hout, if_true] at hk
          split_ifs at hk <;> simp only [Option.some.injEq] at hk <;> subst hk <;>
            simp only [Run.state?, Option.some.injEq] at hs
          · subst hs; exact hpre2.2
          · cases hs
          · subst hs; exact hpre2.2
        refine ⟨hsame ▸ Finset.Subset.refl _, ?_⟩
        intro st' fs1 hp hin
        rw [hpre2.1] at hp
        cases hp
        rw [hout] at hin
        cases hin
      · have hout2 : ownerOutsideRange uidRange st.st_uid = false := by simpa using hout
        simp only [hout2, Bool.false_eq_true, if_false] at hk
        have hins : insert (st.st_dev, st.st_ino) s.inodesSeen ⊆ s1.inodesSeen := by
          rcases Run.bindO_some _ _ _ hk with ⟨u, s3, h3, hk3⟩ | ⟨e, s3, h3, rfl⟩ | ⟨_, rfl⟩
          · have h3' := CanonState.onFs_ret _ _ _ _ h3
            rcases Run.bindO_some _ _ _ hk3 with ⟨u4, s4, h4, hk4⟩ | ⟨e, s4, h4, rfl⟩ | ⟨_, rfl⟩
            · have h4' := CanonState.onFs_ret _ _ _ _ h4
              have hs4 : s4.inodesSeen = insert (st.st_dev, st.st_ino) s.inodesSeen := by
                rw [h4'.2, h3'.2, hpre2.2]
              split_ifs at hk4
              · have := forEntries_inodesSeen _ (fun p s r s1 hr hs => (ih p s s1 r hr hs).1)
                  _ s4 s1 r hk4 hs
                rw [hs4] at this
                exact this
              · simp only [Option.some.injEq] at hk4
                subst hk4
                simp only [Run.state?, Option.some.injEq] at hs
                subst hs
                rw [hs4]
            · have := CanonState.onFs_inodesSeen (changeOwner cfg path st) s3 s1
                (by rw [h4]; exact hs)
              rw [this, h3'.2, hpre2.2]
            · cases hs
          · have := CanonState.onFs_inodesSeen (canonicaliseTimestampAndPermissionsSt path st) _ s1
              (by rw [h3]; exact hs)
            rw [this, hpre2.2]
          · cases hs
        refine ⟨(Finset.subset_insert _ _).trans hins, ?_⟩
        intro st' fs1 hp _
        rw [hpre2.1] at hp
        cases hp
        exact hins (Finset.mem_insert_self _ _)
    · have := CanonState.onFs_inodesSeen (canonicalisePathMetaData_upToOwnership cfg path) s s1
        (by rw [hpre]; exact hs)
      refine ⟨this ▸ Finset.Subset.refl _, ?_⟩
      intro st fs1 hp _
      unfold CanonState.onFs at hpre
      rw [hp] at hpre
      cases hpre
    · cases hs

theorem canonicalisePathMetaData_outside (cfg : StoreConfig) (depth : Nat) (path : String)
    (uidRange : Option (Nat × Nat)) (s : CanonState) (st : Stat) (fs1 : Fs)
    (hpre : canonicalisePathMetaData_upToOwnership cfg path s.fs = .ret st fs1)
    (hout : ownerOutsideRange uidRange st.st_uid = true) :
    canonicalisePathMetaData_ cfg (depth + 1) path uidRange s =
      if S_ISDIR st.st_mode || !decide ((st.st_dev, st.st_ino) ∈ s.inodesSeen) then
        some (.throw { kind := .BuildError, msg := "invalid ownership on file '%1%'",
                       args := [.str path] } { s with fs := fs1 })
      else if !(S_ISLNK st.st_mode ||
                (st.st_uid == fs1.euid &&
                  (st.st_mode &&& notS_IFMT == 0o444 || st.st_mode &&& notS_IFMT == 0o555) &&
                  st.st_mtime == mtimeStore)) then
        some .abort
      else some (.ret () { s with fs := fs1 }) := by
  simp only [canonicalisePathMetaData_, CanonState.onFs, hpre, Run.bindO, hout, if_true]

/-! ## The directory tree is preserved -/

theorem Fs.SameTree.refl (fs : Fs) : Fs.SameTree fs fs := ⟨rfl, rfl, fun _ => rfl⟩

theorem Fs.SameTree.trans {a b c : Fs} (h1 : Fs.SameTree a b) (h2 : Fs.SameTree b c) :
    Fs.SameTree a c :=
  ⟨h2.1.trans h1.1, h2.2.1.trans h1.2.1, fun i => (h2.2.2 i).trans (h1.2.2 i)⟩

theorem Fs.issue_sameTree (fs : Fs) (c : SysCall) : Fs.SameTree fs (fs.issue c) :=
  ⟨rfl, rfl, fun _ => rfl⟩

theorem Fs.setStat_sameTree (fs : Fs) (path : String) (st s0 : Stat)
    (h : fs.stat path = some s0) (hty : st.st_mode &&& S_IFMT = s0.st_mode &&& S_IFMT) :
    Fs.SameTree fs (fs.setStat path st) := by
  refine ⟨Fs.setStat_inodeOf _ _ _, Fs.setStat_entries _ _ _, ?_⟩
  intro i
  unfold Fs.stat at h
  unfold Fs.setStat
  cases hi : fs.inodeOf path with
  | none => rfl
  | some j =>
    rw [hi] at h
    simp only [Option.some.injEq] at h
    subst h
    simp only
    by_cases hij : i = j
    · subst hij
      simpa using hty
    · simp [hij]

theorem mode_type_after_chmod (a m : Nat) :
    ((a &&& S_IFMT) ||| (m &&& 0o7777)) &&& S_IFMT = a &&& S_IFMT := by
  have h1 : a &&& S_IFMT &&& S_IFMT = a &&& S_IFMT := by
    rw [land_land_const a _ _ S_IFMT (by decide)]
  have h2 : m &&& 0o7777 &&& S_IFMT = 0 := by
    rw [land_land_const m _ _ 0 (by decide)]; simp
  rw [Nat.and_distrib_right, h1, h2, Nat.or_zero]

theorem Fs.chmod_sameTree (fs : Fs) (path : String) (mode : Nat) :
    Fs.SameTree fs (fs.chmod path mode).2 := by
  unfold Fs.chmod
  cases hr : fs.refuses (.chmod path mode) with
  | some e => exact Fs.issue_sameTree _ _
  | none =>
    cases hs : fs.stat path with
    | none => exact Fs.issue_sameTree _ _
    | some st =>
      exact (Fs.issue_sameTree fs _).trans
        (Fs.setStat_sameTree (fs.issue _) path _ st hs (mode_type_after_chmod _ _))

theorem Fs.lchown_sameTree (fs : Fs) (path : String) (uid gid : Nat) :
    Fs.SameTree fs (fs.lchown path uid gid).2 := by
  unfold Fs.lchown
  cases hr : fs.refuses (.lchown path uid gid) with
  | some e => exact Fs.issue_sameTree _ _
  | none =>
    cases hs : fs.stat path with
    | none => exact Fs.issue_sameTree _ _
    | some st =>
      exact (Fs.issue_sameTree fs _).trans
        (Fs.setStat_sameTree (fs.issue _) path _ st hs rfl)

theorem Fs.chown_sameTree (fs : Fs) (path : String) (uid gid : Nat) :
    Fs.SameTree fs (fs.chown path uid gid).2 := by
  unfold Fs.chown
  cases hr : fs.refuses (.chown path uid gid) with
  | some e => exact Fs.issue_sameTree _ _
  | none =>
    cases hs : fs.stat path with
    | none => exact Fs.issue_sameTree _ _
    | some st =>
      exact (Fs.issue_sameTree fs _).trans
        (Fs.setStat_sameTree (fs.issue _) path _ st hs rfl)

theorem Fs.lchflags_sameTree (fs : Fs) (path : String) (flags : Nat) :
    Fs.SameTree fs (fs.lchflags path flags).2.2 := by
  unfold Fs.lchflags
  cases fs.refuses (.lchflags path flags) <;> exact Fs.issue_sameTree _ _

theorem Fs.llistxattr_sameTree (fs : Fs) (path : String) (size : Nat) :
    Fs.SameTree fs (fs.llistxattr path size).2.2.2 := by
  unfold Fs.llistxattr
  cases fs.refuses (.llistxattr path size) <;> exact Fs.issue_sameTree _ _

theorem Fs.lremovexattr_sameTree (fs : Fs) (path name : String) :
    Fs.SameTree fs (fs.lremovexattr path name).2 := by
  unfold Fs.lremovexattr
  cases fs.refuses (.lremovexattr path name) <;> exact ⟨rfl, rfl, fun _ => rfl⟩

/-- Sequencing keeps the directory tree when both parts do. -/
theorem Run.bind_sameTree {α β : Type} (r : Run StoreError α Fs)
    (k : α → Fs → Run StoreError β Fs) (fs : Fs)
    (hr : ∀ f1, r.state? = some f1 → Fs.SameTree fs f1)
    (hk : ∀ a f1 f2, (k a f1).state? = some f2 → Fs.SameTree f1 f2)
    (f2 : Fs) (h : (r.bind k).state? = some f2) : Fs.SameTree fs f2 := by
  cases r with
  | ret a f1 => exact (hr f1 rfl).trans (hk a f1 f2 h)
  | throw e f1 => exact hr f2 h
  | abort => cases h

theorem Run.ite_sameTree {α : Type} (c : Prop) [Decidable c] (a b : Run StoreError α Fs)
    (fs f1 : Fs) (ha : a.state? = some f1 → Fs.SameTree fs f1)
    (hb : b.state? = some f1 → Fs.SameTree fs f1)
    (h : (if c then a else b).state? = some f1) : Fs.SameTree fs f1 := by
  split_ifs at h
  · exact ha h
  · exact hb h

theorem setWriteTime_sameTree (path : String) (st2 : Stat) (fs fs1 : Fs)
    (h : (setWriteTime path st2 fs).state? = some fs1) : Fs.SameTree fs fs1 := by
  unfold setWriteTime at h
  cases hr : fs.refuses (.setWriteTime path st2.st_mtime) with
  | some e =>
    rw [hr] at h
    simp only [Run.state?, Option.some.injEq] at h
    subst h
    exact Fs.issue_sameTree _ _
  | none =>
    rw [hr] at h
    cases hs : fs.stat path with
    | none =>
      rw [hs] at h
      simp only [Run.state?, Option.some.injEq] at h
      subst h
      exact Fs.issue_sameTree _ _
    | some st =>
      rw [hs] at h
      simp only [Run.state?, Option.some.injEq] at h
      subst h
      exact (Fs.issue_sameTree fs _).trans
        (Fs.setStat_sameTree (fs.issue _) path _ st hs rfl)

theorem canonicaliseTimestampAndPermissionsSt_sameTree (path : String) (st : Stat)
    (fs fs1 : Fs) (h : (canonicaliseTimestampAndPermissionsSt path st fs).state? = some fs1) :
    Fs.SameTree fs fs1 := by
  unfold canonicaliseTimestampAndPermissionsSt at h
  refine Run.bind_sameTree _ _ fs ?_ ?_ fs1 h
  · intro f1 h1
    refine Run.ite_sameTree _ _ _ fs f1 (fun h2 => ?_) (fun h2 => ?_) h1
    · refine Run.ite_sameTree _ _ _ fs f1 (fun h3 => ?_) (fun h3 => ?_) h2
      · refine Run.ite_sameTree _ _ _ fs f1 (fun h4 => ?_) (fun h4 => ?_) h3
        · cases h4; exact Fs.chmod_sameTree _ _ _
        · cases h4; exact Fs.chmod_sameTree _ _ _
      · cases h3; exact Fs.SameTree.refl _
    · cases h2; exact Fs.SameTree.refl _
  · intro _ f1 f2 h2
    split_ifs at h2
    · exact setWriteTime_sameTree _ _ _ _ h2
    · simp only [Run.state?, Option.some.injEq] at h2
      subst h2
      exact Fs.SameTree.refl _

theorem changeOwner_sameTree (cfg : StoreConfig) (path : String) (st : Stat)
    (fs fs1 : Fs) (h : (changeOwner cfg path st fs).state? = some fs1) :
    Fs.SameTree fs fs1 := by
  unfold changeOwner at h
  have h1 := Fs.lchown_sameTree fs path fs.euid fs.egid
  have h2 := Fs.chown_sameTree fs path fs.euid fs.egid
  split_ifs at h <;> simp only [Run.state?, Option.some.injEq] at h <;> subst h <;>
    first | exact h1 | exact h2 | exact Fs.SameTree.refl _

theorem clearFlags_sameTree (cfg : StoreConfig) (path : String) (fs fs1 : Fs)
    (h : (clearFlags cfg path fs).state? = some fs1) : Fs.SameTree fs fs1 := by
  unfold clearFlags at h
  have h1 := Fs.lchflags_sameTree fs path 0
  split_ifs at h <;> simp only [Run.state?, Option.some.injEq] at h <;> subst h <;>
    first | exact h1 | exact Fs.SameTree.refl _

theorem removeXattrs_sameTree (cfg : StoreConfig) (path : String) (names : List String)
    (fs fs1 : Fs) (h : (removeXattrs cfg path names fs).state? = some fs1) :
    Fs.SameTree fs fs1 := by
  induction names generalizing fs with
  | nil =>
    simp only [removeXattrs, Run.state?, Option.some.injEq] at h
    subst h
    exact Fs.SameTree.refl _
  | cons n rest ih =>
    have hk := Fs.lremovexattr_sameTree fs path n
    simp only [removeXattrs] at h
    split_ifs at h
    · exact ih fs h
    · simp only [Run.state?, Option.some.injEq] at h
      subst h
      exact hk
    · exact hk.trans (ih _ h)

theorem removeAcls_sameTree (cfg : StoreConfig) (path : String) (fs fs1 : Fs)
    (h : (removeAcls cfg path fs).state? = some fs1) : Fs.SameTree fs fs1 := by
  unfold removeAcls at h
  have h1 := Fs.llistxattr_sameTree fs path 0
  have h2 := Fs.llistxattr_sameTree (fs.llistxattr path 0).2.2.2 path
    (fs.llistxattr path 0).1.toNat
  simp only at h
  split_ifs at h
  · simp only [Run.state?, Option.some.injEq] at h
    subst h; exact h1
  · simp only [Run.state?, Option.some.injEq] at h
    subst h; exact h1
  · simp only [Run.state?, Option.some.injEq] at h
    subst h; exact h1.trans h2
  · exact (h1.trans h2).trans (removeXattrs_sameTree cfg path _ _ _ h)
  · simp only [Run.state?, Option.some.injEq] at h
    subst h; exact h1
  · simp only [Run.state?, Option.some.injEq] at h
    subst h; exact Fs.SameTree.refl _

theorem lstat_sameTree (path : String) (fs fs1 : Fs)
    (h : (lstat path fs).state? = some fs1) : Fs.SameTree fs fs1 := by
  unfold lstat at h
  cases hs : fs.stat path with
  | none =>
    rw [hs] at h
    simp only [Run.state?, Option.some.injEq] at h
    subst h; exact Fs.SameTree.refl _
  | some st =>
    rw [hs] at h
    simp only [Run.state?, Option.some.injEq] at h
    subst h; exact Fs.SameTree.refl _

theorem canonicalisePathMetaData_upToOwnership_sameTree (cfg : StoreConfig) (path : String)
    (fs fs1 : Fs) (h : (canonicalisePathMetaData_upToOwnership cfg path fs).state? = some fs1) :
    Fs.SameTree fs fs1 := by
  unfold canonicalisePathMetaData_upToOwnership at h
  refine Run.bind_sameTree _ _ fs ?_ ?_ fs1 h
  · intro f1 h1
    unfold checkInterrupt at h1
    split_ifs at h1 <;> simp only [Run.state?, Option.some.injEq] at h1 <;> subst h1 <;>
      exact Fs.SameTree.refl _
  · intro _ f1 f2 h2
    refine Run.bind_sameTree _ _ f1 (clearFlags_sameTree cfg path f1) ?_ f2 h2
    intro _ f3 f4 h3
    refine Run.bind_sameTree _ _ f3 (lstat_sameTree path f3) ?_ f4 h3
    intro st f5 f6 h4
    split_ifs at h4
    · simp only [Run.state?, Option.some.injEq] at h4
      subst h4; exact Fs.SameTree.refl _
    · refine Run.bind_sameTree _ _ f5 (removeAcls_sameTree cfg path f5) ?_ f6 h4
      intro _ f7 f8 h5
      simp only [Run.state?, Option.some.injEq] at h5
      subst h5; exact Fs.SameTree.refl _

theorem CanonState.onFs_state {α : Type} (f : Fs → Run StoreError α Fs) (s s1 : CanonState)
    (h : (CanonState.onFs f s).state? = some s1) :
    (f s.fs).state? = some s1.fs := by
  unfold CanonState.onFs at h
  cases hf : f s.fs <;> rw [hf] at h <;> simp [Run.state?] at h <;> subst h <;> rfl

theorem forEntries_sameTree
    (rec : String → CanonState → Option (Run StoreError Unit CanonState))
    (hrec : ∀ p s r s1, rec p s = some r → r.state? = some s1 → Fs.SameTree s.fs s1.fs)
    (entries : List String) (s s1 : CanonState) (r : Run StoreError Unit CanonState)
    (h : forEntries rec entries s = some r) (hs : r.state? = some s1) :
    Fs.SameTree s.fs s1.fs := by
  induction entries generalizing s with
  | nil =>
    simp only [forEntries, Option.some.injEq] at h
    subst h
    simp only [Run.state?, Option.some.injEq] at hs
    subst hs
    exact Fs.SameTree.refl _
  | cons p rest ih =>
    simp only [forEntries, checkInterrupt] at h
    by_cases hi : s.fs.interrupted = true
    · simp only [hi, if_true, Run.bindO, Option.some.injEq] at h
      subst h
      simp only [Run.state?, Option.some.injEq] at hs
      subst hs
      exact Fs.SameTree.refl _
    · simp only [hi, Bool.false_eq_true, if_false, Run.bindO] at h
      cases hr : rec p s with
      | none => rw [hr] at h; cases h
      | some r2 =>
        rw [hr] at h
        cases r2 with
        | ret u s2 =>
          simp only at h
          exact (hrec p s _ s2 hr rfl).trans (ih s2 h)
        | throw e s2 =>
          simp only [Option.some.injEq] at h
          subst h
          simp only [Run.state?, Option.some.injEq] at hs
          subst hs
          exact hrec p s _ _ hr rfl
        | abort =>
          simp only [Option.some.injEq] at h
          subst h
          cases hs

/-- Whatever the depth bound, when `canonicalisePathMetaData_` returns or throws,
every path names the inode it named, every directory lists the entries it
listed and every inode has kept its file type. -/
theorem canonicalisePathMetaData_sameTree (cfg : StoreConfig) (uidRange : Option (Nat × Nat))
    (depth : Nat) (path : String) (s s1 : CanonState) (r : Run StoreError Unit CanonState)
    (h : canonicalisePathMetaData_ cfg depth path uidRange s = some r)
    (hs : r.state? = some s1) :
    Fs.SameTree s.fs s1.fs := by
  induction depth generalizing path s s1 r with
  | zero => simp [canonicalisePathMetaData_] at h
  | succ d ih =>
    simp only [canonicalisePathMetaData_] at h
    rcases Run.bindO_some _ _ _ h with ⟨st, s2, hpre, hk⟩ | ⟨e, s2, hpre, rfl⟩ | ⟨_, rfl⟩
    · have hpre2 : Fs.SameTree s.fs s2.fs :=
        canonicalisePathMetaData_upToOwnership_sameTree cfg path _ _
          (CanonState.onFs_state _ s s2 (by rw [hpre]; rfl))
      by_cases hout : ownerOutsideRange uidRange st.st_uid = true
      · simp only [hout, if_true] at hk
        split_ifs at hk <;> simp only [Option.some.injEq] at hk <;> subst hk <;>
          simp only [Run.state?, Option.some.injEq] at hs
        · subst hs; exact hpre2
        · cases hs
        · subst hs; exact hpre2
      · have hout2 : ownerOutsideRange uidRange st.st_uid = false := by simpa using hout
        simp only [hout2, Bool.false_eq_true, if_false] at hk
        rcases Run.bindO_some _ _ _ hk with ⟨u, s3, h3, hk3⟩ | ⟨e, s3, h3, rfl⟩ | ⟨_, rfl⟩
        · have h3' : Fs.SameTree s2.fs s3.fs :=
            canonicaliseTimestampAndPermissionsSt_sameTree path st _ _
              (CanonState.onFs_state _
                { s2 with inodesSeen := insert (st.st_dev, st.st_ino) s2.inodesSeen } s3
                (by rw [h3]; rfl))
          rcases Run.bindO_some _ _ _ hk3 with ⟨u4, s4, h4, hk4⟩ | ⟨e, s4, h4, rfl⟩ | ⟨_, rfl⟩
          · have h4' : Fs.SameTree s3.fs s4.fs :=
              changeOwner_sameTree cfg path st _ _
                (CanonState.onFs_state _ _ s4 (by rw [h4]; rfl))
            split_ifs at hk4
            · exact ((hpre2.trans h3').trans h4').trans
                (forEntries_sameTree _ (fun p s r s1 hr hs => ih p s s1 r hr hs) _ s4 s1 r hk4 hs)
            · simp only [Option.some.injEq] at hk4
              subst hk4
              simp only [Run.state?, Option.some.injEq] at hs
              subst hs
              exact (hpre2.trans h3').trans h4'
          · exact (hpre2.trans h3').trans
              (changeOwner_sameTree cfg path st _ _
                (CanonState.onFs_state _ _ s1 (by rw [h4]; exact hs)))
          · cases hs
        · exact hpre2.trans
            (canonicaliseTimestampAndPermissionsSt_sameTree path st _ _
              (CanonState.onFs_state _
                { s2 with inodesSeen := insert (st.st_dev, st.st_ino) s2.inodesSeen } s1
                (by rw [h3]; exact hs)))
        · cases hs
    · exact canonicalisePathMetaData_upToOwnership_sameTree cfg path _ _
        (CanonState.onFs_state _ s s1 (by rw [hpre]; exact hs))
    · cases hs

/-! ## Enough depth gives a result -/

theorem Fs.isDir_sameTree {fs fs1 : Fs} (h : Fs.SameTree fs fs1) (p : String) :
    fs1.isDir p = fs.isDir p := by
  unfold Fs.isDir Fs.stat
  rw [h.1]
  cases fs.inodeOf p with
  | none => rfl
  | some i => simp only [S_ISDIR, h.2.2 i]

theorem Fs.fits_sameTree {fs fs1 : Fs} (h : Fs.SameTree fs fs1) (d : Nat) (p : String) :
    fs1.fits d p = fs.fits d p := by
  induction d generalizing p with
  | zero => rfl
  | succ d ih =>
    have hf : fs1.fits d = fs.fits d := funext ih
    simp only [Fs.fits, Fs.isDir_sameTree h, h.2.1, hf]

theorem Fs.fits_entries (fs : Fs) (d : Nat) (path : String) (st : Stat)
    (hs : fs.stat path = some st) (hd : S_ISDIR st.st_mode = true)
    (hf : fs.fits (d + 1) path = true) : ∀ q ∈ fs.entries path, fs.fits d q = true := by
  have hdir : fs.isDir path = true := by simp [Fs.isDir, hs, hd]
  simpa [Fs.fits, hdir] using hf

theorem Fs.fits_succ (fs : Fs) (d : Nat) (p : String) (h : fs.fits d p = true) :
    fs.fits (d + 1) p = true := by
  induction d generalizing p with
  | zero => cases h
  | succ d ih =>
    simp only [Fs.fits, Bool.or_eq_true, Bool.not_eq_true', List.all_eq_true] at h ⊢
    rcases h with h | h
    · exact Or.inl h
    · refine Or.inr fun q hq => ?_
      have := ih q (h q hq)
      simpa [Fs.fits] using this

theorem forEntries_total
    (rec : String → CanonState → Option (Run StoreError Unit CanonState)) (fs0 : Fs)
    (hrec : ∀ p s r s1, rec p s = some r → r.state? = some s1 → Fs.SameTree s.fs s1.fs)
    (entries : List String)
    (htot : ∀ p ∈ entries, ∀ s : CanonState, Fs.SameTree fs0 s.fs → ∃ r, rec p s = some r)
    (s : CanonState) (hs : Fs.SameTree fs0 s.fs) :
    ∃ r, forEntries rec entries s = some r := by
  induction entries generalizing s with
  | nil => exact ⟨_, rfl⟩
  | cons p rest ih =>
    simp only [forEntries, checkInterrupt]
    by_cases hi : s.fs.interrupted = true
    · simp only [hi, if_true, Run.bindO]
      exact ⟨_, rfl⟩
    · simp only [hi, Bool.false_eq_true, if_false, Run.bindO]
      obtain ⟨r, hr⟩ := htot p (List.mem_cons_self _ _) s hs
      rw [hr]
      cases r with
      | ret u s2 =>
        simp only
        exact ih (fun q hq => htot q (List.mem_cons_of_mem _ hq)) s2
          (hs.trans (hrec p s _ s2 hr rfl))
      | throw e s2 => exact ⟨_, rfl⟩
      | abort => exact ⟨_, rfl⟩

/-- A depth bound that the directory tree at the path fits in is enough:
`canonicalisePathMetaData_` ends (it returns, throws or aborts). -/
theorem canonicalisePathMetaData_total (cfg : StoreConfig) (uidRange : Option (Nat × Nat))
    (depth : Nat) (path : String) (s : CanonState) (hfit : s.fs.fits depth path = true) :
    ∃ r, canonicalisePathMetaData_ cfg depth path uidRange s = some r := by
  induction depth generalizing path s with
  | zero => cases hfit
  | succ d ih =>
    rw [canonicalisePathMetaData_]
    cases hpre : CanonState.onFs (canonicalisePathMetaData_upToOwnership cfg path) s with
    | throw e s2 => exact ⟨_, rfl⟩
    | abort => exact ⟨_, rfl⟩
    | ret st s2 =>
      simp only [Run.bindO]
      have hp := CanonState.onFs_ret _ _ _ _ hpre
      have hst := (canonicalisePathMetaData_upToOwnership_ret cfg path s.fs s2.fs st hp.1).2.2.1
      have hpre2 : Fs.SameTree s.fs s2.fs :=
        canonicalisePathMetaData_upToOwnership_sameTree cfg path _ _
          (CanonState.onFs_state _ s s2 (by rw [hpre]; rfl))
      by_cases hout : ownerOutsideRange uidRange st.st_uid = true
      · simp only [hout, if_true]
        split_ifs <;> exact ⟨_, rfl⟩
      · have hout2 : ownerOutsideRange uidRange st.st_uid = false := by simpa using hout
        simp only [hout2, Bool.false_eq_true, if_false]
        cases h3 : CanonState.onFs (canonicaliseTimestampAndPermissionsSt path st)
            { s2 with inodesSeen := insert (st.st_dev, st.st_ino) s2.inodesSeen } with
        | throw e s3 => exact ⟨_, rfl⟩
        | abort => exact ⟨_, rfl⟩
        | ret u s3 =>
          simp only [Run.bindO]
          have h3' : Fs.SameTree s2.fs s3.fs :=
            canonicaliseTimestampAndPermissionsSt_sameTree path st _ _
              (CanonState.onFs_state _
                { s2 with inodesSeen := insert (st.st_dev, st.st_ino) s2.inodesSeen } s3
                (by rw [h3]; rfl))
          cases h4 : CanonState.onFs (changeOwner cfg path st) s3 with
          | throw e s4 => exact ⟨_, rfl⟩
          | abort => exact ⟨_, rfl⟩
          | ret u4 s4 =>
            simp only [Run.bindO]
            have h4' : Fs.SameTree s3.fs s4.fs :=
              changeOwner_sameTree cfg path st _ _
                (CanonState.onFs_state _ _ s4 (by rw [h4]; rfl))
            have hall : Fs.SameTree s.fs s4.fs := (hpre2.trans h3').trans h4'
            by_cases hd : S_ISDIR st.st_mode = true
            · simp only [hd, if_true]
              rw [hall.2.1]
              have hent := Fs.fits_entries s.fs d path st hst hd hfit
              refine forEntries_total _ s.fs
                (fun p s r s1 hr hs =>
                  canonicalisePathMetaData_sameTree cfg uidRange d p s s1 r hr hs)
                _ ?_ s4 hall
              intro q hq s5 h5
              exact ih q s5 (by rw [Fs.fits_sameTree h5]; exact hent q hq)
            · simp only [hd, Bool.false_eq_true, if_false]
              exact ⟨_, rfl⟩

/-! ## The result does not depend on the depth bound -/

theorem forEntries_mono
    (rec rec1 : String → CanonState → Option (Run StoreError Unit CanonState))
    (hmono : ∀ p s r, rec p s = some r → rec1 p s = some r)
    (entries : List String) (s : CanonState) (r : Run StoreError Unit CanonState)
    (h : forEntries rec entries s = some r) : forEntries rec1 entries s = some r := by
  induction entries generalizing s with
  | nil => exact h
  | cons p rest ih =>
    simp only [forEntries, checkInterrupt] at h ⊢
    by_cases hi : s.fs.interrupted = true
    · simp only [hi, if_true, Run.bindO] at h ⊢
      exact h
    · simp only [hi, Bool.false_eq_true, if_false, Run.bindO] at h ⊢
      cases hr : rec p s with
      | none => rw [hr] at h; cases h
      | some r2 =>
        rw [hr] at h
        rw [hmono p s r2 hr]
        cases r2 with
        | ret u s2 => exact ih s2 h
        | throw e s2 => exact h
        | abort => exact h

theorem canonicalisePathMetaData_succ (cfg : StoreConfig) (uidRange : Option (Nat × Nat))
    (depth : Nat) (path : String) (s : CanonState) (r : Run StoreError Unit CanonState)
    (h : canonicalisePathMetaData_ cfg depth path uidRange s = some r) :
    canonicalisePathMetaData_ cfg (depth + 1) path uidRange s = some r := by
  induction depth generalizing path s r with
  | zero => simp [canonicalisePathMetaData_] at h
  | succ d ih =>
    rw [canonicalisePathMetaData_] at h ⊢
    cases hpre : CanonState.onFs (canonicalisePathMetaData_upToOwnership cfg path) s with
    | throw e s2 => rw [hpre] at h; exact h
    | abort => rw [hpre] at h; exact h
    | ret st s2 =>
      rw [hpre] at h
      simp only [Run.bindO] at h ⊢
      by_cases hout : ownerOutsideRange uidRange st.st_uid = true
      · simp only [hout, if_true] at h ⊢
        exact h
      · have hout2 : ownerOutsideRange uidRange st.st_uid = false := by simpa using hout
        simp only [hout2, Bool.false_eq_true, if_false] at h ⊢
        cases h3 : CanonState.onFs (canonicaliseTimestampAndPermissionsSt path st)
            { s2 with inodesSeen := insert (st.st_dev, st.st_ino) s2.inodesSeen } with
        | throw e s3 => rw [h3] at h; exact h
        | abort => rw [h3] at h; exact h
        | ret u s3 =>
          rw [h3] at h
          simp only [Run.bindO] at h ⊢
          cases h4 : CanonState.onFs (changeOwner cfg path st) s3 with
          | throw e s4 => rw [h4] at h; exact h
          | abort => rw [h4] at h; exact h
          | ret u4 s4 =>
            rw [h4] at h
            simp only [Run.bindO] at h ⊢
            by_cases hd : S_ISDIR st.st_mode = true
            · simp only [hd, if_true] at h ⊢
              exact forEntries_mono _ _ (fun p s r hr => ih p s r hr) _ _ _ h
            · simp only [hd, Bool.false_eq_true, if_false] at h ⊢
              exact h

/-- A larger depth bound gives the same result. -/
theorem canonicalisePathMetaData_le (cfg : StoreConfig) (uidRange : Option (Nat × Nat))
    (d d1 : Nat) (hle : d ≤ d1) (path : String) (s : CanonState)
    (r : Run StoreError Unit CanonState)
    (h : canonicalisePathMetaData_ cfg d path uidRange s = some r) :
    canonicalisePathMetaData_ cfg d1 path uidRange s = some r := by
  induction hle with
  | refl => exact h
  | step _ ih => exact canonicalisePathMetaData_succ cfg uidRange _ path s r ih

/-- C17, as the code has it.  Let the first part of `canonicalisePathMetaData_`
(interrupt check, flags, `lstat`, file type check, extended attributes)
return the status `st` of the file; it has changed no file status.  When a
uid range is given and the owner lies outside it: the operation raises the
invalid-ownership `BuildError` if and only if the file is a directory or its
(device, inode) pair is not in the set of inodes seen; otherwise, if the
assertion on the file holds (it is a symlink, or it is owned by the
effective user, has permission bits 0444 or 0555 and modification time 1),
the operation returns in the state the first part left, so without
changing mode, timestamp, ownership or the seen set and without descending,
and if the assertion fails the process is aborted.  When the owner lies
inside the range or no range is given: whenever the operation returns or
throws, whatever the recursion depth allowed, the file's (device, inode)
pair is in the seen set; on a file that is not a directory the operation
ends within depth 1; and on any file, directories included, the operation
ends (it returns, throws or aborts) with every depth bound that the
directory tree at the path fits in, with one and the same result for that
bound and every larger one, and when it has returned or thrown the pair is
in the seen set. -/
theorem canonicalisePathMetaData_ownership (cfg : StoreConfig) (depth : Nat) (path : String)
    (uidRange : Option (Nat × Nat)) (s : CanonState) (st : Stat) (fs1 : Fs)
    (hpre : canonicalisePathMetaData_upToOwnership cfg path s.fs = .ret st fs1) :
    (fs1.stat = s.fs.stat ∧ s.fs.stat path = some st)
    ∧ (ownerOutsideRange uidRange st.st_uid = true →
        ((∃ e s1, canonicalisePathMetaData_ cfg (depth + 1) path uidRange s = some (.throw e s1)
              ∧ e.kind = .BuildError)
            ↔ (S_ISDIR st.st_mode = true ∨ (st.st_dev, st.st_ino) ∉ s.inodesSeen))
        ∧ ((S_ISDIR st.st_mode = true ∨ (st.st_dev, st.st_ino) ∉ s.inodesSeen) →
            canonicalisePathMetaData_ cfg (depth + 1) path uidRange s =
              some (.throw { kind := .BuildError, msg := "invalid ownership on file '%1%'",
                             args := [.str path] } { s with fs := fs1 }))
        ∧ (¬ (S_ISDIR st.st_mode = true ∨ (st.st_dev, st.st_ino) ∉ s.inodesSeen) →
            (S_ISLNK st.st_mode ||
              (st.st_uid == fs1.euid &&
                (st.st_mode &&& notS_IFMT == 0o444 || st.st_mode &&& notS_IFMT == 0o555) &&
                st.st_mtime == mtimeStore)) = true →
            canonicalisePathMetaData_ cfg (depth + 1) path uidRange s =
              some (.ret () { s with fs := fs1 }))
        ∧ (¬ (S_ISDIR st.st_mode = true ∨ (st.st_dev, st.st_ino) ∉ s.inodesSeen) →
            (S_ISLNK st.st_mode ||
              (st.st_uid == fs1.euid &&
                (st.st_mode &&& notS_IFMT == 0o444 || st.st_mode &&& notS_IFMT == 0o555) &&
                st.st_mtime == mtimeStore)) = false →
            canonicalisePathMetaData_ cfg (depth + 1) path uidRange s = some .abort))
    ∧ (ownerOutsideRange uidRange st.st_uid = false →
        (∀ d r s1, canonicalisePathMetaData_ cfg d path uidRange s = some r →
            r.state? = some s1 → (st.st_dev, st.st_ino) ∈ s1.inodesSeen)
        ∧ (S_ISDIR st.st_mode = false →
            ∃ r, canonicalisePathMetaData_ cfg (depth + 1) path uidRange s = some r)
        ∧ (∀ d, s.fs.fits d path = true →
            ∃ r, (∀ d1, d ≤ d1 → canonicalisePathMetaData_ cfg d1 path uidRange s = some r)
              ∧ ∀ s1, r.state? = some s1 → (st.st_dev, st.st_ino) ∈ s1.inodesSeen)) := by
  have hp := canonicalisePathMetaData_upToOwnership_ret cfg path s.fs fs1 st hpre
  refine ⟨⟨hp.1, hp.2.2.1⟩, ?_, ?_⟩
  · intro hout
    have hres := canonicalisePathMetaData_outside cfg depth path uidRange s st fs1 hpre hout
    by_cases hc : S_ISDIR st.st_mode = true ∨ (st.st_dev, st.st_ino) ∉ s.inodesSeen
    · have hb : (S_ISDIR st.st_mode || !decide ((st.st_dev, st.st_ino) ∈ s.inodesSeen)) = true := by
        rcases hc with h | h <;> simp [h]
      rw [hb, if_pos rfl] at hres
      refine ⟨?_, fun _ => hres, fun h => absurd hc h, fun h => absurd hc h⟩
      rw [hres]
      exact ⟨fun _ => hc, fun _ => ⟨_, _, rfl, rfl⟩⟩
    · have hb : (S_ISDIR st.st_mode || !decide ((st.st_dev, st.st_ino) ∈ s.inodesSeen)) = false := by
        simp only [not_or, Decidable.not_not] at hc
        simp [hc.1, hc.2]
      rw [hb] at hres
      simp only [Bool.false_eq_true, if_false] at hres
      refine ⟨?_, fun h => absurd h hc, ?_, ?_⟩
      · constructor
        · rintro ⟨e, s1, h, _⟩
          rw [hres] at h
          split_ifs at h <;> cases h
        · intro h
          exact absurd h hc
      · intro _ ha
        rw [hres, ha]
        rfl
      · intro _ ha
        rw [hres, ha]
        rfl
  · intro hin
    refine ⟨?_, ?_, ?_⟩
    · intro d r s1 h hs
      exact (canonicalisePathMetaData_inodesSeen cfg uidRange d path s s1 r h hs).2 st fs1 hpre hin
    rotate_left
    · intro d hfit
      obtain ⟨r, hr⟩ := canonicalisePathMetaData_total cfg uidRange d path s hfit
      refine ⟨r, fun d1 hle => canonicalisePathMetaData_le cfg uidRange d d1 hle path s r hr, ?_⟩
      intro s1 hs
      exact (canonicalisePathMetaData_inodesSeen cfg uidRange d path s s1 r hr hs).2 st fs1 hpre hin
    · intro hnd
      simp only [canonicalisePathMetaData_, CanonState.onFs, hpre, Run.bindO, hin, hnd,
        Bool.false_eq_true, if_false]
      cases canonicaliseTimestampAndPermissionsSt path st fs1 with
      | throw e f => exact ⟨_, rfl⟩
      | abort => exact ⟨_, rfl⟩
      | ret u f2 =>
        simp only
        cases changeOwner cfg path st f2 with
        | throw e f => exact ⟨_, rfl⟩
        | abort => exact ⟨_, rfl⟩
        | ret u f3 => exact ⟨_, rfl⟩

/-- Instance of C17 as the code has it, with the range 1000-2000 and the
effective user 0.  A regular file owned by uid 1500, inside the range: after
the operation its (device, inode) pair (1, 2) is in the seen set.  A regular
file owned by uid 0, outside the range, canonical and already seen: the
operation returns in the state it was called in.  The directory "d" of
`hardLinkFs`, whose two entries are names of one file: with the depth bound
2, and with 5 just the same, the operation returns with the pair (1, 10)
of the directory and the pair (1, 11) of the file in the seen set, having
issued six calls: three on the directory and three on the first name; on the
second name, now owned by the effective user and so outside the range, it
took the branch of the seen inodes. -/
theorem canonicalisePathMetaData_ownership_witness :
    (∃ r s1, canonicalisePathMetaData_ plainConfig 1 "f" (some (1000, 2000))
        ⟨oneFileFs ⟨0o100644, 1500, 0, 1, 2, 77⟩, ∅⟩ = some r
      ∧ r.state? = some s1 ∧ (1, 2) ∈ s1.inodesSeen)
    ∧ canonicalisePathMetaData_ plainConfig 1 "f" (some (1000, 2000))
        ⟨oneFileFs ⟨0o100444, 0, 0, 1, 2, 1⟩, {(1, 2)}⟩ =
          some (.ret () ⟨oneFileFs ⟨0o100444, 0, 0, 1, 2, 1⟩, {(1, 2)}⟩)
    ∧ (∃ r, canonicalisePathMetaData_ plainConfig 2 "d" (some (1000, 2000)) ⟨hardLinkFs, ∅⟩
          = some r
        ∧ canonicalisePathMetaData_ plainConfig 5 "d" (some (1000, 2000)) ⟨hardLinkFs, ∅⟩
          = some r
        ∧ (∀ s1, r.state? = some s1 → (1, 10) ∈ s1.inodesSeen)
        ∧ (returned? (some r)).map (fun s1 => s1.fs.calls) =
            some [.chmod "d" 0o40555, .setWriteTime "d" 1, .lchown "d" 0 0,
                  .chmod "d/a" 0o100444, .setWriteTime "d/a" 1, .lchown "d/a" 0 0]
        ∧ (returned? (some r)).map (fun s1 => decide ((1, 11) ∈ s1.inodesSeen)) = some true) := by
  obtain ⟨r, hr, hseen⟩ := (canonicalisePathMetaData_ownership plainConfig 0 "d"
    (some (1000, 2000)) ⟨hardLinkFs, ∅⟩ ⟨0o40755, 1500, 0, 1, 10, 77⟩ hardLinkFs
    (by rfl)).2.2 (by decide) |>.2.2 2 (by rfl)
  have hd : (∃ r, canonicalisePathMetaData_ plainConfig 2 "d" (some (1000, 2000)) ⟨hardLinkFs, ∅⟩
          = some r
        ∧ canonicalisePathMetaData_ plainConfig 5 "d" (some (1000, 2000)) ⟨hardLinkFs, ∅⟩
          = some r
        ∧ (∀ s1, r.state? = some s1 → (1, 10) ∈ s1.inodesSeen)
        ∧ (returned? (some r)).map (fun s1 => s1.fs.calls) =
            some [.chmod "d" 0o40555, .setWriteTime "d" 1, .lchown "d" 0 0,
                  .chmod "d/a" 0o100444, .setWriteTime "d/a" 1, .lchown "d/a" 0 0]
        ∧ (returned? (some r)).map (fun s1 => decide ((1, 11) ∈ s1.inodesSeen)) = some true) := by
    refine ⟨r, hr 2 (Nat.le_refl 2), hr 5 (by decide), hseen, ?_, ?_⟩
    · rw [← hr 2 (Nat.le_refl 2)]
      rfl
    · rw [← hr 2 (Nat.le_refl 2)]
      rfl
  have h := (canonicalisePathMetaData_ownership plainConfig 0 "f" (some (1000, 2000))
    ⟨oneFileFs ⟨0o100644, 1500, 0, 1, 2, 77⟩, ∅⟩ ⟨0o100644, 1500, 0, 1, 2, 77⟩ _ rfl).2.2 rfl
  have h2 := ((canonicalisePathMetaData_ownership plainConfig 0 "f" (some (1000, 2000))
    ⟨oneFileFs ⟨0o100444, 0, 0, 1, 2, 1⟩, {(1, 2)}⟩ ⟨0o100444, 0, 0, 1, 2, 1⟩
    (oneFileFs ⟨0o100444, 0, 0, 1, 2, 1⟩) (by rfl)).2.1 (by decide)).2.2.1 (by decide) (by decide)
  exact ⟨⟨_, _, rfl, rfl, h.1 1 _ _ rfl rfl⟩, h2, hd⟩

/-- C17 as stated fails: with the range 1000-2000, a regular file owned by uid 5
that is not a directory and whose (device, inode) pair (1, 2) is in the
seen set, but which is not owned by the effective user 0: the operation
neither raises the `BuildError` nor returns; the assertion aborts the
process. -/
theorem canonicalisePathMetaData_seen_foreign_file :
    canonicalisePathMetaData_ plainConfig 1 "f" (some (1000, 2000))
        ⟨oneFileFs ⟨0o100444, 5, 0, 1, 2, 1⟩, {(1, 2)}⟩ = some .abort
    ∧ S_ISDIR 0o100444 = false ∧ (1, 2) ∈ ({(1, 2)} : Finset (Nat × Nat))
    ∧ ownerOutsideRange (some (1000, 2000)) 5 = true := by
  refine ⟨?_, by decide, by decide, by decide⟩
  rw [canonicalisePathMetaData_outside plainConfig 0 "f" (some (1000, 2000))
    ⟨oneFileFs ⟨0o100444, 5, 0, 1, 2, 1⟩, {(1, 2)}⟩ ⟨0o100444, 5, 0, 1, 2, 1⟩
    (oneFileFs ⟨0o100444, 5, 0, 1, 2, 1⟩) (by rfl) (by decide)]
  rw [if_neg (by decide), if_pos (by decide)]

/-! ## AutoCloseFD -/

theorem FdSys.setFd_same (sys : FdSys) (this : Nat) (fd : Int) :
    (sys.setFd this fd).objs this = fd := by
  simp [FdSys.setFd]

theorem FdSys.setFd_other (sys : FdSys) (this a : Nat) (fd : Int) (h : a ≠ this) :
    (sys.setFd this fd).objs a = sys.objs a := by
  simp [FdSys.setFd, h]

/-- What `close` does on an object that holds a descriptor. -/
theorem AutoCloseFD.close_valid (this : Nat) (sys : FdSys)
    (h : sys.objs this ≠ INVALID_DESCRIPTOR) :
    AutoCloseFD.close this sys =
      if sys.isOpen (sys.objs this) && !sys.closeFails (sys.objs this) then
        .ret () (FdSys.setFd
          { sys with isOpen := fun d => if d = sys.objs this then false else sys.isOpen d
                     closeCalls := sys.closeCalls ++ [sys.objs this] }
          this INVALID_DESCRIPTOR)
      else
        .throw { kind := .NativeSysError, msg := "closing file descriptor %1%",
                 args := [.int (sys.objs this)] }
          { sys with closeCalls := sys.closeCalls ++ [sys.objs this] } := by
  have hb : (sys.objs this != INVALID_DESCRIPTOR) = true := by simpa using h
  simp only [AutoCloseFD.close, hb, if_true, FdSys.sysClose]
  split_ifs <;> simp_all

/-- What `close` does on an object that holds no descriptor. -/
theorem AutoCloseFD.close_invalid (this : Nat) (sys : FdSys)
    (h : sys.objs this = INVALID_DESCRIPTOR) :
    AutoCloseFD.close this sys = .ret () sys := by
  simp [AutoCloseFD.close, h]

/-- The effect of a `close` that returns. -/
theorem AutoCloseFD.close_ret (this : Nat) (sys sys1 : FdSys)
    (h : AutoCloseFD.close this sys = .ret () sys1) :
    sys1.objs this = INVALID_DESCRIPTOR
    ∧ (∀ a, a ≠ this → sys1.objs a = sys.objs a)
    ∧ sys1.closeCalls = sys.closeCalls ++
        (if sys.objs this = INVALID_DESCRIPTOR then [] else [sys.objs this])
    ∧ (sys.objs this ≠ INVALID_DESCRIPTOR →
        sys.isOpen (sys.objs this) = true ∧ sys1.isOpen (sys.objs this) = false) := by
  by_cases hv : sys.objs this = INVALID_DESCRIPTOR
  · rw [AutoCloseFD.close_invalid this sys hv] at h
    cases h
    exact ⟨hv, fun _ _ => rfl, by simp [hv], fun h => absurd hv h⟩
  · rw [AutoCloseFD.close_valid this sys hv] at h
    split_ifs at h with hc
    cases h
    refine ⟨FdSys.setFd_same _ _ _, fun a ha => FdSys.setFd_other _ _ _ _ ha, by simp [hv, FdSys.setFd],
      fun _ => ⟨?_, by simp [FdSys.setFd]⟩⟩
    simp only [Bool.and_eq_true] at hc
    exact hc.1

/-- C18.  For the object at `this` (and, for the moves, a source object at
`that`): when `close()` returns, the object holds the invalid descriptor
and converts to false; the system call `close` has been issued once, on the
descriptor held, if one was held, which was open and is open no more, and
not at all otherwise; and a further `close()` returns in the same state,
issuing no call and raising nothing, so a held descriptor is successfully
closed at most once.  When `close()` throws, the objects and the open
descriptors are as before.  `release()` returns the held descriptor and
leaves the object invalid, issuing no call.  Move construction from a
distinct object gives the target the source's descriptor and leaves the
source invalid, issuing no call.  Move assignment from a distinct object,
when it returns, has first closed the descriptor the target held (one call
of `close` on it, if it held one), then given the target the source's
descriptor and left the source invalid; when it throws, no object has
changed. -/
theorem autoCloseFD_spec (this that : Nat) (sys : FdSys) :
    (∀ sys1, AutoCloseFD.close this sys = .ret () sys1 →
        sys1.objs this = INVALID_DESCRIPTOR ∧ AutoCloseFD.toBool this sys1 = false
        ∧ sys1.closeCalls = sys.closeCalls ++
            (if sys.objs this = INVALID_DESCRIPTOR then [] else [sys.objs this])
        ∧ (sys.objs this ≠ INVALID_DESCRIPTOR →
            sys.isOpen (sys.objs this) = true ∧ sys1.isOpen (sys.objs this) = false)
        ∧ AutoCloseFD.close this sys1 = .ret () sys1)
    ∧ (∀ e sys1, AutoCloseFD.close this sys = .throw e sys1 →
        e.kind = .NativeSysError ∧ sys1.objs = sys.objs ∧ sys1.isOpen = sys.isOpen)
    ∧ AutoCloseFD.close this sys ≠ .abort
    ∧ ((AutoCloseFD.release this sys).1 = sys.objs this
        ∧ (AutoCloseFD.release this sys).2.objs this = INVALID_DESCRIPTOR
        ∧ AutoCloseFD.toBool this (AutoCloseFD.release this sys).2 = false
        ∧ (AutoCloseFD.release this sys).2.closeCalls = sys.closeCalls
        ∧ (AutoCloseFD.release this sys).2.isOpen = sys.isOpen)
    ∧ (this ≠ that →
        (AutoCloseFD.moveConstruct this that sys).objs this = sys.objs that
        ∧ (AutoCloseFD.moveConstruct this that sys).objs that = INVALID_DESCRIPTOR
        ∧ (AutoCloseFD.moveConstruct this that sys).closeCalls = sys.closeCalls
        ∧ (AutoCloseFD.moveConstruct this that sys).isOpen = sys.isOpen)
    ∧ (this ≠ that → ∀ sys1, AutoCloseFD.moveAssign this that sys = .ret () sys1 →
        sys1.objs this = sys.objs that
        ∧ sys1.objs that = INVALID_DESCRIPTOR
        ∧ sys1.closeCalls = sys.closeCalls ++
            (if sys.objs this = INVALID_DESCRIPTOR then [] else [sys.objs this])
        ∧ (sys.objs this ≠ INVALID_DESCRIPTOR → sys1.isOpen (sys.objs this) = false))
    ∧ (∀ e sys1, AutoCloseFD.moveAssign this that sys = .throw e sys1 →
        e.kind = .NativeSysError ∧ sys1.objs = sys.objs) := by
  refine ⟨?_, ?_, ?_, ?_, ?_, ?_, ?_⟩
  · intro sys1 h
    obtain ⟨h1, _, h3, h4⟩ := AutoCloseFD.close_ret this sys sys1 h
    exact ⟨h1, by simp [AutoCloseFD.toBool, h1], h3, h4, AutoCloseFD.close_invalid this sys1 h1⟩
  · intro e sys1 h
    by_cases hv : sys.objs this = INVALID_DESCRIPTOR
    · rw [AutoCloseFD.close_invalid this sys hv] at h
      cases h
    · rw [AutoCloseFD.close_valid this sys hv] at h
      split_ifs at h
      cases h
      exact ⟨rfl, rfl, rfl⟩
  · by_cases hv : sys.objs this = INVALID_DESCRIPTOR
    · rw [AutoCloseFD.close_invalid this sys hv]
      simp
    · rw [AutoCloseFD.close_valid this sys hv]
      split_ifs <;> simp
  · exact ⟨rfl, FdSys.setFd_same _ _ _, by simp [AutoCloseFD.toBool, AutoCloseFD.release,
      FdSys.setFd], rfl, rfl⟩
  · intro hne
    refine ⟨?_, FdSys.setFd_same _ _ _, rfl, rfl⟩
    simp only [AutoCloseFD.moveConstruct]
    rw [FdSys.setFd_other _ _ _ _ hne, FdSys.setFd_same]
  · intro hne sys1 h
    simp only [AutoCloseFD.moveAssign] at h
    cases hc : AutoCloseFD.close this sys with
    | throw e s2 => rw [hc] at h; cases h
    | abort => rw [hc] at h; cases h
    | ret u s2 =>
      rw [hc] at h
      simp only [Run.bind] at h
      cases h
      obtain ⟨_, h2, h3, h4⟩ := AutoCloseFD.close_ret this sys s2 hc
      refine ⟨?_, FdSys.setFd_same _ _ _, h3, fun hv => (h4 hv).2⟩
      rw [FdSys.setFd_other _ _ _ _ hne, FdSys.setFd_same]
      exact h2 that (Ne.symm hne)
  · intro e sys1 h
    simp only [AutoCloseFD.moveAssign] at h
    by_cases hv : sys.objs this = INVALID_DESCRIPTOR
    · rw [AutoCloseFD.close_invalid this sys hv] at h
      cases h
    · rw [AutoCloseFD.close_valid this sys hv] at h
      split_ifs at h <;> simp only [Run.bind] at h <;> cases h
      exact ⟨rfl, rfl⟩

/-- Instance of C18: the object at address 0 holds 3 and the one at address 1
holds 4; the move assignment of the second to the first closes 3, leaves 4
in the first and the invalid descriptor in the second. -/
theorem autoCloseFD_spec_witness :
    ∃ sys1, AutoCloseFD.moveAssign 0 1 twoFds = .ret () sys1
      ∧ sys1.objs 0 = 4 ∧ sys1.objs 1 = -1 ∧ sys1.closeCalls = [3]
      ∧ sys1.isOpen 3 = false := by
  obtain ⟨h1, h2, h3, h4⟩ :=
    (autoCloseFD_spec 0 1 twoFds).2.2.2.2.2.1 (by decide) _ rfl
  exact ⟨_, rfl, h1, h2, h3, h4 (by decide)⟩

/-! ## Allocation -/

theorem allocBytes_eq (n : Nat) (m : MemSource) (hn : n < 2 ^ 64) :
    allocBytes n m =
      if n ≤ m.avail then
        .ret (m.brk + 1)
          { avail := m.avail - n, brk := m.brk + 1 + n
            blocks := fun a => if a = m.brk + 1 then some (List.replicate n 0) else m.blocks a }
      else
        .throw { kind := .bad_alloc, msg := "std::bad_alloc", subject := none, pos := none,
                 traces := [] } m := by
  have hn2 : n < 18446744073709551616 := hn
  unfold allocBytes calloc
  by_cases h : n ≤ m.avail
  · simp [h, hn2]
  · simp [h]

theorem readLE_replicate (n off len : Nat) (h : off + len ≤ n) :
    readLE (List.replicate n 0) off len = some 0 := by
  unfold readLE
  rw [if_pos (by simpa using h)]
  congr 1
  apply List.sum_eq_zero
  intro x hx
  simp only [List.mem_map, List.mem_range] at hx
  obtain ⟨j, _, rfl⟩ := hx
  have : (List.replicate n 0).getD (off + j) 0 = 0 := by
    rw [List.getD_eq_getElem?_getD, List.getElem?_replicate]
    split_ifs <;> rfl
  rw [this, Nat.zero_mul]

/-- C11, as the code has it.  `allocBytes(n)` either returns a non-null block of
`n` bytes that are all zero, or throws `std::bad_alloc` leaving the memory
source as it was; it throws exactly when the memory source is exhausted for
the request.  A node freshly returned by `allocValue` is a block of
`sizeof(Value)` zero bytes, so every field of it reads 0.  And for every
`size` whose byte count `sizeof(Env) + size * sizeof(Value *)` fits `size_t`,
the environment freshly returned by `allocEnv(size)` is a block of that many
zero bytes, so each of its value slots `values[i]`, `i < size`, reads 0. -/
theorem allocBytes_zeroed (L : Layout) (n size : Nat) (s : AllocState)
    (hn : n < 2 ^ 64) (hv : L.sizeofValue < 2 ^ 64) :
    ((∃ p m1, allocBytes n s.mem = .ret p m1 ∧ p ≠ 0
          ∧ m1.blocks p = some (List.replicate n 0))
      ∨ (∃ e, allocBytes n s.mem = .throw e s.mem ∧ e.kind = .bad_alloc))
    ∧ ((∃ e m1, allocBytes n s.mem = .throw e m1) ↔ s.mem.avail < n)
    ∧ (∀ p s1, allocValue L s = .ret p s1 →
        ∃ b, s1.mem.blocks p = some b ∧ b = List.replicate L.sizeofValue 0
          ∧ ∀ off len, off + len ≤ L.sizeofValue → readLE b off len = some 0)
    ∧ (L.sizeofEnv + size * L.sizeofPtr < 2 ^ 64 →
        ∀ p s1, allocEnv L size s = .ret p s1 →
          ∃ b, s1.mem.blocks p = some b
            ∧ b = List.replicate (L.sizeofEnv + size * L.sizeofPtr) 0
            ∧ ∀ i, i < size → envSlot L b i = some 0) := by
  refine ⟨?_, ?_, ?_, ?_⟩
  · rw [allocBytes_eq n s.mem hn]
    by_cases h : n ≤ s.mem.avail
    · left
      exact ⟨_, _, by rw [if_pos h], by simp, by simp⟩
    · right
      exact ⟨_, by rw [if_neg h], rfl⟩
  · rw [allocBytes_eq n s.mem hn]
    by_cases h : n ≤ s.mem.avail
    · rw [if_pos h]
      simp
      omega
    · rw [if_neg h]
      simp
      omega
  · intro p s1 h
    unfold allocValue at h
    rw [allocBytes_eq _ s.mem hv] at h
    split_ifs at h
    cases h
    exact ⟨_, by simp, rfl, fun off len hl => readLE_replicate _ off len hl⟩
  · intro hfit p s1 h
    unfold allocEnv at h
    rw [Nat.mod_eq_of_lt hfit, allocBytes_eq _ s.mem hfit] at h
    split_ifs at h
    cases h
    refine ⟨_, by simp, rfl, ?_⟩
    intro i hi
    apply readLE_replicate
    have : (i + 1) * L.sizeofPtr ≤ size * L.sizeofPtr := Nat.mul_le_mul_right _ hi
    rw [Nat.add_mul, Nat.one_mul] at this
    omega

/-- Instance of C11 as the code has it: an environment of 3 slots on a 64-bit
platform, from a source with 1000 bytes; slot 2 reads 0. -/
theorem allocBytes_zeroed_witness :
    ∃ p s1 b, allocEnv lp64 3 (freshAlloc 1000) = .ret p s1
      ∧ s1.mem.blocks p = some b ∧ b.length = 32 ∧ envSlot lp64 b 2 = some 0 := by
  obtain ⟨b, h1, h2, h3⟩ :=
    (allocBytes_zeroed lp64 0 3 (freshAlloc 1000) (by decide) (by decide)).2.2.2
      (by decide) _ _ rfl
  exact ⟨_, _, b, rfl, h1, by rw [h2]; rfl, h3 2 (by decide)⟩

/-- C11 as stated fails for the size `2 ^ 61` on a 64-bit platform: the byte
count `8 + 2 ^ 61 * 8` wraps around to 8, `allocEnv` returns a block of 8
bytes, and already the value slot 0 of the environment lies outside the
block, so it is not a zeroed slot. -/
theorem allocEnv_size_wraps :
    ∃ p s1 b, allocEnv lp64 (2 ^ 61) (freshAlloc 1000) = .ret p s1
      ∧ s1.mem.blocks p = some b ∧ b.length = 8 ∧ envSlot lp64 b 0 = none := by
  have h : allocEnv lp64 (2 ^ 61) (freshAlloc 1000) =
      .ret 1 { mem := { avail := 992, brk := 9
                        blocks := fun a => if a = 1 then some (List.replicate 8 0) else none }
               nrValues := 0, nrEnvs := 1, nrValuesInEnvs := 2 ^ 61 } := by
    unfold allocEnv
    rw [show (lp64.sizeofEnv + 2 ^ 61 * lp64.sizeofPtr) % 2 ^ 64 = 8 from by decide,
      allocBytes_eq 8 _ (by decide)]
    rfl
  exact ⟨_, _, List.replicate 8 0, h, rfl, rfl, rfl⟩

end Nix
